import Mathlib

/-!
Verification of the gradient reconstruction engine of code_saturne
(`src/alge/cs_gradient.cxx`), shallow-embedded over exact rationals.

Modelling conventions, used throughout:

* `cs_real_t` (C `double`) is embedded as `ℚ`, i.e. the algorithms are studied
  in exact arithmetic (the spec's properties are stated "exactly in exact
  arithmetic, to floating-point tolerance in the implementation").
* Arrays are total functions `ℕ → α`; the loops of the source only ever read
  and write indices below the corresponding mesh count, exactly as the C code
  only touches allocated entries.  Sequential `foldl` over `List.range n`
  models a loop over `0 ≤ i < n`.  The OpenMP thread-group partitions of the
  face loops enumerate each face exactly once with disjoint writes per group;
  the sequential fold is that enumeration.
* The embedding models the single-rank configuration: `mesh->halo == NULL`,
  `cs_glob_n_ranks == 1`, `n_domains == 1`, so every halo synchronization and
  MPI reduction in the source is the identity / a no-op, and `cpl == NULL`
  (no internal coupling), `cs_glob_porous_model == 0` and no porosity fields
  (`is_porous == 0`, the `*_poro_duq_*` terms read the zero scalar), no
  accelerator (`HAVE_CUDA` disabled).  The hydrostatic-pressure branch
  (`hyd_p_flag == 1`) and the anisotropic 6-component weight (`w_stride == 6`)
  are not embedded; `c_weight` is the optional scalar weight (`w_stride == 1`).
* `sqrt` used by `_l2_norm_1` is strictly monotone on nonnegative reals, so
  the source's comparisons of (nonnegative) norms are embedded as the
  equivalent comparisons of squared norms; see `l2_norm_sq` below.
-/

namespace CS

/-- A 3-component vector of reals (`cs_real_3_t`). -/
structure V3 where
  x : ℚ
  y : ℚ
  z : ℚ
deriving DecidableEq, Repr

namespace V3

instance : Zero V3 := ⟨⟨0, 0, 0⟩⟩

instance : Add V3 := ⟨fun a b => ⟨a.x + b.x, a.y + b.y, a.z + b.z⟩⟩

instance : Neg V3 := ⟨fun a => ⟨-a.x, -a.y, -a.z⟩⟩

instance : Sub V3 := ⟨fun a b => ⟨a.x - b.x, a.y - b.y, a.z - b.z⟩⟩

instance : SMul ℚ V3 := ⟨fun t a => ⟨t * a.x, t * a.y, t * a.z⟩⟩

/-- Euclidean dot product of two 3-vectors. -/
def dot (a b : V3) : ℚ := a.x * b.x + a.y * b.y + a.z * b.z

/-- Squared Euclidean magnitude of a 3-vector. -/
def normSq (a : V3) : ℚ := dot a a

theorem smul_def (t : ℚ) (a : V3) : t • a = ⟨t * a.x, t * a.y, t * a.z⟩ := rfl

theorem add_def (a b : V3) : a + b = ⟨a.x + b.x, a.y + b.y, a.z + b.z⟩ := rfl

theorem sub_def (a b : V3) : a - b = ⟨a.x - b.x, a.y - b.y, a.z - b.z⟩ := rfl

theorem zero_def : (0 : V3) = ⟨0, 0, 0⟩ := rfl

theorem normSq_nonneg (a : V3) : 0 ≤ normSq a := by
  have hx := mul_self_nonneg a.x
  have hy := mul_self_nonneg a.y
  have hz := mul_self_nonneg a.z
  unfold normSq dot
  linarith

theorem normSq_smul (t : ℚ) (a : V3) : normSq (t • a) = t ^ 2 * normSq a := by
  unfold normSq dot
  show t * a.x * (t * a.x) + t * a.y * (t * a.y) + t * a.z * (t * a.z) = _
  ring

theorem smul_zero_eq (t : ℚ) : t • (0 : V3) = 0 := by
  show t • (⟨0, 0, 0⟩ : V3) = ⟨0, 0, 0⟩
  simp [smul_def]

theorem one_smul_eq (a : V3) : (1 : ℚ) • a = a := by
  cases a
  simp [smul_def]

end V3

/-- Pointwise update of a `ℕ`-indexed array (an in-place array store). -/
def upd {α : Type} (f : ℕ → α) (i : ℕ) (v : α) : ℕ → α :=
  fun j => if j = i then v else f j

theorem upd_same {α : Type} (f : ℕ → α) (i : ℕ) (v : α) : upd f i v i = v := by
  simp [upd]

theorem upd_ne {α : Type} (f : ℕ → α) (i j : ℕ) (v : α) (h : j ≠ i) :
    upd f i v j = f j := by
  simp [upd, h]

/-- A packed symmetric 3×3 matrix (`cs_cocg_6_t`), stored as in the source:
entries `[0..5]` are `a00, a11, a22, a01, a12, a02`. -/
structure C6 where
  c0 : ℚ
  c1 : ℚ
  c2 : ℚ
  c3 : ℚ
  c4 : ℚ
  c5 : ℚ
deriving DecidableEq, Repr

/-- A full 3×3 matrix (`cs_real_33_t`), row-major entries. -/
structure M33 where
  m00 : ℚ
  m01 : ℚ
  m02 : ℚ
  m10 : ℚ
  m11 : ℚ
  m12 : ℚ
  m20 : ℚ
  m21 : ℚ
  m22 : ℚ
deriving DecidableEq, Repr

namespace M33

/-- The identity matrix. -/
def one : M33 := ⟨1, 0, 0, 0, 1, 0, 0, 0, 1⟩

/-- Matrix product of two 3×3 matrices. -/
def mul (a b : M33) : M33 :=
  ⟨a.m00 * b.m00 + a.m01 * b.m10 + a.m02 * b.m20,
   a.m00 * b.m01 + a.m01 * b.m11 + a.m02 * b.m21,
   a.m00 * b.m02 + a.m01 * b.m12 + a.m02 * b.m22,
   a.m10 * b.m00 + a.m11 * b.m10 + a.m12 * b.m20,
   a.m10 * b.m01 + a.m11 * b.m11 + a.m12 * b.m21,
   a.m10 * b.m02 + a.m11 * b.m12 + a.m12 * b.m22,
   a.m20 * b.m00 + a.m21 * b.m10 + a.m22 * b.m20,
   a.m20 * b.m01 + a.m21 * b.m11 + a.m22 * b.m21,
   a.m20 * b.m02 + a.m21 * b.m12 + a.m22 * b.m22⟩

/-- Determinant of a 3×3 matrix. -/
def det (a : M33) : ℚ :=
    a.m00 * (a.m11 * a.m22 - a.m12 * a.m21)
  - a.m01 * (a.m10 * a.m22 - a.m12 * a.m20)
  + a.m02 * (a.m10 * a.m21 - a.m11 * a.m20)

/-- Matrix–vector product used by the sweep increment of
`_iterative_scalar_gradient`: the source computes
`grad[j] += rhs[0]*cocg[0][j] + rhs[1]*cocg[1][j] + rhs[2]*cocg[2][j]`,
i.e. the product of the transpose of `cocg` with `rhs`. -/
def mulVecT (a : M33) (v : V3) : V3 :=
  ⟨v.x * a.m00 + v.y * a.m10 + v.z * a.m20,
   v.x * a.m01 + v.y * a.m11 + v.z * a.m21,
   v.x * a.m02 + v.y * a.m12 + v.z * a.m22⟩

/-- Matrix–vector product (rows dotted with the vector). -/
def mulVec (a : M33) (v : V3) : V3 :=
  ⟨a.m00 * v.x + a.m01 * v.y + a.m02 * v.z,
   a.m10 * v.x + a.m11 * v.y + a.m12 * v.z,
   a.m20 * v.x + a.m21 * v.y + a.m22 * v.z⟩

theorem mulVecT_zero (a : M33) : mulVecT a 0 = 0 := by
  show mulVecT a ⟨0, 0, 0⟩ = ⟨0, 0, 0⟩
  simp [mulVecT]

theorem mulVec_zero (a : M33) : mulVec a 0 = 0 := by
  show mulVec a ⟨0, 0, 0⟩ = ⟨0, 0, 0⟩
  simp [mulVec]

end M33

/-- Unpack a packed symmetric matrix into the full symmetric 3×3 matrix it
represents (`[0..5] = a00, a11, a22, a01, a12, a02`). -/
def C6.toM33 (a : C6) : M33 :=
  ⟨a.c0, a.c3, a.c5,
   a.c3, a.c1, a.c4,
   a.c5, a.c4, a.c2⟩

/-- Determinant of the symmetric matrix represented by a packed `C6`,
written exactly as the source's cofactor expansion
`a[0]*a00 + a[3]*a01 + a[5]*a02`. -/
def C6.det (a : C6) : ℚ :=
    a.c0 * (a.c1 * a.c2 - a.c4 * a.c4)
  + a.c3 * (a.c4 * a.c5 - a.c3 * a.c2)
  + a.c5 * (a.c3 * a.c4 - a.c1 * a.c5)

/-- Embedding of `_math_6_inv_cramer_sym_in_place`
(`cs_gradient.cxx:191-209`): in-place Cramer's-rule inversion of a packed
symmetric 3×3 matrix. -/
def math_6_inv_cramer_sym_in_place (a : C6) : C6 :=
  let a00 := a.c1 * a.c2 - a.c4 * a.c4
  let a01 := a.c4 * a.c5 - a.c3 * a.c2
  let a02 := a.c3 * a.c4 - a.c1 * a.c5
  let a11 := a.c0 * a.c2 - a.c5 * a.c5
  let a12 := a.c3 * a.c5 - a.c0 * a.c4
  let a22 := a.c0 * a.c1 - a.c3 * a.c3
  let det_inv := 1 / (a.c0 * a00 + a.c3 * a01 + a.c5 * a02)
  ⟨a00 * det_inv, a11 * det_inv, a22 * det_inv,
   a01 * det_inv, a12 * det_inv, a02 * det_inv⟩

/-- Modelled from the spec: `cs_math_33_inv_cramer_in_place` (declared in
`cs_math.h`, whose implementation is not part of `src/`; the spec describes it
as the "3×3 Cramer's-rule inversion" used once per mesh epoch on the iterative
scheme's covariance).  Standard adjugate-over-determinant inversion of a full
3×3 matrix. -/
def math_33_inv_cramer_in_place (a : M33) : M33 :=
  let d := M33.det a
  ⟨(a.m11 * a.m22 - a.m12 * a.m21) / d,
   (a.m02 * a.m21 - a.m01 * a.m22) / d,
   (a.m01 * a.m12 - a.m02 * a.m11) / d,
   (a.m12 * a.m20 - a.m10 * a.m22) / d,
   (a.m00 * a.m22 - a.m02 * a.m20) / d,
   (a.m02 * a.m10 - a.m00 * a.m12) / d,
   (a.m10 * a.m21 - a.m11 * a.m20) / d,
   (a.m01 * a.m20 - a.m00 * a.m21) / d,
   (a.m00 * a.m11 - a.m01 * a.m10) / d⟩

/-- Sequential loop over `0 ≤ i < n`, threading a state: `loop n f s` applies
`f 0` first and `f (n-1)` last. -/
def loop {σ : Type} : ℕ → (ℕ → σ → σ) → σ → σ
  | 0, _, s => s
  | n + 1, f, s => f n (loop n f s)

/-- Sequential loop over `a ≤ i < b`, threading a state. -/
def loopRange {σ : Type} (a b : ℕ) (f : ℕ → σ → σ) (s : σ) : σ :=
  loop (b - a) (fun k => f (a + k)) s

/-- Sum of `g i` over `0 ≤ i < n`. -/
def sumN (n : ℕ) (g : ℕ → ℚ) : ℚ := loop n (fun i acc => acc + g i) 0

/-- Modelled from the spec: the "numerically zero" threshold `cs_math_epzero`
(declared in `cs_math.h`, not part of `src/`); its concrete value (10⁻¹²) is
irrelevant to the claims, which only use that it is positive. -/
def epzero : ℚ := 1 / 10 ^ 12

/-- The largest finite IEEE-754 double (`DBL_MAX`), used by the face-based
clipping as the initial per-cell factor. -/
def DBL_MAX : ℚ := 17976931348623157 * 10 ^ 292

/-- The numeric values of `cs_gradient_limit_t` (declared in
`cs_gradient.h`, which is not part of `src/`).  They are pinned by the
source itself: `_vector_gradient_clipping` receives the same `clip_mode`
values as an `int` and branches on the raw numbers — `clip_mode < 0`
returns immediately, `clip_mode == 0` is the cell-based limiter and
`clip_mode == 1` the face-based one (`cs_gradient.cxx:4038,4073,4181`) —
while the scalar and tensor clipping branch on the enum constants for the
same mode values, so `CS_GRADIENT_LIMIT_NONE = -1`,
`CS_GRADIENT_LIMIT_CELL = 0`, `CS_GRADIENT_LIMIT_FACE = 1`. -/
def CS_GRADIENT_LIMIT_NONE : ℤ := -1

/-- Cell-based clip mode (see `CS_GRADIENT_LIMIT_NONE`). -/
def CS_GRADIENT_LIMIT_CELL : ℤ := 0

/-- Face-based clip mode (see `CS_GRADIENT_LIMIT_NONE`). -/
def CS_GRADIENT_LIMIT_FACE : ℤ := 1

/-- Halo type (`cs_halo_type_t`): standard or extended neighborhood. -/
inductive HaloType where
  | standard : HaloType
  | extended : HaloType
deriving DecidableEq, Repr

/-- The fields of `cs_mesh_t` read by the gradient engine.  `n_cells_ext` is
`n_cells_with_ghosts`.  `has_cell_cells` models `cell_cells_idx != NULL`
(extended-neighborhood adjacency present).  The halo itself is modelled as
absent (`halo == NULL`, single rank), making every synchronization a no-op. -/
structure Mesh where
  n_cells : ℕ
  n_cells_ext : ℕ
  n_i_faces : ℕ
  n_b_faces : ℕ
  n_b_cells : ℕ
  i_face_cells : ℕ → ℕ × ℕ
  b_face_cells : ℕ → ℕ
  b_cells : ℕ → ℕ
  has_cell_cells : Bool
  cell_cells_idx : ℕ → ℕ
  cell_cells_lst : ℕ → ℕ

/-- The fields of `cs_mesh_quantities_t` read by the gradient engine.
`bad_cells_warped_correction` models the
`cs_glob_mesh_quantities_flag & CS_BAD_CELLS_WARPED_CORRECTION` test.
With `cs_glob_porous_model == 0` (modelled), `cell_f_vol` is used as such.
`b_face_u_normal` models the result of `cs_math_3_normalize` applied to
`b_face_normal` (the function lives in `cs_math.h`, not under `src/`, and a
unit vector is in general not representable over ℚ, so the normalized
boundary normals are taken as given quantities; zero when degenerate). -/
structure MeshQuantities where
  weight : ℕ → ℚ
  cell_vol : ℕ → ℚ
  cell_f_vol : ℕ → ℚ
  cell_cen : ℕ → V3
  i_face_normal : ℕ → V3
  i_f_face_normal : ℕ → V3
  b_face_normal : ℕ → V3
  b_f_face_normal : ℕ → V3
  i_face_cog : ℕ → V3
  b_face_cog : ℕ → V3
  diipb : ℕ → V3
  dofij : ℕ → V3
  b_face_surf : ℕ → ℚ
  b_dist : ℕ → ℚ
  b_face_u_normal : ℕ → V3
  has_disable_flag : Bool
  c_disable_flag : ℕ → ℤ
  corr_grad_lin : ℕ → M33
  bad_cells_warped_correction : Bool

/-- The per-cell inverse-volume factor of the finalization loops:
`if (has_dc * c_disable_flag[has_dc*cell_id] == 0) dvol = 1./cell_f_vol[cell_id];
else dvol = 0.;`. -/
def MeshQuantities.dvol (q : MeshQuantities) (c : ℕ) : ℚ :=
  if q.has_disable_flag = true ∧ q.c_disable_flag c ≠ 0 then 0
  else 1 / q.cell_f_vol c

/-- In-place `x[i] = CS_MAX(x[i], v)` on a `ℕ`-indexed array. -/
def bumpMax (x : ℕ → ℚ) (i : ℕ) (v : ℚ) : ℕ → ℚ :=
  upd x i (max (x i) v)

/-- In-place `x[i] = CS_MIN(x[i], v)` on a `ℕ`-indexed array. -/
def dropMin (x : ℕ → ℚ) (i : ℕ) (v : ℚ) : ℕ → ℚ :=
  upd x i (min (x i) v)

/-- Accumulate a face's contributions to the `denum`/`denom` pair for its two
cells: `denum[ii] = max(denum[ii], d1); denum[jj] = max(denum[jj], d2);
denom[ii] = max(denom[ii], dv); denom[jj] = max(denom[jj], dv)`. -/
def accumMax2 (dd : (ℕ → ℚ) × (ℕ → ℚ)) (ii jj : ℕ) (d1 d2 dv : ℚ) :
    (ℕ → ℚ) × (ℕ → ℚ) :=
  (bumpMax (bumpMax dd.1 ii d1) jj d2, bumpMax (bumpMax dd.2 ii dv) jj dv)

/-- Accumulate an extended-neighbor contribution into cell `ii` only. -/
def accumMax1 (dd : (ℕ → ℚ) × (ℕ → ℚ)) (ii : ℕ) (d1 dv : ℚ) :
    (ℕ → ℚ) × (ℕ → ℚ) :=
  (bumpMax dd.1 ii d1, bumpMax dd.2 ii dv)

/-- One interior-face step of the cell-based `denum`/`denom` accumulation
(`cs_gradient.cxx:768-800`): each cell of the face records the projection of
its own gradient onto the centroid offset. -/
def cellDenumsStep (m : Mesh) (q : MeshQuantities) (var : ℕ → ℚ)
    (grad : ℕ → V3) (f : ℕ) (dd : (ℕ → ℚ) × (ℕ → ℚ)) :
    (ℕ → ℚ) × (ℕ → ℚ) :=
  let ii := (m.i_face_cells f).1
  let jj := (m.i_face_cells f).2
  let dist := q.cell_cen ii - q.cell_cen jj
  accumMax2 dd ii jj |V3.dot dist (grad ii)| |V3.dot dist (grad jj)|
    |var ii - var jj|

/-- One owned-cell step of the extended-neighborhood complement of the
cell-based accumulation (`cs_gradient.cxx:804-829`). -/
def cellDenumsExt (m : Mesh) (q : MeshQuantities) (var : ℕ → ℚ)
    (grad : ℕ → V3) (ii : ℕ) (dd : (ℕ → ℚ) × (ℕ → ℚ)) :
    (ℕ → ℚ) × (ℕ → ℚ) :=
  loopRange (m.cell_cells_idx ii) (m.cell_cells_idx (ii + 1))
    (fun cidx dd =>
      let jj := m.cell_cells_lst cidx
      let dist := q.cell_cen ii - q.cell_cen jj
      accumMax1 dd ii |V3.dot dist (grad ii)| |var ii - var jj|) dd

/-- First phase of `_scalar_gradient_clipping` for the cell-based mode
(`cs_gradient.cxx:766-831`): per cell, `denum` accumulates the maximum
face-projected variation of that cell's own gradient and `denom` the maximum
variation of the variable, over interior faces and (in extended mode, when
the adjacency is present) over extended neighbors. -/
def clipDenumsCell (m : Mesh) (q : MeshQuantities) (halo_type : HaloType)
    (var : ℕ → ℚ) (grad : ℕ → V3) : (ℕ → ℚ) × (ℕ → ℚ) :=
  let s0 : (ℕ → ℚ) × (ℕ → ℚ) := (fun _ => 0, fun _ => 0)
  let s1 := loop m.n_i_faces (cellDenumsStep m q var grad) s0
  if m.has_cell_cells = true ∧ halo_type = HaloType.extended then
    loop m.n_cells (cellDenumsExt m q var grad) s1
  else s1

/-- One interior-face step of the face-based accumulation
(`cs_gradient.cxx:834-866`): the projected variation uses the face-mean
gradient of the two adjacent cells and is accumulated into both cells. -/
def faceDenumsStep (m : Mesh) (q : MeshQuantities) (var : ℕ → ℚ)
    (grad : ℕ → V3) (f : ℕ) (dd : (ℕ → ℚ) × (ℕ → ℚ)) :
    (ℕ → ℚ) × (ℕ → ℚ) :=
  let ii := (m.i_face_cells f).1
  let jj := (m.i_face_cells f).2
  let dist := q.cell_cen ii - q.cell_cen jj
  let gf := ((1 : ℚ) / 2) • (grad ii + grad jj)
  accumMax2 dd ii jj |V3.dot dist gf| |V3.dot dist gf| |var ii - var jj|

/-- One owned-cell step of the extended-neighborhood complement of the
face-based accumulation (`cs_gradient.cxx:870-899`). -/
def faceDenumsExt (m : Mesh) (q : MeshQuantities) (var : ℕ → ℚ)
    (grad : ℕ → V3) (ii : ℕ) (dd : (ℕ → ℚ) × (ℕ → ℚ)) :
    (ℕ → ℚ) × (ℕ → ℚ) :=
  loopRange (m.cell_cells_idx ii) (m.cell_cells_idx (ii + 1))
    (fun cidx dd =>
      let jj := m.cell_cells_lst cidx
      let dist := q.cell_cen ii - q.cell_cen jj
      let gf := ((1 : ℚ) / 2) • (grad ii + grad jj)
      accumMax1 dd ii |V3.dot dist gf| |var ii - var jj|) dd

/-- First phase of `_scalar_gradient_clipping` for the face-based mode
(`cs_gradient.cxx:832-901`). -/
def clipDenumsFace (m : Mesh) (q : MeshQuantities) (halo_type : HaloType)
    (var : ℕ → ℚ) (grad : ℕ → V3) : (ℕ → ℚ) × (ℕ → ℚ) :=
  let s0 : (ℕ → ℚ) × (ℕ → ℚ) := (fun _ => 0, fun _ => 0)
  let s1 := loop m.n_i_faces (faceDenumsStep m q var grad) s0
  if m.has_cell_cells = true ∧ halo_type = HaloType.extended then
    loop m.n_cells (faceDenumsExt m q var grad) s1
  else s1

/-- The one-sided clip factor computed from a cell's accumulated variations:
`1`, or `climgp*denom/denum` when `denum > climgp*denom`. -/
def clipFactor (climgp de dn : ℚ) : ℚ :=
  if de > climgp * dn then climgp * dn / de else 1

/-- One interior-face step of the face-based factor minimization
(`cs_gradient.cxx:953-982`): both cells of face `f` take the minimum of
their current factor and the smaller of the two one-sided factors. -/
def faceFactorStep (m : Mesh) (climgp : ℚ) (dd : (ℕ → ℚ) × (ℕ → ℚ))
    (f : ℕ) (cf : ℕ → ℚ) : ℕ → ℚ :=
  let ii := (m.i_face_cells f).1
  let jj := (m.i_face_cells f).2
  let lmin := min (clipFactor climgp (dd.1 ii) (dd.2 ii))
    (clipFactor climgp (dd.1 jj) (dd.2 jj))
  dropMin (dropMin cf ii lmin) jj lmin

/-- One owned-cell step of the extended-neighborhood complement of the
face-based factor minimization (`cs_gradient.cxx:986-1012`). -/
def faceExtStep (m : Mesh) (climgp : ℚ) (dd : (ℕ → ℚ) × (ℕ → ℚ))
    (ii : ℕ) (cf : ℕ → ℚ) : ℕ → ℚ :=
  dropMin cf ii
    (loopRange (m.cell_cells_idx ii) (m.cell_cells_idx (ii + 1))
      (fun cidx fac =>
        let jj := m.cell_cells_lst cidx
        min fac (clipFactor climgp (dd.1 jj) (dd.2 jj))) 1)

/-- The per-cell factors of the face-based clipping
(`cs_gradient.cxx:940-1012`): initialized to `DBL_MAX`, minimized per interior
face with the one-sided factors of the face's two cells, then (extended
neighborhood, when the adjacency is present) minimized with the neighbors'
factors for every owned cell. -/
def faceClipFactors (m : Mesh) (q : MeshQuantities) (halo_type : HaloType)
    (climgp : ℚ) (var : ℕ → ℚ) (grad : ℕ → V3) : ℕ → ℚ :=
  let dd := clipDenumsFace m q halo_type var grad
  let cf1 := loop m.n_i_faces (faceFactorStep m climgp dd)
    (fun _ => DBL_MAX)
  if m.has_cell_cells = true ∧ halo_type = HaloType.extended then
    loop m.n_cells (faceExtStep m climgp dd) cf1
  else cf1

/-- Result of the clipping stage: the (owned-cell) gradient after clipping
and the local statistics `n_clip` (clipped-cell count), `min_factor`,
`max_factor` (their initial values are `1` and `0`).  In the modelled
single-rank configuration the MPI reductions and halo exchanges of the
source are no-ops. -/
structure ClipResult where
  grad : ℕ → V3
  n_clip : ℕ
  min_factor : ℚ
  max_factor : ℚ

/-- One owned-cell step of the cell-based clipping application
(`cs_gradient.cxx:905-939`): when `denum > climgp*denom`, the whole gradient
of the cell is rescaled by `climgp*denom/denum` and the statistics updated. -/
def cellClipApplyStep (climgp : ℚ) (dd : (ℕ → ℚ) × (ℕ → ℚ)) (ii : ℕ)
    (st : ClipResult) : ClipResult :=
  if dd.1 ii > climgp * dd.2 ii then
    let factor1 := climgp * dd.2 ii / dd.1 ii
    ⟨upd st.grad ii (factor1 • st.grad ii), st.n_clip + 1,
     min factor1 st.min_factor, max factor1 st.max_factor⟩
  else st

/-- One owned-cell step of the face-based clipping application
(`cs_gradient.cxx:1014-1039`): every owned cell's gradient is multiplied by
its factor; factors below `0.99` are counted in the statistics. -/
def faceClipApplyStep (cf2 : ℕ → ℚ) (ii : ℕ) (st : ClipResult) : ClipResult :=
  let g' := upd st.grad ii (cf2 ii • st.grad ii)
  if cf2 ii < 99 / 100 then
    ⟨g', st.n_clip + 1, min st.min_factor (cf2 ii), max st.max_factor (cf2 ii)⟩
  else ⟨g', st.n_clip, st.min_factor, st.max_factor⟩

/-- Embedding of `_scalar_gradient_clipping` (`cs_gradient.cxx:689-1100`).
A non-positive clip mode returns immediately.  The cell-based mode rescales a
cell's gradient by `climgp*denom/denum` when `denum > climgp*denom`; the
face-based mode takes, per cell, the minimum over incident faces of the
one-sided factors of the face's two cells (per-cell factors initialized to
`DBL_MAX`), with a complement over extended neighbors when present, then
multiplies every owned cell's gradient by its factor, counting factors
below `0.99`. -/
def scalar_gradient_clipping (m : Mesh) (q : MeshQuantities)
    (halo_type : HaloType) (clip_mode : ℤ) (climgp : ℚ)
    (var : ℕ → ℚ) (grad : ℕ → V3) : ClipResult :=
  if clip_mode ≤ CS_GRADIENT_LIMIT_NONE then ⟨grad, 0, 1, 0⟩
  else if clip_mode = CS_GRADIENT_LIMIT_CELL then
    loop m.n_cells
      (cellClipApplyStep climgp (clipDenumsCell m q halo_type var grad))
      ⟨grad, 0, 1, 0⟩
  else if clip_mode = CS_GRADIENT_LIMIT_FACE then
    loop m.n_cells
      (faceClipApplyStep (faceClipFactors m q halo_type climgp var grad))
      ⟨grad, 0, 1, 0⟩
  else ⟨grad, 0, 1, 0⟩

/-- A cell is incident to at least one interior face of the mesh. -/
def incidentFace (m : Mesh) (c : ℕ) : Prop :=
  ∃ f, f < m.n_i_faces ∧ ((m.i_face_cells f).1 = c ∨ (m.i_face_cells f).2 = c)

/-- A concrete 3-cell mesh: cells 0 and 1 joined by the single interior
face, cell 2 incident to no interior face; no extended adjacency. -/
def cexMesh : Mesh where
  n_cells := 3
  n_cells_ext := 3
  n_i_faces := 1
  n_b_faces := 0
  n_b_cells := 0
  i_face_cells := fun _ => (0, 1)
  b_face_cells := fun _ => 0
  b_cells := fun _ => 0
  has_cell_cells := false
  cell_cells_idx := fun _ => 0
  cell_cells_lst := fun _ => 0

/-- Concrete geometric quantities for `cexMesh`: unit volumes, cell centers
on the x-axis. -/
def cexQuant : MeshQuantities where
  weight := fun _ => 1 / 2
  cell_vol := fun _ => 1
  cell_f_vol := fun _ => 1
  cell_cen := fun c => if c = 1 then ⟨1, 0, 0⟩ else ⟨0, 0, 0⟩
  i_face_normal := fun _ => ⟨1, 0, 0⟩
  i_f_face_normal := fun _ => ⟨1, 0, 0⟩
  b_face_normal := fun _ => ⟨1, 0, 0⟩
  b_f_face_normal := fun _ => ⟨1, 0, 0⟩
  i_face_cog := fun _ => ⟨1 / 2, 0, 0⟩
  b_face_cog := fun _ => ⟨0, 0, 0⟩
  diipb := fun _ => ⟨0, 0, 0⟩
  dofij := fun _ => ⟨0, 0, 0⟩
  b_face_surf := fun _ => 1
  b_dist := fun _ => 1
  has_disable_flag := false
  c_disable_flag := fun _ => 0
  corr_grad_lin := fun _ => M33.one
  b_face_u_normal := fun _ => ⟨1, 0, 0⟩
  bad_cells_warped_correction := false

/-- A constant (zero-variation) field on `cexMesh`. -/
def cexVar : ℕ → ℚ := fun _ => 0

/-- A gradient on `cexMesh` that is nonzero at cells 0 and 2. -/
def cexGrad : ℕ → V3 := fun c => if c = 1 then ⟨0, 0, 0⟩ else ⟨1, 0, 0⟩

/-! The scalar-gradient computation chain.  The embedding covers the
standard (non-hydrostatic) branch of each driver, with the optional scalar
cell weight (`w_stride == 1`); see the header comment for the full list of
modelled configuration restrictions. -/

/-- The face interpolation weight `ktpond`: the geometric `weight[f_id]`, or
the harmonic-style combination when the scalar cell weighting is active
(identical formula at every use site, e.g. `cs_gradient.cxx:1363-1369`). -/
def ktpond (q : MeshQuantities) (c_weight : Option (ℕ → ℚ)) (f ii jj : ℕ) : ℚ :=
  match c_weight with
  | some cw => q.weight f * cw ii /
      (q.weight f * cw ii + (1 - q.weight f) * cw jj)
  | none => q.weight f

/-- One interior-face step of `_initialize_scalar_gradient`
(`cs_gradient.cxx:1351-1409`, standard branch):
`pfaci = (1-ktpond)*(pvar[jj]-pvar[ii])`, `pfacj = -ktpond*(pvar[jj]-pvar[ii])`,
`grad[ii] += pfaci*normal`, `grad[jj] -= pfacj*normal`. -/
def initGradFaceStep (m : Mesh) (q : MeshQuantities) (pvar : ℕ → ℚ)
    (c_weight : Option (ℕ → ℚ)) (f : ℕ) (grad : ℕ → V3) : ℕ → V3 :=
  let ii := (m.i_face_cells f).1
  let jj := (m.i_face_cells f).2
  let kt := ktpond q c_weight f ii jj
  let pfaci := (1 - kt) * (pvar jj - pvar ii)
  let pfacj := -kt * (pvar jj - pvar ii)
  let g1 := upd grad ii (grad ii + pfaci • q.i_f_face_normal f)
  upd g1 jj (g1 jj - pfacj • q.i_f_face_normal f)

/-- One boundary-face step of `_initialize_scalar_gradient`
(`cs_gradient.cxx:1418-1441`):
`pfac = inc*coefap[f] + (coefbp[f]-1)*pvar[ii]`, `grad[ii] += pfac*normal`. -/
def initGradBndStep (m : Mesh) (q : MeshQuantities) (inc : ℚ)
    (coefap coefbp pvar : ℕ → ℚ) (f : ℕ) (grad : ℕ → V3) : ℕ → V3 :=
  let ii := m.b_face_cells f
  let pfac := inc * coefap f + (coefbp f - 1) * pvar ii
  upd grad ii (grad ii + pfac • q.b_f_face_normal f)

/-- Embedding of `_initialize_scalar_gradient` (`cs_gradient.cxx:1126-1463`),
standard (non-hydrostatic) branch, no coupling: zero-initialize, accumulate
interior- and boundary-face contributions, scale owned cells by the inverse
volume, synchronize (a no-op on a single rank). -/
def initialize_scalar_gradient (m : Mesh) (q : MeshQuantities) (inc : ℚ)
    (coefap coefbp pvar : ℕ → ℚ) (c_weight : Option (ℕ → ℚ)) : ℕ → V3 :=
  let g0 : ℕ → V3 := fun _ => 0
  let g1 := loop m.n_i_faces (initGradFaceStep m q pvar c_weight) g0
  let g2 := loop m.n_b_faces (initGradBndStep m q inc coefap coefbp pvar) g1
  fun c => if c < m.n_cells then q.dvol c • g2 c else g2 c

namespace M33

instance : Add M33 :=
  ⟨fun a b => ⟨a.m00 + b.m00, a.m01 + b.m01, a.m02 + b.m02,
    a.m10 + b.m10, a.m11 + b.m11, a.m12 + b.m12,
    a.m20 + b.m20, a.m21 + b.m21, a.m22 + b.m22⟩⟩

instance : Sub M33 :=
  ⟨fun a b => ⟨a.m00 - b.m00, a.m01 - b.m01, a.m02 - b.m02,
    a.m10 - b.m10, a.m11 - b.m11, a.m12 - b.m12,
    a.m20 - b.m20, a.m21 - b.m21, a.m22 - b.m22⟩⟩

instance : SMul ℚ M33 :=
  ⟨fun t a => ⟨t * a.m00, t * a.m01, t * a.m02, t * a.m10, t * a.m11,
    t * a.m12, t * a.m20, t * a.m21, t * a.m22⟩⟩

/-- Outer product `u ⊗ v` (entry `(i,j)` is `u_i * v_j`). -/
def outer (u v : V3) : M33 :=
  ⟨u.x * v.x, u.x * v.y, u.x * v.z,
   u.y * v.x, u.y * v.y, u.y * v.z,
   u.z * v.x, u.z * v.y, u.z * v.z⟩

end M33

/-- One interior-face step of `_compute_cell_cocg_it`
(`cs_gradient.cxx:1526-1543`): with `pfac_i = -0.5*dofij[f][i]` and
`vecfac_ij = pfac_i * i_face_normal[f][j]`, the matrix `vecfac` (an outer
product) is added to cell 1's entry scaled by `1/cell_vol` and subtracted
from cell 2's. -/
def cocgItFaceStep (m : Mesh) (q : MeshQuantities) (f : ℕ)
    (cocg : ℕ → M33) : ℕ → M33 :=
  let c1 := (m.i_face_cells f).1
  let c2 := (m.i_face_cells f).2
  let dvol1 := 1 / q.cell_vol c1
  let dvol2 := 1 / q.cell_vol c2
  let vecfac := M33.outer ((-(1 : ℚ) / 2) • q.dofij f) (q.i_face_normal f)
  let cg1 := upd cocg c1 (cocg c1 + dvol1 • vecfac)
  upd cg1 c2 (cg1 c2 - dvol2 • vecfac)

/-- Embedding of `_compute_cell_cocg_it` (`cs_gradient.cxx:1478-1557`), no
coupling: identity-initialize for every cell, accumulate interior-face
contributions, then invert in place for every owned cell. -/
def compute_cell_cocg_it (m : Mesh) (q : MeshQuantities) : ℕ → M33 :=
  let c0 : ℕ → M33 := fun _ => M33.one
  let c1 := loop m.n_i_faces (cocgItFaceStep m q) c0
  fun c => if c < m.n_cells then math_33_inv_cramer_in_place (c1 c) else c1 c

/-- The squared L2 norm over the owned cells of a cell-indexed 3-vector
array.  The source's `_l2_norm_1(3*n_cells, x)` returns
`sqrt(cs_dot(3*n_cells, x, x))` (single rank: no reduction); the embedding
tracks the square, and every comparison against it in the drivers is
embedded in the equivalent squared form, `sqrt` being strictly monotone on
nonnegative values. -/
def l2_norm_sq (n : ℕ) (g : ℕ → V3) : ℚ :=
  sumN n (fun c => V3.normSq (g c))

/-- The embedded form of the convergence test
`l2_residual < epsrgp * rnorm` of `_iterative_scalar_gradient`
(`cs_gradient.cxx:2031`), on squared norms: for `epsrgp ≥ 0` the source
comparison of square roots is equivalent to `res_sq < epsrgp² * rnorm_sq`,
and for `epsrgp < 0` the source comparison is false since `sqrt ≥ 0`. -/
def sweepConverged (epsrgp rnorm_sq res_sq : ℚ) : Bool :=
  decide (res_sq < epsrgp ^ 2 * rnorm_sq ∧ 0 ≤ epsrgp)

/-- One interior-face step of the sweep right-hand side of
`_iterative_scalar_gradient` (`cs_gradient.cxx:1880-1946`, standard branch):
the half-sum reconstruction term plus the weighted variable difference. -/
def iterRhsFaceStep (m : Mesh) (q : MeshQuantities) (pvar : ℕ → ℚ)
    (c_weight : Option (ℕ → ℚ)) (grad : ℕ → V3) (f : ℕ)
    (rhs : ℕ → V3) : ℕ → V3 :=
  let c1 := (m.i_face_cells f).1
  let c2 := (m.i_face_cells f).2
  let pfac0 := (1 : ℚ) / 2 * V3.dot (q.dofij f) (grad c1 + grad c2)
  let kt := ktpond q c_weight f c1 c2
  let pfaci := pfac0 + (1 - kt) * (pvar c2 - pvar c1)
  let pfacj := pfac0 - kt * (pvar c2 - pvar c1)
  let r1 := upd rhs c1 (rhs c1 + pfaci • q.i_f_face_normal f)
  upd r1 c2 (r1 c2 - pfacj • q.i_f_face_normal f)

/-- One boundary-face step of the sweep right-hand side of
`_iterative_scalar_gradient` (`cs_gradient.cxx:1959-1992`):
`pfac = coefap*inc + coefbp*(diipb·grad) + (coefbp-1)*pvar`. -/
def iterRhsBndStep (m : Mesh) (q : MeshQuantities) (inc : ℚ)
    (coefap coefbp pvar : ℕ → ℚ) (grad : ℕ → V3) (f : ℕ)
    (rhs : ℕ → V3) : ℕ → V3 :=
  let c := m.b_face_cells f
  let pfac := coefap f * inc + coefbp f * V3.dot (q.diipb f) (grad c)
    + (coefbp f - 1) * pvar c
  upd rhs c (rhs c + pfac • q.b_f_face_normal f)

/-- One sweep of `_iterative_scalar_gradient` (`cs_gradient.cxx:1719-2040`,
standard branch): build `rhs = -grad*volume` plus face contributions, scale
owned cells by the inverse volume, advance `grad += rhs · cocg`, and return
the new gradient together with the squared residual L2 norm of the scaled
`rhs` over the owned cells. -/
def iterSweep (m : Mesh) (q : MeshQuantities) (inc : ℚ)
    (coefap coefbp pvar : ℕ → ℚ) (c_weight : Option (ℕ → ℚ))
    (cocg : ℕ → M33) (grad : ℕ → V3) : (ℕ → V3) × ℚ :=
  let rhs0 : ℕ → V3 := fun c => (-q.cell_f_vol c) • grad c
  let rhs1 := loop m.n_i_faces (iterRhsFaceStep m q pvar c_weight grad) rhs0
  let rhs2 := loop m.n_b_faces
    (iterRhsBndStep m q inc coefap coefbp pvar grad) rhs1
  let rhs3 : ℕ → V3 := fun c => q.dvol c • rhs2 c
  (fun c => if c < m.n_cells then grad c + M33.mulVecT (cocg c) (rhs3 c)
    else grad c,
   l2_norm_sq m.n_cells rhs3)

/-- Result of the iterative scalar driver: the gradient, the final value of
the C loop variable `n_sweeps` (recorded in the diagnostics via
`_gradient_info_update_iter`), the number of sweep bodies actually executed,
the last (squared) residual, and whether the non-convergence warning was
printed. -/
structure IterResult where
  grad : ℕ → V3
  n_sweeps : ℤ
  n_exec : ℕ
  res_sq : ℚ
  warned : Bool

/-- The sweep loop of `_iterative_scalar_gradient`
(`for (n_sweeps = 1; n_sweeps < nswrgp; n_sweeps++) { ...; if converged
break; }`): `fuel` is the remaining iteration budget, `n` the loop counter,
`res` the last residual (initially 0).  Returns the gradient, the final
counter value, the number of executed sweeps, and the last residual. -/
def iterLoop (step : (ℕ → V3) → (ℕ → V3) × ℚ) (conv : ℚ → Bool) :
    ℕ → ℤ → (ℕ → V3) → ℚ → ((ℕ → V3) × ℤ × ℕ × ℚ)
  | 0, n, g, res => (g, n, 0, res)
  | fuel + 1, n, g, _res =>
    let gr := step g
    if conv gr.2 then (gr.1, n, 1, gr.2)
    else
      let out := iterLoop step conv fuel (n + 1) gr.1 gr.2
      (out.1, out.2.1, out.2.2.1 + 1, out.2.2.2)

/-- Embedding of `_iterative_scalar_gradient` (`cs_gradient.cxx:1587-2055`),
standard branch, no coupling, no porosity, single rank: early return for
`nswrgp < 1` and for a numerically zero initial norm (both record 0 sweeps);
otherwise sweep until the residual test passes or the counter reaches
`nswrgp`; afterwards the warning is emitted iff the last residual still
fails the tolerance (`l2_residual >= epsrgp*rnorm`) and `verbosity > -1`. -/
def iterative_scalar_gradient (m : Mesh) (q : MeshQuantities) (nswrgp : ℤ)
    (verbosity : ℤ) (inc epsrgp : ℚ) (coefap coefbp pvar : ℕ → ℚ)
    (c_weight : Option (ℕ → ℚ)) (grad : ℕ → V3) : IterResult :=
  if nswrgp < 1 then ⟨grad, 0, 0, 0, false⟩
  else
    let cocg := compute_cell_cocg_it m q
    let rnorm_sq := l2_norm_sq m.n_cells grad
    if rnorm_sq ≤ epzero ^ 2 then ⟨grad, 0, 0, 0, false⟩
    else
      let step := iterSweep m q inc coefap coefbp pvar c_weight cocg
      let conv := sweepConverged epsrgp rnorm_sq
      let out := iterLoop step conv (nswrgp - 1).toNat 1 grad 0
      ⟨out.1, out.2.1, out.2.2.1, out.2.2.2,
       (!conv out.2.2.2) && decide (verbosity > -1)⟩

/-- The sweep map: the gradient after one sweep, discarding the residual. -/
def sweepMap (m : Mesh) (q : MeshQuantities) (inc : ℚ)
    (coefap coefbp pvar : ℕ → ℚ) (c_weight : Option (ℕ → ℚ))
    (cocg : ℕ → M33) (g : ℕ → V3) : ℕ → V3 :=
  (iterSweep m q inc coefap coefbp pvar c_weight cocg g).1

/-- The gradient after `k` sweeps when iterating `step` from `g`. -/
def gradIterN (step : (ℕ → V3) → (ℕ → V3) × ℚ) (g : ℕ → V3) (k : ℕ) :
    ℕ → V3 :=
  (fun h => (step h).1)^[k] g

/-- The residual (squared) produced by the `k`-th sweep (`k ≥ 1`) when
iterating `step` from `g`. -/
def resIter (step : (ℕ → V3) → (ℕ → V3) × ℚ) (g : ℕ → V3) (k : ℕ) : ℚ :=
  (step ((fun h => (step h).1)^[k - 1] g)).2

/-- The sweep step of the iterative scalar driver, with the iterative-scheme
covariance it uses. -/
def scalarSweepStep (m : Mesh) (q : MeshQuantities) (inc : ℚ)
    (coefap coefbp pvar : ℕ → ℚ) (c_weight : Option (ℕ → ℚ)) :
    (ℕ → V3) → (ℕ → V3) × ℚ :=
  iterSweep m q inc coefap coefbp pvar c_weight (compute_cell_cocg_it m q)

/-- Add the packed-symmetric contribution `dc ⊗ dc * ddc` to a packed
covariance (`cocg[..][0] += dc[0]*dc[0]*ddc`, …, following the packed layout
`a00, a11, a22, a01, a12, a02`). -/
def C6.addContrib (a : C6) (dc : V3) (ddc : ℚ) : C6 :=
  ⟨a.c0 + dc.x * dc.x * ddc, a.c1 + dc.y * dc.y * ddc,
   a.c2 + dc.z * dc.z * ddc, a.c3 + dc.x * dc.y * ddc,
   a.c4 + dc.y * dc.z * ddc, a.c5 + dc.x * dc.z * ddc⟩

/-- One interior-face step of `_compute_cell_cocg_lsq`
(`cs_gradient.cxx:2148-2183`): both cells accumulate
`dc ⊗ dc / ||dc||²` with `dc = cell_cen[jj] - cell_cen[ii]`. -/
def cocgLsqFaceStep (m : Mesh) (q : MeshQuantities) (f : ℕ)
    (cocg : ℕ → C6) : ℕ → C6 :=
  let ii := (m.i_face_cells f).1
  let jj := (m.i_face_cells f).2
  let dc := q.cell_cen jj - q.cell_cen ii
  let ddc := 1 / V3.normSq dc
  let c1 := upd cocg ii (C6.addContrib (cocg ii) dc ddc)
  upd c1 jj (C6.addContrib (c1 jj) dc ddc)

/-- One owned-cell step of the extended-neighborhood contribution of
`_compute_cell_cocg_lsq` (`cs_gradient.cxx:2192-2217`). -/
def cocgLsqExtStep (m : Mesh) (q : MeshQuantities) (ii : ℕ)
    (cocg : ℕ → C6) : ℕ → C6 :=
  loopRange (m.cell_cells_idx ii) (m.cell_cells_idx (ii + 1))
    (fun cidx cc =>
      let jj := m.cell_cells_lst cidx
      let dc := q.cell_cen jj - q.cell_cen ii
      upd cc ii (C6.addContrib (cc ii) dc (1 / V3.normSq dc))) cocg

/-- One boundary-face step of `_compute_cell_cocg_lsq`
(`cs_gradient.cxx:2232-2257`): the cell accumulates `n ⊗ n` for the unit
boundary normal `n` (`b_face_u_normal`, see `MeshQuantities`). -/
def cocgLsqBndStep (m : Mesh) (q : MeshQuantities) (f : ℕ)
    (cocg : ℕ → C6) : ℕ → C6 :=
  let ii := m.b_face_cells f
  upd cocg ii (C6.addContrib (cocg ii) (q.b_face_u_normal f) 1)

/-- Embedding of `_compute_cell_cocg_lsq` (`cs_gradient.cxx:2068-2268`), no
coupling: zero-initialize, accumulate interior faces (and extended
neighbors when requested), save the partial covariance of the boundary cells
into `cocgb`, add the boundary-face contributions, and invert in place for
every owned cell.  Returns `(cocg, cocgb)`. -/
def compute_cell_cocg_lsq (m : Mesh) (q : MeshQuantities) (extended : Bool) :
    (ℕ → C6) × (ℕ → C6) :=
  let c0 : ℕ → C6 := fun _ => ⟨0, 0, 0, 0, 0, 0⟩
  let c1 := loop m.n_i_faces (cocgLsqFaceStep m q) c0
  let c2 := if extended then loop m.n_cells (cocgLsqExtStep m q) c1 else c1
  let cocgb : ℕ → C6 := fun i => c2 (m.b_cells i)
  let c3 := loop m.n_b_faces (cocgLsqBndStep m q) c2
  (fun c => if c < m.n_cells then math_6_inv_cramer_sym_in_place (c3 c)
    else c3 c, cocgb)

/-- The `extended` selection of `_get_cell_cocg_lsq`
(`cs_gradient.cxx:2298-2299`): an extended halo is used when requested and
the extended adjacency exists.  In the pure embedding the get-or-build cache
always returns the freshly computed matrices (the cache is keyed by the
mesh, which is fixed within a call). -/
def get_cell_cocg_lsq (m : Mesh) (q : MeshQuantities)
    (halo_type : HaloType) : (ℕ → C6) × (ℕ → C6) :=
  compute_cell_cocg_lsq m q
    (decide (halo_type = HaloType.extended) && m.has_cell_cells)

/-- The boundary-face contribution of `_recompute_lsq_scalar_cocg` to one
cell's covariance (`cs_gradient.cxx:2437-2450`): `dddij ⊗ dddij` with
`dddij = b_face_normal/b_face_surf + (1-coefbp)/b_dist * diipb`. -/
def recompContrib (q : MeshQuantities) (coefbp : ℕ → ℚ) (f : ℕ) (a : C6) :
    C6 :=
  C6.addContrib a
    ((1 / q.b_face_surf f) • q.b_face_normal f +
      ((1 - coefbp f) / q.b_dist f) • q.diipb f) 1

/-- One boundary-face step of `_recompute_lsq_scalar_cocg`
(`cs_gradient.cxx:2426-2454`): the adjacent cell accumulates the `dddij`
outer-product contribution. -/
def recompBndFaceStep (m : Mesh) (q : MeshQuantities) (coefbp : ℕ → ℚ)
    (f : ℕ) (cocg : ℕ → C6) : ℕ → C6 :=
  upd cocg (m.b_face_cells f)
    (recompContrib q coefbp f (cocg (m.b_face_cells f)))

/-- Embedding of `_recompute_lsq_scalar_cocg` (`cs_gradient.cxx:2379-2461`),
no coupling: restore the saved interior-only partial covariance at every
boundary cell, re-accumulate the boundary-face contributions, and invert in
place at every boundary cell. -/
def recompute_lsq_scalar_cocg (m : Mesh) (q : MeshQuantities)
    (coefbp : ℕ → ℚ) (cocgb : ℕ → C6) (cocg : ℕ → C6) : ℕ → C6 :=
  let c1 := loop m.n_b_cells
    (fun i cc => upd cc (m.b_cells i) (cocgb i)) cocg
  let c2 := loop m.n_b_faces (recompBndFaceStep m q coefbp) c1
  loop m.n_b_cells
    (fun i cc => upd cc (m.b_cells i)
      (math_6_inv_cramer_sym_in_place (cc (m.b_cells i)))) c2

/-- The packed symmetric matrix–vector product used to produce the
least-squares gradient (`cs_gradient.cxx:2734-2742`). -/
def C6.mulPacked (a : C6) (r : V3) : V3 :=
  ⟨a.c0 * r.x + a.c3 * r.y + a.c5 * r.z,
   a.c3 * r.x + a.c1 * r.y + a.c4 * r.z,
   a.c5 * r.x + a.c4 * r.y + a.c2 * r.z⟩

/-- One interior-face step of the `_lsq_scalar_gradient` right-hand side
(`cs_gradient.cxx:2602-2657`): `pfac = (pvar[jj]-pvar[ii])/||dc||²`,
accumulated into both cells (with the weighting split when the scalar cell
weight is active).  The fourth component of the source's `rhsv` mirrors
`pvar` unchanged; the embedding reads `pvar` directly. -/
def lsqRhsFaceStep (m : Mesh) (q : MeshQuantities) (pvar : ℕ → ℚ)
    (c_weight : Option (ℕ → ℚ)) (f : ℕ) (rhs : ℕ → V3) : ℕ → V3 :=
  let ii := (m.i_face_cells f).1
  let jj := (m.i_face_cells f).2
  let dc := q.cell_cen jj - q.cell_cen ii
  let pfac := (pvar jj - pvar ii) / V3.normSq dc
  let fctb := pfac • dc
  match c_weight with
  | some cw =>
    let pond := q.weight f
    let denom := 1 / (pond * cw ii + (1 - pond) * cw jj)
    let r1 := upd rhs ii (rhs ii + (cw jj * denom) • fctb)
    upd r1 jj (r1 jj + (cw ii * denom) • fctb)
  | none =>
    let r1 := upd rhs ii (rhs ii + fctb)
    upd r1 jj (r1 jj + fctb)

/-- One owned-cell step of the extended-neighborhood right-hand-side
contribution of `_lsq_scalar_gradient` (`cs_gradient.cxx:2661-2688`). -/
def lsqRhsExtStep (m : Mesh) (q : MeshQuantities) (pvar : ℕ → ℚ) (ii : ℕ)
    (rhs : ℕ → V3) : ℕ → V3 :=
  loopRange (m.cell_cells_idx ii) (m.cell_cells_idx (ii + 1))
    (fun cidx r =>
      let jj := m.cell_cells_lst cidx
      let dc := q.cell_cen jj - q.cell_cen ii
      upd r ii (r ii + ((pvar jj - pvar ii) / V3.normSq dc) • dc)) rhs

/-- One boundary-face step of the `_lsq_scalar_gradient` right-hand side
(`cs_gradient.cxx:2698-2727`):
`dsij = b_face_normal/b_face_surf + (1-coefbp)/b_dist * diipb` and
`pfac = (coefap*inc + (coefbp-1)*pvar[ii])/b_dist`. -/
def lsqRhsBndStep (m : Mesh) (q : MeshQuantities) (inc : ℚ)
    (coefap coefbp pvar : ℕ → ℚ) (f : ℕ) (rhs : ℕ → V3) : ℕ → V3 :=
  let ii := m.b_face_cells f
  let unddij := 1 / q.b_dist f
  let udbfs := 1 / q.b_face_surf f
  let umcbdd := (1 - coefbp f) * unddij
  let dsij := udbfs • q.b_face_normal f + umcbdd • q.diipb f
  let pfac := (coefap f * inc + (coefbp f - 1) * pvar ii) * unddij
  upd rhs ii (rhs ii + pfac • dsij)

/-- Embedding of `_lsq_scalar_gradient` (`cs_gradient.cxx:2482-2750`), no
coupling, no accelerator: fetch (compute) the cached covariance, optionally
recompute its boundary-cell part from the current `coefbp`, accumulate the
right-hand side over interior faces, extended neighbors and boundary faces,
and produce the gradient `cocg · rhs` for every owned cell (other entries of
the caller's output buffer `grad0` are untouched; the halo synchronization
is a no-op on a single rank). -/
def lsq_scalar_gradient (m : Mesh) (q : MeshQuantities)
    (halo_type : HaloType) (recompute_cocg : Bool) (inc : ℚ)
    (coefap coefbp pvar : ℕ → ℚ) (c_weight : Option (ℕ → ℚ))
    (grad0 : ℕ → V3) : ℕ → V3 :=
  let cc := get_cell_cocg_lsq m q halo_type
  let cocg := if recompute_cocg then
      recompute_lsq_scalar_cocg m q coefbp cc.2 cc.1
    else cc.1
  let rhs0 : ℕ → V3 := fun _ => 0
  let rhs1 := loop m.n_i_faces (lsqRhsFaceStep m q pvar c_weight) rhs0
  let rhs2 := if halo_type = HaloType.extended ∧ m.has_cell_cells = true then
      loop m.n_cells (lsqRhsExtStep m q pvar) rhs1
    else rhs1
  let rhs3 := loop m.n_b_faces
    (lsqRhsBndStep m q inc coefap coefbp pvar) rhs2
  fun c => if c < m.n_cells then C6.mulPacked (cocg c) (rhs3 c) else grad0 c

/-- One interior-face step of `_reconstruct_scalar_gradient`
(`cs_gradient.cxx:3843-3906`, standard branch): the variable-difference term
plus the reconstruction term `rfac = 0.5*dofij·(r_grad[c1]+r_grad[c2])`. -/
def reconFaceStep (m : Mesh) (q : MeshQuantities) (c_var : ℕ → ℚ)
    (c_weight : Option (ℕ → ℚ)) (r_grad : ℕ → V3) (f : ℕ)
    (grad : ℕ → V3) : ℕ → V3 :=
  let c1 := (m.i_face_cells f).1
  let c2 := (m.i_face_cells f).2
  let kt := ktpond q c_weight f c1 c2
  let pfaci := (1 - kt) * (c_var c2 - c_var c1)
  let pfacj := -kt * (c_var c2 - c_var c1)
  let rfac := (1 : ℚ) / 2 * V3.dot (q.dofij f) (r_grad c1 + r_grad c2)
  let g1 := upd grad c1 (grad c1 + (pfaci + rfac) • q.i_f_face_normal f)
  upd g1 c2 (g1 c2 - (pfacj + rfac) • q.i_f_face_normal f)

/-- One boundary-face step of `_reconstruct_scalar_gradient`
(`cs_gradient.cxx:3916-3949`): `pfac = inc*coefap + (coefbp-1)*c_var[c]`
plus `rfac = coefbp * diipb·r_grad[c]`. -/
def reconBndStep (m : Mesh) (q : MeshQuantities) (inc : ℚ)
    (coefap coefbp c_var : ℕ → ℚ) (r_grad : ℕ → V3) (f : ℕ)
    (grad : ℕ → V3) : ℕ → V3 :=
  let c := m.b_face_cells f
  let pfac := inc * coefap f + (coefbp f - 1) * c_var c
  let rfac := coefbp f * V3.dot (q.diipb f) (r_grad c)
  upd grad c (grad c + (pfac + rfac) • q.b_f_face_normal f)

/-- Embedding of `_reconstruct_scalar_gradient` (`cs_gradient.cxx:3584-3982`),
standard branch, no coupling: zero-initialize, accumulate interior- and
boundary-face contributions using the auxiliary gradient `r_grad`, scale
owned cells by the inverse volume and, when the warped-cell correction flag
is set, apply the per-cell linear correction matrix. -/
def reconstruct_scalar_gradient (m : Mesh) (q : MeshQuantities) (inc : ℚ)
    (coefap coefbp c_var : ℕ → ℚ) (c_weight : Option (ℕ → ℚ))
    (r_grad : ℕ → V3) : ℕ → V3 :=
  let g0 : ℕ → V3 := fun _ => 0
  let g1 := loop m.n_i_faces (reconFaceStep m q c_var c_weight r_grad) g0
  let g2 := loop m.n_b_faces
    (reconBndStep m q inc coefap coefbp c_var r_grad) g1
  fun c =>
    if c < m.n_cells then
      let gv := q.dvol c • g2 c
      if q.bad_cells_warped_correction then M33.mulVec (q.corr_grad_lin c) gv
      else gv
    else g2 c

/-- The gradient computation types (`cs_gradient_type_t`): Green-Gauss
iterative, least-squares, Green-Gauss with least-squares face values, and
Green-Gauss vertex-based (in the order of `cs_gradient_type_name`). -/
inductive GradientType where
  | green_iter : GradientType
  | lsq : GradientType
  | green_lsq : GradientType
  | green_vtx : GradientType
deriving DecidableEq, Repr

/-- The computational part of `_gradient_scalar` (`cs_gradient.cxx:6664-6845`)
after the recompute-cocg bookkeeping: default the boundary coefficients to
homogeneous Neumann (`a = 0`, `b = 1`) when absent, then dispatch on the
gradient type — Green-Gauss iterative (initialize, then iterative driver),
least-squares (least-squares solve, then clipping), or hybrid (least-squares
solve, clipping, then a Green-Gauss reconstruction pass).  `grad0` is the
caller's output buffer; the `CS_GRADIENT_GREEN_VTX` type matches no case of
the switch and leaves it untouched.  (The bad-cells regularisation hook,
external code behind a flag that is clear by default, is not modelled.) -/
def gradient_scalar_compute (m : Mesh) (q : MeshQuantities)
    (gradient_type : GradientType) (halo_type : HaloType) (inc : ℚ)
    (recompute_cocg : Bool) (n_r_sweeps verbosity : ℤ) (clip_mode : ℤ)
    (epsilon clip_coeff : ℚ) (bc_coeff_a bc_coeff_b : Option (ℕ → ℚ))
    (var : ℕ → ℚ) (c_weight : Option (ℕ → ℚ)) (grad0 : ℕ → V3) : ℕ → V3 :=
  let coefap := bc_coeff_a.getD (fun _ => 0)
  let coefbp := bc_coeff_b.getD (fun _ => 1)
  match gradient_type with
  | GradientType.green_iter =>
    let g1 := initialize_scalar_gradient m q inc coefap coefbp var c_weight
    (iterative_scalar_gradient m q n_r_sweeps verbosity inc epsilon coefap
      coefbp var c_weight g1).grad
  | GradientType.lsq =>
    let r := lsq_scalar_gradient m q halo_type recompute_cocg inc coefap
      coefbp var c_weight grad0
    (scalar_gradient_clipping m q halo_type clip_mode clip_coeff var r).grad
  | GradientType.green_lsq =>
    let r := lsq_scalar_gradient m q halo_type recompute_cocg inc coefap
      coefbp var c_weight grad0
    let rc := (scalar_gradient_clipping m q halo_type clip_mode clip_coeff
      var r).grad
    reconstruct_scalar_gradient m q inc coefap coefbp var c_weight rc
  | GradientType.green_vtx => grad0

/-- The record of the iterative driver produced by a scalar dispatch with
the Green-Gauss iterative type (used to observe the recorded sweep count). -/
def gradient_scalar_iter_info (m : Mesh) (q : MeshQuantities) (inc : ℚ)
    (n_r_sweeps verbosity : ℤ) (epsilon : ℚ)
    (bc_coeff_a bc_coeff_b : Option (ℕ → ℚ)) (var : ℕ → ℚ)
    (c_weight : Option (ℕ → ℚ)) : IterResult :=
  let coefap := bc_coeff_a.getD (fun _ => 0)
  let coefbp := bc_coeff_b.getD (fun _ => 1)
  iterative_scalar_gradient m q n_r_sweeps verbosity inc epsilon coefap
    coefbp var c_weight
    (initialize_scalar_gradient m q inc coefap coefbp var c_weight)

/-- The static module state of `_gradient_scalar`
(`static char var_name_prev[96] = ""; static int last_fvm_count = 0;`,
`cs_gradient.cxx:6644-6645`).  C strings are modelled as `List Char`. -/
structure GradState where
  var_name_prev : List Char
  last_fvm_count : ℤ
deriving DecidableEq, Repr

/-- The initial module state (empty remembered name, zero count). -/
def initGradState : GradState := ⟨[], 0⟩

/-- The recompute-cocg bookkeeping of `_gradient_scalar`
(`cs_gradient.cxx:6644-6662`): when `check_recompute_cocg` is set, the
recomputation is skipped iff the first 95 characters of the variable name
match the remembered name and `inc == 0`; the remembered compute count is
then refreshed, and any change of `cs_mesh_quantities_compute_count()`
(passed here as `fvm_count`) against the previously remembered count forces
recomputation.  In every case the remembered name is overwritten with the
first 95 characters of the current name (`strncpy(var_name_prev, var_name,
95)`).  Returns `(recompute_cocg, new state)`. -/
def gradient_scalar_bookkeeping (check_recompute_cocg : Bool)
    (st : GradState) (var_name : List Char) (inc : ℤ) (fvm_count : ℤ) :
    Bool × GradState :=
  let r0 := true
  let rl :=
    if check_recompute_cocg then
      let r1 := if st.var_name_prev = var_name.take 95 ∧ inc = 0 then false
        else r0
      let prev_fvq_count := st.last_fvm_count
      let r2 := if fvm_count ≠ prev_fvq_count then true else r1
      (r2, fvm_count)
    else (r0, st.last_fvm_count)
  (rl.1, ⟨var_name.take 95, rl.2⟩)

/-- One scalar gradient call, as seen by the bookkeeping: the entry point
(`cs_gradient_scalar_synced_input` passes `check_recompute_cocg = true`,
`cs_gradient_scalar` passes `false`), the variable name, the increment flag
and the value of the global mesh-quantities compute count at call time. -/
structure ScalarCall where
  entry_synced : Bool
  var_name : List Char
  inc : ℤ
  fvm_count : ℤ
deriving DecidableEq, Repr

/-- The bookkeeping step of one scalar gradient call. -/
def scalarCallStep (st : GradState) (c : ScalarCall) : Bool × GradState :=
  gradient_scalar_bookkeeping c.entry_synced st c.var_name c.inc c.fvm_count

/-- Run the bookkeeping over a sequence of calls. -/
def runCalls (st : GradState) (cs : List ScalarCall) : GradState :=
  cs.foldl (fun s c => (scalarCallStep s c).2) st

/-- The first 95 characters of the name of the last call of the sequence
(empty when there is none). -/
def prevName95 (cs : List ScalarCall) : List Char :=
  cs.foldl (fun _ c => c.var_name.take 95) []

/-- The compute count recorded by the most recent call that entered through
the synced-input entry point (0 when there is none). -/
def lastSyncedCount (cs : List ScalarCall) : ℤ :=
  cs.foldl (fun acc c => if c.entry_synced then c.fvm_count else acc) 0

/-- The boundary-face contributions of the recompute pass restricted to one
cell: starting from a saved partial covariance, fold over all boundary
faces, accumulating only the faces whose adjacent cell is `c`. -/
def bndAccum (m : Mesh) (q : MeshQuantities) (coefbp : ℕ → ℚ) (c : ℕ)
    (start : C6) : C6 :=
  loop m.n_b_faces
    (fun f a => if m.b_face_cells f = c then recompContrib q coefbp f a
      else a) start

/-- A concrete two-cell mesh with a single boundary cell (cell 0, one
boundary face) and an interior-only cell (cell 1). -/
def cexRMesh : Mesh where
  n_cells := 2
  n_cells_ext := 2
  n_i_faces := 1
  n_b_faces := 1
  n_b_cells := 1
  i_face_cells := fun _ => (0, 1)
  b_face_cells := fun _ => 0
  b_cells := fun _ => 0
  has_cell_cells := false
  cell_cells_idx := fun _ => 0
  cell_cells_lst := fun _ => 0

/-- A concrete one-cell mesh with no faces, for exercising the iterative
driver. -/
def wMesh : Mesh where
  n_cells := 1
  n_cells_ext := 1
  n_i_faces := 0
  n_b_faces := 0
  n_b_cells := 0
  i_face_cells := fun _ => (0, 0)
  b_face_cells := fun _ => 0
  b_cells := fun _ => 0
  has_cell_cells := false
  cell_cells_idx := fun _ => 0
  cell_cells_lst := fun _ => 0

/-- Unit geometric quantities for `wMesh`. -/
def wQuant : MeshQuantities where
  weight := fun _ => 1 / 2
  cell_vol := fun _ => 1
  cell_f_vol := fun _ => 1
  cell_cen := fun _ => ⟨0, 0, 0⟩
  i_face_normal := fun _ => ⟨1, 0, 0⟩
  i_f_face_normal := fun _ => ⟨1, 0, 0⟩
  b_face_normal := fun _ => ⟨1, 0, 0⟩
  b_f_face_normal := fun _ => ⟨1, 0, 0⟩
  i_face_cog := fun _ => ⟨0, 0, 0⟩
  b_face_cog := fun _ => ⟨0, 0, 0⟩
  diipb := fun _ => ⟨0, 0, 0⟩
  dofij := fun _ => ⟨0, 0, 0⟩
  b_face_surf := fun _ => 1
  b_dist := fun _ => 1
  b_face_u_normal := fun _ => ⟨1, 0, 0⟩
  has_disable_flag := false
  c_disable_flag := fun _ => 0
  corr_grad_lin := fun _ => M33.one
  bad_cells_warped_correction := false






/-! The vector- and tensor-gradient computation chain.  Vector fields are
cell-indexed functions of a component index `i < 3` (`cs_real_3_t[]`),
their gradients cell-indexed functions of a row index `i < 3` with a `V3`
of derivatives per row (`cs_real_33_t[]`, `grad[c][i][j]`); symmetric
tensor fields use six components (`cs_real_6_t[]`, `cs_real_63_t[]`). -/

/-- Component `j` of a 3-vector (`v[j]`). -/
def V3.nth (v : V3) (j : ℕ) : ℚ :=
  if j = 0 then v.x else if j = 1 then v.y else v.z

/-- Entry `(i, j)` of a full 3×3 matrix (`a[i][j]`). -/
def M33.ij (a : M33) (i j : ℕ) : ℚ :=
  if i = 0 then (if j = 0 then a.m00 else if j = 1 then a.m01 else a.m02)
  else if i = 1 then
    (if j = 0 then a.m10 else if j = 1 then a.m11 else a.m12)
  else (if j = 0 then a.m20 else if j = 1 then a.m21 else a.m22)

/-- The `_33_9_idx` / `_63_18_idx` bijection of the source
(`nn` enumerates the pairs `(ll, mm)` with `mm < 3` innermost), so
entry `nn` is `(nn / 3, nn % 3)`. -/
def idxPair (nn : ℕ) : ℕ × ℕ := (nn / 3, nn % 3)

/-- The fields of `cs_mesh_adjacencies_t` read by the least-squares
boundary-cell correction: the per-cell index range into the boundary-face
list and the list itself. -/
structure MeshAdj where
  cell_b_faces_idx : ℕ → ℕ
  cell_b_faces : ℕ → ℕ

/-- Embedding of `_fact_crout_pp` (`cs_gradient.cxx:284-300`): in-place
Crout factorization `A = L·D·Lᵗ` of a packed lower-triangular symmetric
`d_size × d_size` matrix (entry `(ii, jj)`, `jj ≤ ii`, at index
`ii*(ii+1)/2 + jj`).  The scratch array `aux` holds, per elimination column
`kk`, each row's pre-division entry `ad[ii][kk]`; the source never reads an
entry of `aux` it has not just written, so its initial value is
immaterial (taken as `0`). -/
def fact_crout_pp (d_size : ℕ) (ad : ℕ → ℚ) : ℕ → ℚ :=
  (loop (d_size - 1)
    (fun kk st =>
      loopRange (kk + 1) d_size
        (fun ii st2 =>
          let aux' := upd st2.2 ii (st2.1 (ii * (ii + 1) / 2 + kk))
          let ad1 := upd st2.1 (ii * (ii + 1) / 2 + kk)
            (st2.1 (ii * (ii + 1) / 2 + kk) /
              st2.1 (kk * (kk + 1) / 2 + kk))
          let ad2 := loopRange (kk + 1) (ii + 1)
            (fun jj a => upd a (ii * (ii + 1) / 2 + jj)
              (a (ii * (ii + 1) / 2 + jj) -
                a (ii * (ii + 1) / 2 + kk) * aux' jj)) ad1
          (ad2, aux'))
        st)
    (ad, fun _ => (0 : ℚ))).1

/-- Embedding of `_fw_and_bw_ldtl_pp` (`cs_gradient.cxx:313-344`): solve
`L·D·Lᵗ·x = b` from the packed Crout factorization — forward substitution
with the unit lower triangle, division by the diagonal, then backward
substitution with the transposed unit lower triangle.  (The source's
descending inner loop is an exact sum over `ℚ`, written here ascending.) -/
def fw_and_bw_ldtl_pp (mat : ℕ → ℚ) (d_size : ℕ) (b : ℕ → ℚ) : ℕ → ℚ :=
  let aux1 := loop d_size
    (fun ii a => upd a ii
      (b ii - sumN ii (fun jj => a jj * mat (ii * (ii + 1) / 2 + jj))))
    (fun _ => (0 : ℚ))
  let aux2 := loop d_size
    (fun ii a => upd a ii (a ii / mat (ii * (ii + 1) / 2 + ii))) aux1
  loop d_size
    (fun t x =>
      let ii := d_size - 1 - t
      upd x ii
        (aux2 ii - loopRange (ii + 1) d_size
          (fun jj acc => acc + x jj * mat (jj * (jj + 1) / 2 + ii)) 0))
    (fun _ => (0 : ℚ))


/-- One interior-face step of `_initialize_vector_gradient`
(`cs_gradient.cxx:4555-4597`): per component `i`,
`pfaci = (1-ktpond)*(pvar[c2][i]-pvar[c1][i])`,
`pfacj = -ktpond*(pvar[c2][i]-pvar[c1][i])`, accumulated along the face
normal. -/
def initVGradFaceStep (m : Mesh) (q : MeshQuantities) (pvar : ℕ → ℕ → ℚ)
    (c_weight : Option (ℕ → ℚ)) (f : ℕ) (g : ℕ → ℕ → V3) : ℕ → ℕ → V3 :=
  let c1 := (m.i_face_cells f).1
  let c2 := (m.i_face_cells f).2
  let kt := ktpond q c_weight f c1 c2
  let g1 := upd g c1 (fun i =>
    g c1 i + ((1 - kt) * (pvar c2 i - pvar c1 i)) • q.i_f_face_normal f)
  upd g1 c2 (fun i =>
    g1 c2 i - (-kt * (pvar c2 i - pvar c1 i)) • q.i_f_face_normal f)

/-- One boundary-face step of `_initialize_vector_gradient`
(`cs_gradient.cxx:4607-4638`): per component `i`,
`pfac = inc*coefav[i] + Σ_k ((coefbv[i][k] - δik) * pvar[k])`. -/
def initVGradBndStep (m : Mesh) (q : MeshQuantities) (inc : ℚ)
    (coefav : ℕ → ℕ → ℚ) (coefbv : ℕ → ℕ → ℕ → ℚ) (pvar : ℕ → ℕ → ℚ)
    (f : ℕ) (g : ℕ → ℕ → V3) : ℕ → ℕ → V3 :=
  let c := m.b_face_cells f
  let pfac : ℕ → ℚ := fun i => inc * coefav f i +
    sumN 3 (fun k =>
      (if i = k then coefbv f i k - 1 else coefbv f i k) * pvar c k)
  upd g c (fun i => g c i + pfac i • q.b_f_face_normal f)

/-- Embedding of `_initialize_vector_gradient` (`cs_gradient.cxx:4492-4657`),
no coupling, single rank: zero-initialize, accumulate interior- and
boundary-face contributions per component, scale owned cells by the inverse
volume. -/
def initialize_vector_gradient (m : Mesh) (q : MeshQuantities) (inc : ℚ)
    (coefav : ℕ → ℕ → ℚ) (coefbv : ℕ → ℕ → ℕ → ℚ) (pvar : ℕ → ℕ → ℚ)
    (c_weight : Option (ℕ → ℚ)) : ℕ → ℕ → V3 :=
  let g0 : ℕ → ℕ → V3 := fun _ _ => 0
  let g1 := loop m.n_i_faces (initVGradFaceStep m q pvar c_weight) g0
  let g2 := loop m.n_b_faces
    (initVGradBndStep m q inc coefav coefbv pvar) g1
  fun c => if c < m.n_cells then fun i => q.dvol c • g2 c i else g2 c

/-- The squared L2 norm of a cell- and row-indexed gradient array over the
owned cells (`_l2_norm_1(rows*3*n_cells, ...)` on a single rank, squared). -/
def l2vr_norm_sq (n rows : ℕ) (g : ℕ → ℕ → V3) : ℚ :=
  sumN n (fun c => sumN rows (fun i => V3.normSq (g c i)))

/-- One interior-face step of the sweep right-hand side of
`_iterative_vector_gradient` (`cs_gradient.cxx:5005-5060`). -/
def iterVRhsFaceStep (m : Mesh) (q : MeshQuantities) (pvar : ℕ → ℕ → ℚ)
    (c_weight : Option (ℕ → ℚ)) (grad : ℕ → ℕ → V3) (f : ℕ)
    (rhs : ℕ → ℕ → V3) : ℕ → ℕ → V3 :=
  let c1 := (m.i_face_cells f).1
  let c2 := (m.i_face_cells f).2
  let kt := ktpond q c_weight f c1 c2
  let pfac0 : ℕ → ℚ := fun i =>
    (1 : ℚ) / 2 * V3.dot (grad c1 i + grad c2 i) (q.dofij f)
  let r1 := upd rhs c1 (fun i =>
    rhs c1 i + (pfac0 i + (1 - kt) * (pvar c2 i - pvar c1 i)) •
      q.i_f_face_normal f)
  upd r1 c2 (fun i =>
    r1 c2 i - (pfac0 i - kt * (pvar c2 i - pvar c1 i)) •
      q.i_f_face_normal f)

/-- One boundary-face step of the sweep right-hand side of
`_iterative_vector_gradient` (`cs_gradient.cxx:5069-5110`): per component,
`pfac = inc*coefav[i] + Σ_k (coefbv[i][k]*(grad[c][k]·diipb)
+ (coefbv[i][k] - δik)*pvar[c][k])`. -/
def iterVRhsBndStep (m : Mesh) (q : MeshQuantities) (inc : ℚ)
    (coefav : ℕ → ℕ → ℚ) (coefbv : ℕ → ℕ → ℕ → ℚ) (pvar : ℕ → ℕ → ℚ)
    (grad : ℕ → ℕ → V3) (f : ℕ) (rhs : ℕ → ℕ → V3) : ℕ → ℕ → V3 :=
  let c := m.b_face_cells f
  let pfac : ℕ → ℚ := fun i => inc * coefav f i +
    sumN 3 (fun k =>
      coefbv f i k * V3.dot (grad c k) (q.diipb f) +
      (if i = k then coefbv f i k - 1 else coefbv f i k) * pvar c k)
  upd rhs c (fun i => rhs c i + pfac i • q.b_f_face_normal f)

/-- One sweep of `_iterative_vector_gradient` (`cs_gradient.cxx:4995-5140`):
build `rhs = -grad*volume` plus face contributions, scale by the inverse
volume, increment the gradient by `rhs·cocg` per row, and return the
squared residual norm of `rhs`. -/
def vIterSweep (m : Mesh) (q : MeshQuantities) (inc : ℚ)
    (coefav : ℕ → ℕ → ℚ) (coefbv : ℕ → ℕ → ℕ → ℚ) (pvar : ℕ → ℕ → ℚ)
    (c_weight : Option (ℕ → ℚ)) (cocg : ℕ → M33) (grad : ℕ → ℕ → V3) :
    (ℕ → ℕ → V3) × ℚ :=
  let rhs0 : ℕ → ℕ → V3 := fun c i => (-q.cell_f_vol c) • grad c i
  let rhs1 := loop m.n_i_faces (iterVRhsFaceStep m q pvar c_weight grad) rhs0
  let rhs2 := loop m.n_b_faces
    (iterVRhsBndStep m q inc coefav coefbv pvar grad) rhs1
  let rhs3 : ℕ → ℕ → V3 := fun c i => q.dvol c • rhs2 c i
  (fun c => if c < m.n_cells then
    (fun i => grad c i + M33.mulVecT (cocg c) (rhs3 c i)) else grad c,
   l2vr_norm_sq m.n_cells 3 rhs3)

/-- The sweep loop shared by the vector and tensor iterative drivers
(`for (isweep = 1; isweep < n_r_sweeps && l2_residual > epsrgp*l2_norm;
isweep++)`): the continuation test runs before each sweep, on the previous
residual; `fuel` encodes the remaining `isweep < n_r_sweeps` budget and `n`
is the current value of `isweep`. -/
def contLoop {σ : Type} (step : σ → σ × ℚ) (cont : ℚ → Bool) :
    ℕ → ℤ → σ → ℚ → (σ × ℤ × ℚ)
  | 0, n, g, res => (g, n, res)
  | fuel + 1, n, g, res =>
    if cont res then
      let gr := step g
      contLoop step cont fuel (n + 1) gr.1 gr.2
    else (g, n, res)

/-- The embedded continuation test `l2_residual > epsrgp*l2_norm` of the
vector/tensor sweep loops, on squared norms (the norm being positive
there): true for `epsrgp < 0` since the left side is a nonnegative square
root, and otherwise equivalent to the squared comparison. -/
def vSweepCont (epsrgp norm_sq res_sq : ℚ) : Bool :=
  decide (epsrgp < 0 ∨ epsrgp ^ 2 * norm_sq < res_sq)

/-- Embedding of `_iterative_vector_gradient` (`cs_gradient.cxx:4912-5180`),
no coupling, single rank: nothing happens (`isweep = 0`) when the initial
norm is numerically zero; otherwise sweeps run while the budget and the
residual test allow.  Returns the gradient and the final `isweep`. -/
def iterative_vector_gradient (m : Mesh) (q : MeshQuantities)
    (n_r_sweeps _verbosity : ℤ) (inc epsrgp : ℚ) (coefav : ℕ → ℕ → ℚ)
    (coefbv : ℕ → ℕ → ℕ → ℚ) (pvar : ℕ → ℕ → ℚ)
    (c_weight : Option (ℕ → ℚ)) (grad : ℕ → ℕ → V3) :
    (ℕ → ℕ → V3) × ℤ :=
  let norm_sq := l2vr_norm_sq m.n_cells 3 grad
  if epzero ^ 2 < norm_sq then
    let step := vIterSweep m q inc coefav coefbv pvar c_weight
      (compute_cell_cocg_it m q)
    let out := contLoop step (vSweepCont epsrgp norm_sq)
      (n_r_sweeps - 1).toNat 1 grad norm_sq
    (out.1, out.2.1)
  else (grad, 0)

/-- One interior-face step of the `_lsq_vector_gradient` right-hand side
(`cs_gradient.cxx:5911-5960`). -/
def lsqVRhsFaceStep (m : Mesh) (q : MeshQuantities) (pvar : ℕ → ℕ → ℚ)
    (c_weight : Option (ℕ → ℚ)) (f : ℕ) (rhs : ℕ → ℕ → V3) :
    ℕ → ℕ → V3 :=
  let c1 := (m.i_face_cells f).1
  let c2 := (m.i_face_cells f).2
  let dc := q.cell_cen c2 - q.cell_cen c1
  let ddc := 1 / V3.normSq dc
  match c_weight with
  | some cw =>
    let pond := q.weight f
    let denom := 1 / (pond * cw c1 + (1 - pond) * cw c2)
    let r1 := upd rhs c1 (fun i =>
      rhs c1 i + (cw c2 * denom) • (((pvar c2 i - pvar c1 i) * ddc) • dc))
    upd r1 c2 (fun i =>
      r1 c2 i + (cw c1 * denom) • (((pvar c2 i - pvar c1 i) * ddc) • dc))
  | none =>
    let r1 := upd rhs c1 (fun i =>
      rhs c1 i + ((pvar c2 i - pvar c1 i) * ddc) • dc)
    upd r1 c2 (fun i =>
      r1 c2 i + ((pvar c2 i - pvar c1 i) * ddc) • dc)

/-- One owned-cell step of the extended-neighborhood right-hand-side
contribution of `_lsq_vector_gradient` (`cs_gradient.cxx:5964-5990`). -/
def lsqVRhsExtStep (m : Mesh) (q : MeshQuantities) (pvar : ℕ → ℕ → ℚ)
    (ii : ℕ) (rhs : ℕ → ℕ → V3) : ℕ → ℕ → V3 :=
  loopRange (m.cell_cells_idx ii) (m.cell_cells_idx (ii + 1))
    (fun cidx r =>
      let jj := m.cell_cells_lst cidx
      let dc := q.cell_cen jj - q.cell_cen ii
      let ddc := 1 / V3.normSq dc
      upd r ii (fun i => r ii i + ((pvar jj i - pvar ii i) * ddc) • dc))
    rhs

/-- One boundary-face step of the `_lsq_vector_gradient` right-hand side
(`cs_gradient.cxx:6005-6040`): the unit face normal (given in the mesh
quantities, the source normalizing with `cs_math_3_normalize`) divided by
`b_dist`, times `pfac = coefav[i]*inc + Σ_k coefbv[k][i]*pvar[k] -
pvar[i]`. -/
def lsqVRhsBndStep (m : Mesh) (q : MeshQuantities) (inc : ℚ)
    (coefav : ℕ → ℕ → ℚ) (coefbv : ℕ → ℕ → ℕ → ℚ) (pvar : ℕ → ℕ → ℚ)
    (f : ℕ) (rhs : ℕ → ℕ → V3) : ℕ → ℕ → V3 :=
  let c1 := m.b_face_cells f
  let n_d_dist := (1 / q.b_dist f) • q.b_face_u_normal f
  let pfac : ℕ → ℚ := fun i => coefav f i * inc +
    (coefbv f 0 i * pvar c1 0 + coefbv f 1 i * pvar c1 1 +
     coefbv f 2 i * pvar c1 2 - pvar c1 i)
  upd rhs c1 (fun i => rhs c1 i + pfac i • n_d_dist)

/-- Embedding of `_complete_cocg_lsq` (`cs_gradient.cxx:5457-5505`): unpack
the packed interior covariance into a full symmetric 3×3 matrix and add
`normal ⊗ normal` over the cell's boundary faces (unit normals given in
the mesh quantities). -/
def complete_cocg_lsq (madj : MeshAdj) (q : MeshQuantities) (c : ℕ)
    (cocg : C6) : M33 :=
  loopRange (madj.cell_b_faces_idx c) (madj.cell_b_faces_idx (c + 1))
    (fun i a =>
      let f := madj.cell_b_faces i
      a + M33.outer (q.b_face_u_normal f) (q.b_face_u_normal f))
    (C6.toM33 cocg)

/-- Embedding of `_compute_cocgb_rhsb_lsq_v` (`cs_gradient.cxx:5528-5662`):
assemble the packed 9×9 boundary system for a boundary cell — the
BC-independent part from the completed covariance and the current
right-hand side, plus each boundary face's contributions built from
`bt = B - I` and `a = inc*A` — and Crout-factorize it in place. -/
def compute_cocgb_rhsb_lsq_v (c : ℕ) (inc : ℚ) (madj : MeshAdj)
    (q : MeshQuantities) (pvar : ℕ → ℕ → ℚ) (coefav : ℕ → ℕ → ℚ)
    (coefbv : ℕ → ℕ → ℕ → ℚ) (cocg : M33) (rhs : ℕ → V3) :
    (ℕ → ℚ) × (ℕ → ℚ) :=
  let cocgb0 : ℕ → ℚ := loop 9
    (fun ll acc => loopRange 0 (ll + 1)
      (fun mm acc2 => upd acc2 (ll * (ll + 1) / 2 + mm)
        (if (idxPair ll).1 = (idxPair mm).1 then
          M33.ij cocg (idxPair ll).2 (idxPair mm).2 else 0)) acc)
    (fun _ => 0)
  let rhsb0 : ℕ → ℚ := loop 9
    (fun ll acc => upd acc ll (V3.nth (rhs (idxPair ll).1) (idxPair ll).2))
    (fun _ => 0)
  let st := loopRange (madj.cell_b_faces_idx c) (madj.cell_b_faces_idx (c + 1))
    (fun fidx st =>
      let f := madj.cell_b_faces fidx
      let nb := q.b_face_u_normal f
      let db := 1 / q.b_dist f
      let bt : ℕ → ℕ → ℚ := fun l p =>
        coefbv f l p - (if l = p then 1 else 0)
      let a : ℕ → ℚ := fun l => inc * coefav f l
      let cocgb1 := loop 9
        (fun ll cg => loopRange 0 (ll + 1)
          (fun pp cg2 =>
            let kk := (idxPair ll).1
            let qq := (idxPair ll).2
            let rr := (idxPair pp).1
            let ss := (idxPair pp).2
            let cocgv := sumN 3 (fun mm => bt mm kk * bt mm rr)
            upd cg2 (ll * (ll + 1) / 2 + pp)
              (cg2 (ll * (ll + 1) / 2 + pp) +
                cocgv * (V3.nth (q.diipb f) qq * V3.nth (q.diipb f) ss) *
                  (db * db) -
                (V3.nth nb ss * bt rr kk * V3.nth (q.diipb f) qq +
                 V3.nth nb qq * bt kk rr * V3.nth (q.diipb f) ss) * db))
          cg)
        st.1
      let rhsb1 := loop 9
        (fun ll rb =>
          let pp := (idxPair ll).1
          let qq := (idxPair ll).2
          let rhsv := sumN 3 (fun rr =>
            bt rr pp * V3.nth (q.diipb f) qq *
              (a rr + bt rr 0 * pvar c 0 + bt rr 1 * pvar c 1 +
                bt rr 2 * pvar c 2))
          upd rb ll (rb ll - rhsv * (db * db)))
        st.2
      (cocgb1, rhsb1))
    (cocgb0, rhsb0)
  (fact_crout_pp 9 st.1, st.2)

/-- Embedding of `_lsq_vector_gradient` (`cs_gradient.cxxx:5845-6136`), no
coupling, single rank: assemble the right-hand side over interior faces,
extended neighbors (when the halo is extended) and boundary faces, produce
`cocg·rhs` per row for owned cells, then overwrite every boundary cell's
gradient with the solution of its packed 9×9 boundary system. -/
def lsq_vector_gradient (m : Mesh) (madj : MeshAdj) (q : MeshQuantities)
    (halo_type : HaloType) (inc : ℚ) (coefav : ℕ → ℕ → ℚ)
    (coefbv : ℕ → ℕ → ℕ → ℚ) (pvar : ℕ → ℕ → ℚ)
    (c_weight : Option (ℕ → ℚ)) (grad0 : ℕ → ℕ → V3) : ℕ → ℕ → V3 :=
  let cc := get_cell_cocg_lsq m q halo_type
  let rhs0 : ℕ → ℕ → V3 := fun _ _ => 0
  let rhs1 := loop m.n_i_faces (lsqVRhsFaceStep m q pvar c_weight) rhs0
  let rhs2 := if halo_type = HaloType.extended then
      loop m.n_cells (lsqVRhsExtStep m q pvar) rhs1
    else rhs1
  let rhs3 := loop m.n_b_faces
    (lsqVRhsBndStep m q inc coefav coefbv pvar) rhs2
  let base : ℕ → ℕ → V3 := fun c =>
    if c < m.n_cells then fun i => C6.mulPacked (cc.1 c) (rhs3 c i)
    else grad0 c
  loop m.n_b_cells
    (fun bc g =>
      let c := m.b_cells bc
      let cocgb33 := complete_cocg_lsq madj q c (cc.2 bc)
      let sys := compute_cocgb_rhsb_lsq_v c inc madj q pvar coefav coefbv
        cocgb33 (rhs3 c)
      let x := fw_and_bw_ldtl_pp sys.1 9 sys.2
      upd g c (fun i => ⟨x (3 * i), x (3 * i + 1), x (3 * i + 2)⟩))
    base

/-- One interior-face step of `_reconstruct_vector_gradient`
(`cs_gradient.cxx:4743-4793`). -/
def reconVFaceStep (m : Mesh) (q : MeshQuantities) (pvar : ℕ → ℕ → ℚ)
    (c_weight : Option (ℕ → ℚ)) (r_grad : ℕ → ℕ → V3) (f : ℕ)
    (g : ℕ → ℕ → V3) : ℕ → ℕ → V3 :=
  let c1 := (m.i_face_cells f).1
  let c2 := (m.i_face_cells f).2
  let kt := ktpond q c_weight f c1 c2
  let rfac : ℕ → ℚ := fun i =>
    (1 : ℚ) / 2 * V3.dot (q.dofij f) (r_grad c1 i + r_grad c2 i)
  let g1 := upd g c1 (fun i =>
    g c1 i + ((1 - kt) * (pvar c2 i - pvar c1 i) + rfac i) •
      q.i_f_face_normal f)
  upd g1 c2 (fun i =>
    g1 c2 i - (-kt * (pvar c2 i - pvar c1 i) + rfac i) •
      q.i_f_face_normal f)

/-- One boundary-face step of `_reconstruct_vector_gradient`
(`cs_gradient.cxx:4808-4846`): `pfac = inc*coefav[i] + Σ_k coefbv[i][k]*
pvar[k] - pvar[i]` plus `rfac = Σ_k coefbv[i][k]*(r_grad[c][k]·diipb)`. -/
def reconVBndStep (m : Mesh) (q : MeshQuantities) (inc : ℚ)
    (coefav : ℕ → ℕ → ℚ) (coefbv : ℕ → ℕ → ℕ → ℚ) (pvar : ℕ → ℕ → ℚ)
    (r_grad : ℕ → ℕ → V3) (f : ℕ) (g : ℕ → ℕ → V3) : ℕ → ℕ → V3 :=
  let c := m.b_face_cells f
  let pfac : ℕ → ℚ := fun i => inc * coefav f i +
    sumN 3 (fun k => coefbv f i k * pvar c k) - pvar c i
  let rfac : ℕ → ℚ := fun i =>
    sumN 3 (fun k => coefbv f i k * V3.dot (r_grad c k) (q.diipb f))
  upd g c (fun i => g c i + (pfac i + rfac i) • q.b_f_face_normal f)

/-- Embedding of `_reconstruct_vector_gradient` (`cs_gradient.cxx:4675-4895`),
no coupling, single rank: zero-initialize, accumulate interior- and
boundary-face contributions using the auxiliary gradient, scale owned
cells by the inverse volume and, when the warped-cell correction flag is
set, apply the per-cell linear correction matrix to each row. -/
def reconstruct_vector_gradient (m : Mesh) (q : MeshQuantities) (inc : ℚ)
    (coefav : ℕ → ℕ → ℚ) (coefbv : ℕ → ℕ → ℕ → ℚ) (pvar : ℕ → ℕ → ℚ)
    (c_weight : Option (ℕ → ℚ)) (r_grad : ℕ → ℕ → V3) : ℕ → ℕ → V3 :=
  let g0 : ℕ → ℕ → V3 := fun _ _ => 0
  let g1 := loop m.n_i_faces (reconVFaceStep m q pvar c_weight r_grad) g0
  let g2 := loop m.n_b_faces
    (reconVBndStep m q inc coefav coefbv pvar r_grad) g1
  fun c =>
    if c < m.n_cells then fun i =>
      let gv := q.dvol c • g2 c i
      if q.bad_cells_warped_correction then
        M33.mulVec (q.corr_grad_lin c) gv
      else gv
    else g2 c


/-- Result of the vector/tensor clipping stage (single rank: the MPI
reductions are no-ops). -/
structure VClipResult where
  grad : ℕ → ℕ → V3
  n_clip : ℕ
  min_factor : ℚ
  max_factor : ℚ

/-- One interior-face step of the cell-based `denum`/`denom` accumulation of
`_vector_gradient_clipping` (`cs_gradient.cxx:4076-4131`): squared norms of
the per-row projections `grad·dist` and of the variable variation. -/
def vCellDenumsStep (m : Mesh) (q : MeshQuantities)
    (pvar : ℕ → ℕ → ℚ) (tn2 : (ℕ → ℚ) → ℚ) (gradv : ℕ → ℕ → V3) (f : ℕ)
    (dd : (ℕ → ℚ) × (ℕ → ℚ)) : (ℕ → ℚ) × (ℕ → ℚ) :=
  let c1 := (m.i_face_cells f).1
  let c2 := (m.i_face_cells f).2
  let dist := q.cell_cen c1 - q.cell_cen c2
  let dist_sq1 := tn2 (fun i => V3.dot (gradv c1 i) dist)
  let dist_sq2 := tn2 (fun i => V3.dot (gradv c2 i) dist)
  let dvar_sq := tn2 (fun i => pvar c1 i - pvar c2 i)
  accumMax2 dd c1 c2 dist_sq1 dist_sq2 dvar_sq

/-- One owned-cell step of the extended-neighborhood complement of the
cell-based accumulation (`cs_gradient.cxx:4135-4176`). -/
def vCellDenumsExt (m : Mesh) (q : MeshQuantities)
    (pvar : ℕ → ℕ → ℚ) (tn2 : (ℕ → ℚ) → ℚ) (gradv : ℕ → ℕ → V3) (c1 : ℕ)
    (dd : (ℕ → ℚ) × (ℕ → ℚ)) : (ℕ → ℚ) × (ℕ → ℚ) :=
  loopRange (m.cell_cells_idx c1) (m.cell_cells_idx (c1 + 1))
    (fun cidx d =>
      let c2 := m.cell_cells_lst cidx
      let dist := q.cell_cen c1 - q.cell_cen c2
      accumMax1 d c1 (tn2 (fun i => V3.dot (gradv c1 i) dist))
        (tn2 (fun i => pvar c1 i - pvar c2 i)))
    dd

/-- One interior-face step of the face-based accumulation
(`cs_gradient.cxx:4185-4238`): the half-sum projection is charged to both
cells. -/
def vFaceDenumsStep (m : Mesh) (q : MeshQuantities)
    (pvar : ℕ → ℕ → ℚ) (tn2 : (ℕ → ℚ) → ℚ) (gradv : ℕ → ℕ → V3) (f : ℕ)
    (dd : (ℕ → ℚ) × (ℕ → ℚ)) : (ℕ → ℚ) × (ℕ → ℚ) :=
  let c1 := (m.i_face_cells f).1
  let c2 := (m.i_face_cells f).2
  let dist := q.cell_cen c1 - q.cell_cen c2
  let dist_sq1 := tn2 (fun i =>
    (1 : ℚ) / 2 * V3.dot (gradv c1 i + gradv c2 i) dist)
  let dvar_sq := tn2 (fun i => pvar c1 i - pvar c2 i)
  accumMax2 dd c1 c2 dist_sq1 dist_sq1 dvar_sq

/-- One owned-cell step of the extended-neighborhood complement of the
face-based accumulation (`cs_gradient.cxx:4242-4271`). -/
def vFaceDenumsExt (m : Mesh) (q : MeshQuantities)
    (pvar : ℕ → ℕ → ℚ) (tn2 : (ℕ → ℚ) → ℚ) (gradv : ℕ → ℕ → V3) (c1 : ℕ)
    (dd : (ℕ → ℚ) × (ℕ → ℚ)) : (ℕ → ℚ) × (ℕ → ℚ) :=
  loopRange (m.cell_cells_idx c1) (m.cell_cells_idx (c1 + 1))
    (fun cidx d =>
      let c2 := m.cell_cells_lst cidx
      let dist := q.cell_cen c1 - q.cell_cen c2
      accumMax1 d c1
        (tn2 (fun i =>
          (1 : ℚ) / 2 * V3.dot (gradv c1 i + gradv c2 i) dist))
        (tn2 (fun i => pvar c1 i - pvar c2 i)))
    dd

/-- The vector/tensor clip factor of a cell: `1`, or
`sqrt(climgp² * denom/denum)` when `denum > climgp² * denom`, through the
given square-root oracle (IEEE `sqrt` is not representable over `ℚ`; every
theorem quantifies over the oracle). -/
def vClipFactor (sqrtQ : ℚ → ℚ) (climgp de dn : ℚ) : ℚ :=
  if de > climgp * climgp * dn then sqrtQ (climgp * climgp * dn / de) else 1

/-- One owned-cell step of the cell-based clipping application of
`_vector_gradient_clipping` (`cs_gradient.cxx:4295-4305`, rescaling `rows`
rows). -/
def vCellClipApplyStep (sqrtQ : ℚ → ℚ) (climgp : ℚ) (rows : ℕ)
    (dd : (ℕ → ℚ) × (ℕ → ℚ)) (c : ℕ) (st : VClipResult) : VClipResult :=
  if dd.1 c > climgp * climgp * dd.2 c then
    let factor1 := sqrtQ (climgp * climgp * dd.2 c / dd.1 c)
    ⟨upd st.grad c (fun i => if i < rows then factor1 • st.grad c i
        else st.grad c i),
     st.n_clip + 1, min factor1 st.min_factor, max factor1 st.max_factor⟩
  else st

/-- One interior-face step of the face-based factor minimization
(`cs_gradient.cxx:4330-4352`). -/
def vFaceFactorStep (m : Mesh) (sqrtQ : ℚ → ℚ) (climgp : ℚ)
    (dd : (ℕ → ℚ) × (ℕ → ℚ)) (f : ℕ) (cf : ℕ → ℚ) : ℕ → ℚ :=
  let c1 := (m.i_face_cells f).1
  let c2 := (m.i_face_cells f).2
  let lmin := min (vClipFactor sqrtQ climgp (dd.1 c1) (dd.2 c1))
    (vClipFactor sqrtQ climgp (dd.1 c2) (dd.2 c2))
  dropMin (dropMin cf c1 lmin) c2 lmin

/-- One owned-cell step of the extended-neighborhood complement of the
face-based factor minimization of `_vector_gradient_clipping`
(`cs_gradient.cxx:4360-4384`). -/
def vFaceExtStep (m : Mesh) (sqrtQ : ℚ → ℚ) (climgp : ℚ)
    (dd : (ℕ → ℚ) × (ℕ → ℚ)) (c1 : ℕ) (cf : ℕ → ℚ) : ℕ → ℚ :=
  dropMin cf c1
    (loopRange (m.cell_cells_idx c1) (m.cell_cells_idx (c1 + 1))
      (fun cidx fac =>
        min fac (vClipFactor sqrtQ climgp (dd.1 (m.cell_cells_lst cidx))
          (dd.2 (m.cell_cells_lst cidx)))) 1)

/-- One owned-cell step of the face-based clipping application
(`cs_gradient.cxx:4390-4410`, rescaling `rows` rows, counting factors below
`0.99`). -/
def vFaceClipApplyStep (rows : ℕ) (cf : ℕ → ℚ) (c : ℕ) (st : VClipResult) :
    VClipResult :=
  let g' := upd st.grad c (fun i => if i < rows then cf c • st.grad c i
    else st.grad c i)
  if cf c < 99 / 100 then
    ⟨g', st.n_clip + 1, min st.min_factor (cf c), max st.max_factor (cf c)⟩
  else ⟨g', st.n_clip, st.min_factor, st.max_factor⟩

/-- Embedding of `_vector_gradient_clipping` (`cs_gradient.cxx:4000-4490`),
single rank.  The mode tests follow the source's raw comparisons
(`clip_mode < 0` returns, `== 0` cell-based, `== 1` face-based); the
squared-norm accumulator is `Σ_{i<3} t_i²`, and the square root of the
factor is taken through the oracle. -/
def vector_gradient_clipping (m : Mesh) (q : MeshQuantities)
    (sqrtQ : ℚ → ℚ) (halo_type : HaloType) (clip_mode : ℤ) (climgp : ℚ)
    (pvar : ℕ → ℕ → ℚ) (gradv : ℕ → ℕ → V3) : VClipResult :=
  let tn2 : (ℕ → ℚ) → ℚ := fun t => sumN 3 (fun i => t i * t i)
  if clip_mode < 0 then ⟨gradv, 0, 1, 0⟩
  else if clip_mode = 0 then
    let dd0 : (ℕ → ℚ) × (ℕ → ℚ) := (fun _ => 0, fun _ => 0)
    let dd1 := loop m.n_i_faces (vCellDenumsStep m q pvar tn2 gradv) dd0
    let dd := if m.has_cell_cells = true ∧ halo_type = HaloType.extended
      then loop m.n_cells (vCellDenumsExt m q pvar tn2 gradv) dd1
      else dd1
    loop m.n_cells (vCellClipApplyStep sqrtQ climgp 3 dd) ⟨gradv, 0, 1, 0⟩
  else if clip_mode = 1 then
    let dd0 : (ℕ → ℚ) × (ℕ → ℚ) := (fun _ => 0, fun _ => 0)
    let dd1 := loop m.n_i_faces (vFaceDenumsStep m q pvar tn2 gradv) dd0
    let dd := if m.has_cell_cells = true ∧ halo_type = HaloType.extended
      then loop m.n_cells (vFaceDenumsExt m q pvar tn2 gradv) dd1
      else dd1
    let cf1 := loop m.n_i_faces (vFaceFactorStep m sqrtQ climgp dd)
      (fun _ => DBL_MAX)
    let cf := if m.has_cell_cells = true ∧ halo_type = HaloType.extended
      then loop m.n_cells (vFaceExtStep m sqrtQ climgp dd) cf1
      else cf1
    loop m.n_cells (vFaceClipApplyStep 3 cf) ⟨gradv, 0, 1, 0⟩
  else ⟨gradv, 0, 1, 0⟩

/-- The computational part of `_gradient_vector` (`cs_gradient.cxx:6873-7037`):
default the boundary coefficients to homogeneous Neumann (`a = 0`,
`B = I₃`) when absent, then dispatch — Green-Gauss iterative
(initialization, then the iterative driver only when `n_r_sweeps > 1`),
least-squares followed by clipping, or least-squares, clipping and a
reconstruction pass.  The vertex-based type matches no case of the switch
and leaves the caller's buffer untouched. -/
def gradient_vector_compute (m : Mesh) (madj : MeshAdj)
    (q : MeshQuantities) (sqrtQ : ℚ → ℚ) (gradient_type : GradientType)
    (halo_type : HaloType) (inc : ℚ) (n_r_sweeps verbosity clip_mode : ℤ)
    (epsilon clip_coeff : ℚ) (bc_coeff_a : Option (ℕ → ℕ → ℚ))
    (bc_coeff_b : Option (ℕ → ℕ → ℕ → ℚ)) (var : ℕ → ℕ → ℚ)
    (c_weight : Option (ℕ → ℚ)) (grad0 : ℕ → ℕ → V3) : ℕ → ℕ → V3 :=
  let coefav := bc_coeff_a.getD (fun _ _ => 0)
  let coefbv := bc_coeff_b.getD (fun _ j k => if j = k then 1 else 0)
  match gradient_type with
  | GradientType.green_iter =>
    let g1 := initialize_vector_gradient m q inc coefav coefbv var c_weight
    if 1 < n_r_sweeps then
      (iterative_vector_gradient m q n_r_sweeps verbosity inc epsilon
        coefav coefbv var c_weight g1).1
    else g1
  | GradientType.lsq =>
    (vector_gradient_clipping m q sqrtQ halo_type clip_mode clip_coeff var
      (lsq_vector_gradient m madj q halo_type inc coefav coefbv var
        c_weight grad0)).grad
  | GradientType.green_lsq =>
    reconstruct_vector_gradient m q inc coefav coefbv var c_weight
      ((vector_gradient_clipping m q sqrtQ halo_type clip_mode clip_coeff
        var
        (lsq_vector_gradient m madj q halo_type inc coefav coefbv var
          c_weight grad0)).grad)
  | GradientType.green_vtx => grad0


/-- One interior-face step of `_initialize_tensor_gradient`
(`cs_gradient.cxx:6490-6520`): six components, plain geometric weight. -/
def initTGradFaceStep (m : Mesh) (q : MeshQuantities) (pvar : ℕ → ℕ → ℚ)
    (f : ℕ) (g : ℕ → ℕ → V3) : ℕ → ℕ → V3 :=
  let c1 := (m.i_face_cells f).1
  let c2 := (m.i_face_cells f).2
  let pond := q.weight f
  let g1 := upd g c1 (fun i =>
    g c1 i + ((1 - pond) * (pvar c2 i - pvar c1 i)) • q.i_f_face_normal f)
  upd g1 c2 (fun i =>
    g1 c2 i - (-pond * (pvar c2 i - pvar c1 i)) • q.i_f_face_normal f)

/-- One boundary-face step of `_initialize_tensor_gradient`
(`cs_gradient.cxx:6524-6553`): per component `i < 6`,
`pfac = inc*coefat[i] + Σ_{k<6} ((coefbt[i][k] - δik) * pvar[k])`. -/
def initTGradBndStep (m : Mesh) (q : MeshQuantities) (inc : ℚ)
    (coefat : ℕ → ℕ → ℚ) (coefbt : ℕ → ℕ → ℕ → ℚ) (pvar : ℕ → ℕ → ℚ)
    (f : ℕ) (g : ℕ → ℕ → V3) : ℕ → ℕ → V3 :=
  let c := m.b_face_cells f
  let pfac : ℕ → ℚ := fun i => inc * coefat f i +
    sumN 6 (fun k =>
      (if i = k then coefbt f i k - 1 else coefbt f i k) * pvar c k)
  upd g c (fun i => g c i + pfac i • q.b_f_face_normal f)

/-- Embedding of `_initialize_tensor_gradient` (`cs_gradient.cxx:6434-6580`),
single rank. -/
def initialize_tensor_gradient (m : Mesh) (q : MeshQuantities) (inc : ℚ)
    (coefat : ℕ → ℕ → ℚ) (coefbt : ℕ → ℕ → ℕ → ℚ) (pvar : ℕ → ℕ → ℚ) :
    ℕ → ℕ → V3 :=
  let g0 : ℕ → ℕ → V3 := fun _ _ => 0
  let g1 := loop m.n_i_faces (initTGradFaceStep m q pvar) g0
  let g2 := loop m.n_b_faces
    (initTGradBndStep m q inc coefat coefbt pvar) g1
  fun c => if c < m.n_cells then fun i => q.dvol c • g2 c i else g2 c

/-- One interior-face step of the sweep right-hand side of
`_iterative_tensor_gradient` (`cs_gradient.cxx:5283-5327`). -/
def iterTRhsFaceStep (m : Mesh) (q : MeshQuantities) (pvar : ℕ → ℕ → ℚ)
    (grad : ℕ → ℕ → V3) (f : ℕ) (rhs : ℕ → ℕ → V3) : ℕ → ℕ → V3 :=
  let c1 := (m.i_face_cells f).1
  let c2 := (m.i_face_cells f).2
  let pond := q.weight f
  let pfac0 : ℕ → ℚ := fun i =>
    (1 : ℚ) / 2 * V3.dot (grad c1 i + grad c2 i) (q.dofij f)
  let r1 := upd rhs c1 (fun i =>
    rhs c1 i + (pfac0 i + (1 - pond) * (pvar c2 i - pvar c1 i)) •
      q.i_f_face_normal f)
  upd r1 c2 (fun i =>
    r1 c2 i - (pfac0 i - pond * (pvar c2 i - pvar c1 i)) •
      q.i_f_face_normal f)

/-- One boundary-face step of the sweep right-hand side of
`_iterative_tensor_gradient` (`cs_gradient.cxx:5333-5372`). -/
def iterTRhsBndStep (m : Mesh) (q : MeshQuantities) (inc : ℚ)
    (coefat : ℕ → ℕ → ℚ) (coefbt : ℕ → ℕ → ℕ → ℚ) (pvar : ℕ → ℕ → ℚ)
    (grad : ℕ → ℕ → V3) (f : ℕ) (rhs : ℕ → ℕ → V3) : ℕ → ℕ → V3 :=
  let c := m.b_face_cells f
  let pfac : ℕ → ℚ := fun i => inc * coefat f i +
    sumN 6 (fun k =>
      coefbt f i k * V3.dot (grad c k) (q.diipb f) +
      (if i = k then coefbt f i k - 1 else coefbt f i k) * pvar c k)
  upd rhs c (fun i => rhs c i + pfac i • q.b_f_face_normal f)

/-- One sweep of `_iterative_tensor_gradient` (`cs_gradient.cxx:5272-5410`). -/
def tIterSweep (m : Mesh) (q : MeshQuantities) (inc : ℚ)
    (coefat : ℕ → ℕ → ℚ) (coefbt : ℕ → ℕ → ℕ → ℚ) (pvar : ℕ → ℕ → ℚ)
    (cocg : ℕ → M33) (grad : ℕ → ℕ → V3) : (ℕ → ℕ → V3) × ℚ :=
  let rhs0 : ℕ → ℕ → V3 := fun c i => (-q.cell_f_vol c) • grad c i
  let rhs1 := loop m.n_i_faces (iterTRhsFaceStep m q pvar grad) rhs0
  let rhs2 := loop m.n_b_faces
    (iterTRhsBndStep m q inc coefat coefbt pvar grad) rhs1
  let rhs3 : ℕ → ℕ → V3 := fun c i => q.dvol c • rhs2 c i
  (fun c => if c < m.n_cells then
    (fun i => grad c i + M33.mulVecT (cocg c) (rhs3 c i)) else grad c,
   l2vr_norm_sq m.n_cells 6 rhs3)

/-- Embedding of `_iterative_tensor_gradient` (`cs_gradient.cxx:5199-5455`),
single rank: sweeps run while the budget and the residual test allow;
nothing happens when the initial norm is numerically zero. -/
def iterative_tensor_gradient (m : Mesh) (q : MeshQuantities)
    (n_r_sweeps _verbosity : ℤ) (inc epsrgp : ℚ) (coefat : ℕ → ℕ → ℚ)
    (coefbt : ℕ → ℕ → ℕ → ℚ) (pvar : ℕ → ℕ → ℚ) (grad : ℕ → ℕ → V3) :
    (ℕ → ℕ → V3) × ℤ :=
  let norm_sq := l2vr_norm_sq m.n_cells 6 grad
  if epzero ^ 2 < norm_sq then
    let step := tIterSweep m q inc coefat coefbt pvar
      (compute_cell_cocg_it m q)
    let out := contLoop step (vSweepCont epsrgp norm_sq)
      (n_r_sweeps - 1).toNat 1 grad norm_sq
    (out.1, out.2.1)
  else (grad, 0)

/-- One interior-face step of the `_lsq_tensor_gradient` right-hand side
(`cs_gradient.cxx:6213-6262`). -/
def lsqTRhsFaceStep (m : Mesh) (q : MeshQuantities) (pvar : ℕ → ℕ → ℚ)
    (c_weight : Option (ℕ → ℚ)) (f : ℕ) (rhs : ℕ → ℕ → V3) :
    ℕ → ℕ → V3 :=
  let c1 := (m.i_face_cells f).1
  let c2 := (m.i_face_cells f).2
  let dc := q.cell_cen c2 - q.cell_cen c1
  let ddc := 1 / V3.normSq dc
  match c_weight with
  | some cw =>
    let pond := q.weight f
    let denom := 1 / (pond * cw c1 + (1 - pond) * cw c2)
    let r1 := upd rhs c1 (fun i =>
      rhs c1 i + (cw c2 * denom) • (((pvar c2 i - pvar c1 i) * ddc) • dc))
    upd r1 c2 (fun i =>
      r1 c2 i + (cw c1 * denom) • (((pvar c2 i - pvar c1 i) * ddc) • dc))
  | none =>
    let r1 := upd rhs c1 (fun i =>
      rhs c1 i + ((pvar c2 i - pvar c1 i) * ddc) • dc)
    upd r1 c2 (fun i =>
      r1 c2 i + ((pvar c2 i - pvar c1 i) * ddc) • dc)

/-- One owned-cell step of the extended-neighborhood right-hand-side
contribution of `_lsq_tensor_gradient` (`cs_gradient.cxx:6266-6293`). -/
def lsqTRhsExtStep (m : Mesh) (q : MeshQuantities) (pvar : ℕ → ℕ → ℚ)
    (ii : ℕ) (rhs : ℕ → ℕ → V3) : ℕ → ℕ → V3 :=
  loopRange (m.cell_cells_idx ii) (m.cell_cells_idx (ii + 1))
    (fun cidx r =>
      let jj := m.cell_cells_lst cidx
      let dc := q.cell_cen jj - q.cell_cen ii
      let ddc := 1 / V3.normSq dc
      upd r ii (fun i => r ii i + ((pvar jj i - pvar ii i) * ddc) • dc))
    rhs

/-- One boundary-face step of the `_lsq_tensor_gradient` right-hand side
(`cs_gradient.cxx:6297-6327`): per component `i < 6`,
`pfac = coefat[i]*inc - pvar[i] + Σ_{j<6} coefbt[j][i]*pvar[j]` along the
unit normal divided by `b_dist`. -/
def lsqTRhsBndStep (m : Mesh) (q : MeshQuantities) (inc : ℚ)
    (coefat : ℕ → ℕ → ℚ) (coefbt : ℕ → ℕ → ℕ → ℚ) (pvar : ℕ → ℕ → ℚ)
    (f : ℕ) (rhs : ℕ → ℕ → V3) : ℕ → ℕ → V3 :=
  let c1 := m.b_face_cells f
  let n_d_dist := (1 / q.b_dist f) • q.b_face_u_normal f
  let pfac : ℕ → ℚ := fun i => coefat f i * inc - pvar c1 i +
    sumN 6 (fun j => coefbt f j i * pvar c1 j)
  upd rhs c1 (fun i => rhs c1 i + pfac i • n_d_dist)

/-- Embedding of `_compute_cocgb_rhsb_lsq_t` (`cs_gradient.cxx:5683-5827`):
assemble the packed 18×18 boundary system of a boundary cell (the face
normal here is scaled by `1/b_face_surf`, with no square root) and
Crout-factorize it in place. -/
def compute_cocgb_rhsb_lsq_t (c : ℕ) (inc : ℚ) (madj : MeshAdj)
    (q : MeshQuantities) (pvar : ℕ → ℕ → ℚ) (coefat : ℕ → ℕ → ℚ)
    (coefbt : ℕ → ℕ → ℕ → ℚ) (cocg : M33) (rhs : ℕ → V3) :
    (ℕ → ℚ) × (ℕ → ℚ) :=
  let cocgb0 : ℕ → ℚ := loop 18
    (fun ll acc => loopRange 0 (ll + 1)
      (fun mm acc2 => upd acc2 (ll * (ll + 1) / 2 + mm)
        (if (idxPair ll).1 = (idxPair mm).1 then
          M33.ij cocg (idxPair ll).2 (idxPair mm).2 else 0)) acc)
    (fun _ => 0)
  let rhsb0 : ℕ → ℚ := loop 18
    (fun ll acc => upd acc ll (V3.nth (rhs (idxPair ll).1) (idxPair ll).2))
    (fun _ => 0)
  let st := loopRange (madj.cell_b_faces_idx c) (madj.cell_b_faces_idx (c + 1))
    (fun fidx st =>
      let f := madj.cell_b_faces fidx
      let nb := (1 / q.b_face_surf f) • q.b_face_normal f
      let db := 1 / q.b_dist f
      let bt : ℕ → ℕ → ℚ := fun l p =>
        coefbt f l p - (if l = p then 1 else 0)
      let a : ℕ → ℚ := fun l => inc * coefat f l
      let cocgb1 := loop 18
        (fun ll cg => loopRange 0 (ll + 1)
          (fun pp cg2 =>
            let kk := (idxPair ll).1
            let qq := (idxPair ll).2
            let rr := (idxPair pp).1
            let ss := (idxPair pp).2
            let cocgt := sumN 6 (fun mm => bt mm kk * bt mm rr)
            upd cg2 (ll * (ll + 1) / 2 + pp)
              (cg2 (ll * (ll + 1) / 2 + pp) +
                cocgt * (V3.nth (q.diipb f) qq * V3.nth (q.diipb f) ss) *
                  (db * db) -
                (V3.nth nb ss * bt rr kk * V3.nth (q.diipb f) qq +
                 V3.nth nb qq * bt kk rr * V3.nth (q.diipb f) ss) * db))
          cg)
        st.1
      let rhsb1 := loop 18
        (fun ll rb =>
          let pp := (idxPair ll).1
          let qq := (idxPair ll).2
          let rhst := sumN 6 (fun rr =>
            bt rr pp * V3.nth (q.diipb f) qq *
              (a rr + sumN 6 (fun kk => bt rr kk * pvar c kk)))
          upd rb ll (rb ll - rhst * (db * db)))
        st.2
      (cocgb1, rhsb1))
    (cocgb0, rhsb0)
  (fact_crout_pp 18 st.1, st.2)

/-- Embedding of `_lsq_tensor_gradient` (`cs_gradient.cxx:6147-6430`),
single rank: restore the saved interior-only covariance at every boundary
cell, assemble the right-hand side, produce `cocg·rhs` per row for owned
cells, then overwrite every boundary cell's gradient with the solution of
its packed 18×18 boundary system. -/
def lsq_tensor_gradient (m : Mesh) (madj : MeshAdj) (q : MeshQuantities)
    (halo_type : HaloType) (inc : ℚ) (coefat : ℕ → ℕ → ℚ)
    (coefbt : ℕ → ℕ → ℕ → ℚ) (pvar : ℕ → ℕ → ℚ)
    (c_weight : Option (ℕ → ℚ)) (grad0 : ℕ → ℕ → V3) : ℕ → ℕ → V3 :=
  let cc := get_cell_cocg_lsq m q halo_type
  let cocg := loop m.n_b_cells
    (fun bc cg => upd cg (m.b_cells bc) (cc.2 bc)) cc.1
  let rhs0 : ℕ → ℕ → V3 := fun _ _ => 0
  let rhs1 := loop m.n_i_faces (lsqTRhsFaceStep m q pvar c_weight) rhs0
  let rhs2 := if halo_type = HaloType.extended then
      loop m.n_cells (lsqTRhsExtStep m q pvar) rhs1
    else rhs1
  let rhs3 := loop m.n_b_faces
    (lsqTRhsBndStep m q inc coefat coefbt pvar) rhs2
  let base : ℕ → ℕ → V3 := fun c =>
    if c < m.n_cells then fun i => C6.mulPacked (cocg c) (rhs3 c i)
    else grad0 c
  loop m.n_b_cells
    (fun bc g =>
      let c := m.b_cells bc
      let cocgb33 := complete_cocg_lsq madj q c (cocg c)
      let sys := compute_cocgb_rhsb_lsq_t c inc madj q pvar coefat coefbt
        cocgb33 (rhs3 c)
      let x := fw_and_bw_ldtl_pp sys.1 18 sys.2
      upd g c (fun i => ⟨x (3 * i), x (3 * i + 1), x (3 * i + 2)⟩))
    base

/-- The squared Frobenius norm of a packed symmetric tensor
(`_tensor_norm_2`, `cs_gradient.cxx:7049-7056`). -/
def tensor_norm_2 (t : ℕ → ℚ) : ℚ :=
  t 0 * t 0 + t 1 * t 1 + t 2 * t 2 +
    2 * (t 3 * t 3) + 2 * (t 4 * t 4) + 2 * (t 5 * t 5)

/-- One owned-cell step of the extended-neighborhood complement of the
face-based factor minimization of `_tensor_gradient_clipping`
(`cs_gradient.cxx:7405-7430`).  The source sets
`t_min_factor = CS_MIN(min_factor, factor2)` with the *global*
`min_factor` (still `1` at this point) instead of accumulating into the
local minimum, so each neighbor overwrites the local value and only the
last neighbor's factor is retained. -/
def tFaceExtStep (m : Mesh) (sqrtQ : ℚ → ℚ) (climgp : ℚ)
    (dd : (ℕ → ℚ) × (ℕ → ℚ)) (c1 : ℕ) (cf : ℕ → ℚ) : ℕ → ℚ :=
  dropMin cf c1
    (loopRange (m.cell_cells_idx c1) (m.cell_cells_idx (c1 + 1))
      (fun cidx _fac =>
        min 1 (vClipFactor sqrtQ climgp (dd.1 (m.cell_cells_lst cidx))
          (dd.2 (m.cell_cells_lst cidx)))) 1)

/-- Embedding of `_tensor_gradient_clipping` (`cs_gradient.cxx:7073-7500`),
single rank.  The squared-norm accumulator is the Frobenius norm of the
packed tensor; the application loops of the source rescale only the first
three of the six rows (`for (i = 0; i < 3; i++)` on a `cs_real_63_t`),
reproduced here by the `rows = 3` argument. -/
def tensor_gradient_clipping (m : Mesh) (q : MeshQuantities)
    (sqrtQ : ℚ → ℚ) (halo_type : HaloType) (clip_mode : ℤ) (climgp : ℚ)
    (pvar : ℕ → ℕ → ℚ) (gradt : ℕ → ℕ → V3) : VClipResult :=
  let tn2 : (ℕ → ℚ) → ℚ := tensor_norm_2
  if clip_mode ≤ CS_GRADIENT_LIMIT_NONE then ⟨gradt, 0, 1, 0⟩
  else if clip_mode = CS_GRADIENT_LIMIT_CELL then
    let dd0 : (ℕ → ℚ) × (ℕ → ℚ) := (fun _ => 0, fun _ => 0)
    let dd1 := loop m.n_i_faces (vCellDenumsStep m q pvar tn2 gradt) dd0
    let dd := if m.has_cell_cells = true ∧ halo_type = HaloType.extended
      then loop m.n_cells (vCellDenumsExt m q pvar tn2 gradt) dd1
      else dd1
    loop m.n_cells (vCellClipApplyStep sqrtQ climgp 3 dd) ⟨gradt, 0, 1, 0⟩
  else if clip_mode = CS_GRADIENT_LIMIT_FACE then
    let dd0 : (ℕ → ℚ) × (ℕ → ℚ) := (fun _ => 0, fun _ => 0)
    let dd1 := loop m.n_i_faces (vFaceDenumsStep m q pvar tn2 gradt) dd0
    let dd := if m.has_cell_cells = true ∧ halo_type = HaloType.extended
      then loop m.n_cells (vFaceDenumsExt m q pvar tn2 gradt) dd1
      else dd1
    let cf1 := loop m.n_i_faces (vFaceFactorStep m sqrtQ climgp dd)
      (fun _ => DBL_MAX)
    let cf := if m.has_cell_cells = true ∧ halo_type = HaloType.extended
      then loop m.n_cells (tFaceExtStep m sqrtQ climgp dd) cf1
      else cf1
    loop m.n_cells (vFaceClipApplyStep 3 cf) ⟨gradt, 0, 1, 0⟩
  else ⟨gradt, 0, 1, 0⟩

/-- The computational part of `_gradient_tensor` (`cs_gradient.cxx:7541-7654`):
default the boundary coefficients to homogeneous Neumann (`a = 0`,
`B = I₆`) when absent, then dispatch — Green-Gauss iterative
(initialization, then the iterative driver only when `n_r_sweeps > 1`) or
least-squares followed by clipping.  Any other type falls to the `default`
label, whose only statement is `assert(0)` — a no-op when `NDEBUG` is
defined, i.e. in release builds — with no call to the fatal-error path
(`cs_gradient.cxx` contains no `bft_error` call), so the function returns
with the caller's output buffer untouched; the second component records
that this default branch was taken. -/
def gradient_tensor_compute (m : Mesh) (madj : MeshAdj)
    (q : MeshQuantities) (sqrtQ : ℚ → ℚ) (gradient_type : GradientType)
    (halo_type : HaloType) (inc : ℚ) (n_r_sweeps verbosity clip_mode : ℤ)
    (epsilon clip_coeff : ℚ) (bc_coeff_a : Option (ℕ → ℕ → ℚ))
    (bc_coeff_b : Option (ℕ → ℕ → ℕ → ℚ)) (var : ℕ → ℕ → ℚ)
    (grad0 : ℕ → ℕ → V3) : (ℕ → ℕ → V3) × Bool :=
  let coefat := bc_coeff_a.getD (fun _ _ => 0)
  let coefbt := bc_coeff_b.getD (fun _ j k => if j = k then 1 else 0)
  match gradient_type with
  | GradientType.green_iter =>
    let g1 := initialize_tensor_gradient m q inc coefat coefbt var
    (if 1 < n_r_sweeps then
      (iterative_tensor_gradient m q n_r_sweeps verbosity inc epsilon
        coefat coefbt var g1).1
    else g1, false)
  | GradientType.lsq =>
    ((tensor_gradient_clipping m q sqrtQ halo_type clip_mode clip_coeff var
      (lsq_tensor_gradient m madj q halo_type inc coefat coefbt var none
        grad0)).grad, false)
  | _ => (grad0, true)

/-- The tensor entry point `cs_gradient_tensor` (`cs_gradient.cxx:8334-8404`)
remaps `CS_GRADIENT_GREEN_LSQ` to `CS_GRADIENT_GREEN_ITER` before
dispatching, so the only gradient type reaching the dispatch's `default`
label is the vertex-based one. -/
def cs_gradient_tensor_compute (m : Mesh) (madj : MeshAdj)
    (q : MeshQuantities) (sqrtQ : ℚ → ℚ) (gradient_type : GradientType)
    (halo_type : HaloType) (inc : ℚ) (n_r_sweeps verbosity clip_mode : ℤ)
    (epsilon clip_coeff : ℚ) (bc_coeff_a : Option (ℕ → ℕ → ℚ))
    (bc_coeff_b : Option (ℕ → ℕ → ℕ → ℚ)) (var : ℕ → ℕ → ℚ)
    (grad0 : ℕ → ℕ → V3) : (ℕ → ℕ → V3) × Bool :=
  gradient_tensor_compute m madj q sqrtQ
    (if gradient_type = GradientType.green_lsq then GradientType.green_iter
      else gradient_type)
    halo_type inc n_r_sweeps verbosity clip_mode epsilon clip_coeff
    bc_coeff_a bc_coeff_b var grad0

def schur (A : ℕ → ℕ → ℚ) : ℕ → ℕ → ℕ → ℚ
  | 0 => A
  | k + 1 => fun i j =>
      schur A k i j - schur A k i k * schur A k j k / schur A k k k

def croutL (A : ℕ → ℕ → ℚ) (i j : ℕ) : ℚ :=
  if j < i then schur A j i j / schur A j j j
  else if j = i then 1 else 0

def croutD (A : ℕ → ℕ → ℚ) (i : ℕ) : ℚ := schur A i i i

def croutInv (A : ℕ → ℕ → ℚ) (p k : ℕ) (ar : ℕ → ℚ) : Prop :=
  ∀ i j, j ≤ i → i < p →
    ar (i * (i + 1) / 2 + j) =
      if j < k then (if j < i then croutL A i j else croutD A i)
      else schur A k i j

def quadForm (S : ℕ → ℕ → ℚ) (p : ℕ) (x : ℕ → ℚ) : ℚ :=
  sumN p (fun i => x i * sumN p (fun j => S i j * x j))

def IsSPD (p : ℕ) (A : ℕ → ℕ → ℚ) : Prop :=
  (∀ i j, i < p → j < p → A i j = A j i) ∧
  ∀ x : ℕ → ℚ, (∃ i, i < p ∧ x i ≠ 0) → 0 < quadForm A p x

def PosDefOn (S : ℕ → ℕ → ℚ) (k p : ℕ) : Prop :=
  ∀ x : ℕ → ℚ, (∀ i, i < k → x i = 0) → (∃ i, i < p ∧ x i ≠ 0) →
    0 < quadForm S p x

def matW : ℕ → ℕ → ℚ := fun i j => if i = j then 2 else 1

def adW : ℕ → ℚ := fun n =>
  if n = 0 then 2 else if n = 1 then 1 else if n = 2 then 2 else 0

def rhsW : ℕ → ℚ := fun _ => 1

end CS

namespace CS

/-! Theorems for claim C7: COCG inversion round-trip. -/

/-- C7.  For every accumulated covariance matrix with nonzero determinant,
multiplying the matrix produced by the in-place Cramer's-rule inversion — the
packed 6-entry symmetric form `_math_6_inv_cramer_sym_in_place`, and the full
3×3 form `cs_math_33_inv_cramer_in_place` used by the iterative scheme in
`_compute_cell_cocg_it` — by the original covariance matrix yields the
identity matrix, exactly in exact arithmetic. -/
theorem cocg_inv_cramer_round_trip (a : C6) (b : M33)
    (ha : C6.det a ≠ 0) (hb : M33.det b ≠ 0) :
    M33.mul (C6.toM33 (math_6_inv_cramer_sym_in_place a)) (C6.toM33 a) = M33.one
    ∧ M33.mul (math_33_inv_cramer_in_place b) b = M33.one := by
  constructor
  · unfold C6.det at ha
    simp only [math_6_inv_cramer_sym_in_place, C6.toM33, M33.mul, M33.one,
      M33.mk.injEq]
    refine ⟨?_, ?_, ?_, ?_, ?_, ?_, ?_, ?_, ?_⟩ <;> (field_simp; ring)
  · unfold M33.det at hb
    simp only [math_33_inv_cramer_in_place, M33.mul, M33.one, M33.det,
      M33.mk.injEq]
    refine ⟨?_, ?_, ?_, ?_, ?_, ?_, ?_, ?_, ?_⟩ <;> (field_simp; ring)

/-- Witness for C7 at a concrete non-degenerate covariance pair. -/
theorem cocg_inv_cramer_round_trip_witness :
    C6.det ⟨2, 3, 4, 0, 0, 0⟩ ≠ 0 ∧ M33.det ⟨1, 0, 0, 0, 2, 0, 0, 0, 5⟩ ≠ 0 ∧
    (M33.mul (C6.toM33 (math_6_inv_cramer_sym_in_place ⟨2, 3, 4, 0, 0, 0⟩))
        (C6.toM33 ⟨2, 3, 4, 0, 0, 0⟩) = M33.one
      ∧ M33.mul (math_33_inv_cramer_in_place ⟨1, 0, 0, 0, 2, 0, 0, 0, 5⟩)
        ⟨1, 0, 0, 0, 2, 0, 0, 0, 5⟩ = M33.one) :=
  ⟨by norm_num [C6.det], by norm_num [M33.det],
   cocg_inv_cramer_round_trip ⟨2, 3, 4, 0, 0, 0⟩ ⟨1, 0, 0, 0, 2, 0, 0, 0, 5⟩
     (by norm_num [C6.det]) (by norm_num [M33.det])⟩

/-! Generic loop lemmas. -/

theorem loop_inv_idx {σ : Type} (P : ℕ → σ → Prop) (n : ℕ) (f : ℕ → σ → σ)
    (s : σ) (h0 : P 0 s)
    (hstep : ∀ i, i < n → ∀ t, P i t → P (i + 1) (f i t)) :
    P n (loop n f s) := by
  induction n with
  | zero => exact h0
  | succ k ih =>
    exact hstep k (Nat.lt_succ_self k) _
      (ih fun i hi t ht => hstep i (Nat.lt_succ_of_lt hi) t ht)

theorem loop_inv {σ : Type} (P : σ → Prop) (n : ℕ) (f : ℕ → σ → σ) (s : σ)
    (h0 : P s) (hstep : ∀ i, i < n → ∀ t, P t → P (f i t)) :
    P (loop n f s) :=
  loop_inv_idx (fun _ t => P t) n f s h0 hstep

theorem loop_congr {σ : Type} (n : ℕ) (f g : ℕ → σ → σ) (s : σ)
    (h : ∀ i, i < n → ∀ t, f i t = g i t) : loop n f s = loop n g s := by
  induction n with
  | zero => rfl
  | succ k ih =>
    show f k (loop k f s) = g k (loop k g s)
    rw [ih fun i hi t => h i (Nat.lt_succ_of_lt hi) t,
      h k (Nat.lt_succ_self k)]

/-! Lemmas about the clipping stage. -/

theorem bumpMax_nonneg {d : ℕ → ℚ} (h : ∀ c, 0 ≤ d c) (i : ℕ) (x : ℚ) :
    ∀ c, 0 ≤ bumpMax d i x c := by
  intro c
  unfold bumpMax upd
  split
  · exact le_trans (h i) (le_max_left _ _)
  · exact h c

theorem dropMin_le (x : ℕ → ℚ) (i : ℕ) (v : ℚ) (c : ℕ) :
    dropMin x i v c ≤ x c := by
  unfold dropMin upd
  split
  · rename_i h
    rw [h]
    exact min_le_left _ _
  · exact le_refl _

theorem dropMin_at {x : ℕ → ℚ} {i c : ℕ} (h : c = i) (v : ℚ) :
    dropMin x i v c ≤ v := by
  subst h
  unfold dropMin
  rw [upd_same]
  exact min_le_right _ _

theorem dropMin_nonneg {x : ℕ → ℚ} (h : ∀ c, 0 ≤ x c) {i : ℕ} {v : ℚ}
    (hv : 0 ≤ v) : ∀ c, 0 ≤ dropMin x i v c := by
  intro c
  unfold dropMin upd
  split
  · exact le_min (h i) hv
  · exact h c

theorem accumMax2_nonneg {dd : (ℕ → ℚ) × (ℕ → ℚ)}
    (h : ∀ c, 0 ≤ dd.1 c ∧ 0 ≤ dd.2 c) (ii jj : ℕ) (d1 d2 dv : ℚ) :
    ∀ c, 0 ≤ (accumMax2 dd ii jj d1 d2 dv).1 c ∧
      0 ≤ (accumMax2 dd ii jj d1 d2 dv).2 c := by
  intro c
  exact ⟨bumpMax_nonneg (bumpMax_nonneg (fun c => (h c).1) _ _) _ _ c,
    bumpMax_nonneg (bumpMax_nonneg (fun c => (h c).2) _ _) _ _ c⟩

theorem accumMax1_nonneg {dd : (ℕ → ℚ) × (ℕ → ℚ)}
    (h : ∀ c, 0 ≤ dd.1 c ∧ 0 ≤ dd.2 c) (ii : ℕ) (d1 dv : ℚ) :
    ∀ c, 0 ≤ (accumMax1 dd ii d1 dv).1 c ∧ 0 ≤ (accumMax1 dd ii d1 dv).2 c := by
  intro c
  exact ⟨bumpMax_nonneg (fun c => (h c).1) _ _ c,
    bumpMax_nonneg (fun c => (h c).2) _ _ c⟩

theorem cellDenumsStep_nonneg (m : Mesh) (q : MeshQuantities) (var : ℕ → ℚ)
    (grad : ℕ → V3) (f : ℕ) {dd : (ℕ → ℚ) × (ℕ → ℚ)}
    (h : ∀ c, 0 ≤ dd.1 c ∧ 0 ≤ dd.2 c) :
    ∀ c, 0 ≤ (cellDenumsStep m q var grad f dd).1 c ∧
      0 ≤ (cellDenumsStep m q var grad f dd).2 c := by
  unfold cellDenumsStep
  exact accumMax2_nonneg h _ _ _ _ _

theorem cellDenumsExt_nonneg (m : Mesh) (q : MeshQuantities) (var : ℕ → ℚ)
    (grad : ℕ → V3) (ii : ℕ) {dd : (ℕ → ℚ) × (ℕ → ℚ)}
    (h : ∀ c, 0 ≤ dd.1 c ∧ 0 ≤ dd.2 c) :
    ∀ c, 0 ≤ (cellDenumsExt m q var grad ii dd).1 c ∧
      0 ≤ (cellDenumsExt m q var grad ii dd).2 c := by
  unfold cellDenumsExt loopRange
  refine loop_inv (fun dd => ∀ c, 0 ≤ dd.1 c ∧ 0 ≤ dd.2 c) _ _ dd h ?_
  intro k _ u hu
  exact accumMax1_nonneg hu _ _ _

theorem faceDenumsStep_nonneg (m : Mesh) (q : MeshQuantities) (var : ℕ → ℚ)
    (grad : ℕ → V3) (f : ℕ) {dd : (ℕ → ℚ) × (ℕ → ℚ)}
    (h : ∀ c, 0 ≤ dd.1 c ∧ 0 ≤ dd.2 c) :
    ∀ c, 0 ≤ (faceDenumsStep m q var grad f dd).1 c ∧
      0 ≤ (faceDenumsStep m q var grad f dd).2 c := by
  unfold faceDenumsStep
  exact accumMax2_nonneg h _ _ _ _ _

theorem faceDenumsExt_nonneg (m : Mesh) (q : MeshQuantities) (var : ℕ → ℚ)
    (grad : ℕ → V3) (ii : ℕ) {dd : (ℕ → ℚ) × (ℕ → ℚ)}
    (h : ∀ c, 0 ≤ dd.1 c ∧ 0 ≤ dd.2 c) :
    ∀ c, 0 ≤ (faceDenumsExt m q var grad ii dd).1 c ∧
      0 ≤ (faceDenumsExt m q var grad ii dd).2 c := by
  unfold faceDenumsExt loopRange
  refine loop_inv (fun dd => ∀ c, 0 ≤ dd.1 c ∧ 0 ≤ dd.2 c) _ _ dd h ?_
  intro k _ u hu
  exact accumMax1_nonneg hu _ _ _

theorem clipDenumsCell_nonneg (m : Mesh) (q : MeshQuantities) (ht : HaloType)
    (var : ℕ → ℚ) (grad : ℕ → V3) :
    ∀ c, 0 ≤ (clipDenumsCell m q ht var grad).1 c ∧
      0 ≤ (clipDenumsCell m q ht var grad).2 c := by
  unfold clipDenumsCell
  simp only
  set P : (ℕ → ℚ) × (ℕ → ℚ) → Prop :=
    fun dd => ∀ c, 0 ≤ dd.1 c ∧ 0 ≤ dd.2 c with hP
  have h0 : P (fun _ => (0 : ℚ), fun _ => (0 : ℚ)) :=
    fun c => ⟨le_refl 0, le_refl 0⟩
  have hface := loop_inv P m.n_i_faces (cellDenumsStep m q var grad) _ h0
    (fun i _ t ht0 => cellDenumsStep_nonneg m q var grad i ht0)
  split
  · exact loop_inv P m.n_cells (cellDenumsExt m q var grad) _ hface
      (fun i _ t ht0 => cellDenumsExt_nonneg m q var grad i ht0)
  · exact hface

theorem clipDenumsFace_nonneg (m : Mesh) (q : MeshQuantities) (ht : HaloType)
    (var : ℕ → ℚ) (grad : ℕ → V3) :
    ∀ c, 0 ≤ (clipDenumsFace m q ht var grad).1 c ∧
      0 ≤ (clipDenumsFace m q ht var grad).2 c := by
  unfold clipDenumsFace
  simp only
  set P : (ℕ → ℚ) × (ℕ → ℚ) → Prop :=
    fun dd => ∀ c, 0 ≤ dd.1 c ∧ 0 ≤ dd.2 c with hP
  have h0 : P (fun _ => (0 : ℚ), fun _ => (0 : ℚ)) :=
    fun c => ⟨le_refl 0, le_refl 0⟩
  have hface := loop_inv P m.n_i_faces (faceDenumsStep m q var grad) _ h0
    (fun i _ t ht0 => faceDenumsStep_nonneg m q var grad i ht0)
  split
  · exact loop_inv P m.n_cells (faceDenumsExt m q var grad) _ hface
      (fun i _ t ht0 => faceDenumsExt_nonneg m q var grad i ht0)
  · exact hface

theorem clipFactor_nonneg {climgp de dn : ℚ} (hclim : 0 ≤ climgp)
    (hde : 0 ≤ de) (hdn : 0 ≤ dn) : 0 ≤ clipFactor climgp de dn := by
  unfold clipFactor
  split
  · exact div_nonneg (mul_nonneg hclim hdn) hde
  · norm_num

theorem clipFactor_le_one {climgp de dn : ℚ} (hclim : 0 ≤ climgp)
    (hdn : 0 ≤ dn) : clipFactor climgp de dn ≤ 1 := by
  unfold clipFactor
  split
  · rename_i h
    have hde : 0 < de := lt_of_le_of_lt (mul_nonneg hclim hdn) h
    exact le_of_lt ((div_lt_one hde).mpr h)
  · exact le_refl 1

theorem faceFactorStep_le (m : Mesh) (climgp : ℚ) (dd : (ℕ → ℚ) × (ℕ → ℚ))
    (f : ℕ) (cf : ℕ → ℚ) (c : ℕ) : faceFactorStep m climgp dd f cf c ≤ cf c := by
  unfold faceFactorStep
  exact le_trans (dropMin_le _ _ _ c) (dropMin_le _ _ _ c)

theorem faceFactorStep_cap (m : Mesh) (climgp : ℚ) (dd : (ℕ → ℚ) × (ℕ → ℚ))
    (f : ℕ) (cf : ℕ → ℚ) (c : ℕ)
    (hf : (m.i_face_cells f).1 = c ∨ (m.i_face_cells f).2 = c)
    (hl : min (clipFactor climgp (dd.1 (m.i_face_cells f).1)
        (dd.2 (m.i_face_cells f).1))
      (clipFactor climgp (dd.1 (m.i_face_cells f).2)
        (dd.2 (m.i_face_cells f).2)) ≤ 1) :
    faceFactorStep m climgp dd f cf c ≤ 1 := by
  by_cases hcj : c = (m.i_face_cells f).2
  · unfold faceFactorStep
    exact le_trans (dropMin_at hcj _) hl
  · rcases hf with hfi | hfj
    · have hout : faceFactorStep m climgp dd f cf c =
          dropMin cf (m.i_face_cells f).1
            (min (clipFactor climgp (dd.1 (m.i_face_cells f).1)
              (dd.2 (m.i_face_cells f).1))
            (clipFactor climgp (dd.1 (m.i_face_cells f).2)
              (dd.2 (m.i_face_cells f).2))) c := by
        unfold faceFactorStep
        unfold dropMin
        exact upd_ne _ _ _ _ hcj
      rw [hout]
      exact le_trans (dropMin_at hfi.symm _) hl
    · exact absurd hfj.symm hcj

theorem loopRange_min_le_one (a b : ℕ) (g : ℕ → ℚ) :
    loopRange a b (fun k fac => min fac (g k)) 1 ≤ 1 := by
  unfold loopRange
  refine loop_inv (fun x => x ≤ 1) _ _ 1 (le_refl 1) ?_
  intro k _ x hx
  exact le_trans (min_le_left _ _) hx

theorem faceExtStep_le (m : Mesh) (climgp : ℚ) (dd : (ℕ → ℚ) × (ℕ → ℚ))
    (ii : ℕ) (cf : ℕ → ℚ) (c : ℕ) : faceExtStep m climgp dd ii cf c ≤ cf c := by
  unfold faceExtStep
  exact dropMin_le _ _ _ c

theorem faceExtStep_cap (m : Mesh) (climgp : ℚ) (dd : (ℕ → ℚ) × (ℕ → ℚ))
    (ii : ℕ) (cf : ℕ → ℚ) (c : ℕ) (h : c = ii) :
    faceExtStep m climgp dd ii cf c ≤ 1 := by
  unfold faceExtStep
  refine le_trans (dropMin_at h _) ?_
  exact loopRange_min_le_one _ _ _

theorem faceClipFactors_nonneg (m : Mesh) (q : MeshQuantities) (ht : HaloType)
    (climgp : ℚ) (var : ℕ → ℚ) (grad : ℕ → V3) (hclim : 0 ≤ climgp) :
    ∀ c, 0 ≤ faceClipFactors m q ht climgp var grad c := by
  have hdd := clipDenumsFace_nonneg m q ht var grad
  unfold faceClipFactors
  set dd := clipDenumsFace m q ht var grad with hdddef
  set P : (ℕ → ℚ) → Prop := fun cf => ∀ c, 0 ≤ cf c with hP
  have h0 : P (fun _ => DBL_MAX) := by
    intro c
    unfold DBL_MAX
    positivity
  have hfac : ∀ c, 0 ≤ clipFactor climgp (dd.1 c) (dd.2 c) := fun c =>
    clipFactor_nonneg hclim (hdd c).1 (hdd c).2
  have hcf1 : P (loop m.n_i_faces (faceFactorStep m climgp dd)
      (fun _ => DBL_MAX)) := by
    refine loop_inv P m.n_i_faces _ _ h0 ?_
    intro f _ cf hcf
    unfold faceFactorStep
    have hl : 0 ≤ min (clipFactor climgp (dd.1 (m.i_face_cells f).1)
        (dd.2 (m.i_face_cells f).1)) (clipFactor climgp
        (dd.1 (m.i_face_cells f).2) (dd.2 (m.i_face_cells f).2)) :=
      le_min (hfac _) (hfac _)
    exact dropMin_nonneg (dropMin_nonneg hcf hl) hl
  split
  · refine loop_inv P m.n_cells _ _ hcf1 ?_
    intro i _ cf hcf
    unfold faceExtStep
    refine dropMin_nonneg hcf ?_
    unfold loopRange
    refine loop_inv (fun x => 0 ≤ x) _ _ 1 (by norm_num) ?_
    intro k _ x hx
    exact le_min hx (hfac _)
  · exact hcf1

theorem faceClipFactors_le_one (m : Mesh) (q : MeshQuantities) (ht : HaloType)
    (climgp : ℚ) (var : ℕ → ℚ) (grad : ℕ → V3) (hclim : 0 ≤ climgp) (c : ℕ)
    (hcov : incidentFace m c ∨
      (m.has_cell_cells = true ∧ ht = HaloType.extended ∧ c < m.n_cells)) :
    faceClipFactors m q ht climgp var grad c ≤ 1 := by
  have hdd := clipDenumsFace_nonneg m q ht var grad
  unfold faceClipFactors
  set dd := clipDenumsFace m q ht var grad with hdddef
  have hfac : ∀ c, clipFactor climgp (dd.1 c) (dd.2 c) ≤ 1 := fun c =>
    clipFactor_le_one hclim (hdd c).2
  have hcf1 : incidentFace m c →
      loop m.n_i_faces (faceFactorStep m climgp dd) (fun _ => DBL_MAX) c ≤ 1 := by
    intro hinc
    rcases hinc with ⟨f, hff, hfc⟩
    set P : ℕ → (ℕ → ℚ) → Prop := fun i cf => f < i → cf c ≤ 1 with hPdef
    have hloop := loop_inv_idx P m.n_i_faces (faceFactorStep m climgp dd)
      (fun _ => DBL_MAX) (fun h => absurd h (Nat.not_lt_zero f)) ?_
    · exact hloop hff
    · intro i _ cf hcf hfi
      rcases Nat.lt_succ_iff_lt_or_eq.mp hfi with hlt | heq
      · exact le_trans (faceFactorStep_le m climgp dd i cf c) (hcf hlt)
      · subst heq
        exact faceFactorStep_cap m climgp dd f cf c hfc
          (le_trans (min_le_left _ _) (hfac _))
  rcases hcov with hinc | ⟨hcc, hht, hc⟩
  · split
    · refine loop_inv (fun cf : ℕ → ℚ => cf c ≤ 1) m.n_cells
        (faceExtStep m climgp dd) _ (hcf1 hinc) ?_
      intro i _ cf hcf
      exact le_trans (faceExtStep_le m climgp dd i cf c) hcf
    · exact hcf1 hinc
  · rw [if_pos ⟨hcc, hht⟩]
    set P : ℕ → (ℕ → ℚ) → Prop := fun i cf => c < i → cf c ≤ 1 with hPdef
    have hloop := loop_inv_idx P m.n_cells (faceExtStep m climgp dd)
      (loop m.n_i_faces (faceFactorStep m climgp dd) (fun _ => DBL_MAX))
      (fun h => absurd h (Nat.not_lt_zero c)) ?_
    · exact hloop hc
    · intro i _ cf hcf hci
      rcases Nat.lt_succ_iff_lt_or_eq.mp hci with hlt | heq
      · exact le_trans (faceExtStep_le m climgp dd i cf c) (hcf hlt)
      · exact faceExtStep_cap m climgp dd i cf c heq

theorem normSq_smul_le {t : ℚ} (a : V3) (h0 : 0 ≤ t) (h1 : t ≤ 1) :
    V3.normSq (t • a) ≤ V3.normSq a := by
  rw [V3.normSq_smul]
  have ht2 : t ^ 2 ≤ 1 := pow_le_one₀ h0 h1
  calc t ^ 2 * V3.normSq a ≤ 1 * V3.normSq a :=
        mul_le_mul_of_nonneg_right ht2 (V3.normSq_nonneg a)
    _ = V3.normSq a := one_mul _

/-- The gradient produced by the cell-based clipping branch, cell by cell. -/
theorem scalar_clipping_cell_grad (m : Mesh) (q : MeshQuantities)
    (ht : HaloType) (climgp : ℚ) (var : ℕ → ℚ) (grad : ℕ → V3) (c : ℕ) :
    (scalar_gradient_clipping m q ht CS_GRADIENT_LIMIT_CELL climgp var
      grad).grad c =
    (if c < m.n_cells ∧ (clipDenumsCell m q ht var grad).1 c >
        climgp * (clipDenumsCell m q ht var grad).2 c then
      (climgp * (clipDenumsCell m q ht var grad).2 c /
        (clipDenumsCell m q ht var grad).1 c) • grad c
    else grad c) := by
  unfold scalar_gradient_clipping
  rw [if_neg (by norm_num [CS_GRADIENT_LIMIT_NONE, CS_GRADIENT_LIMIT_CELL]),
    if_pos rfl]
  set dd := clipDenumsCell m q ht var grad with hdddef
  set P : ℕ → ClipResult → Prop := fun i st =>
    ∀ c, st.grad c = (if c < i ∧ dd.1 c > climgp * dd.2 c then
      (climgp * dd.2 c / dd.1 c) • grad c else grad c) with hPdef
  have hloop := loop_inv_idx P m.n_cells (cellClipApplyStep climgp dd)
    (⟨grad, 0, 1, 0⟩ : ClipResult) ?_ ?_
  · exact hloop c
  · intro c
    rw [if_neg]
    intro ⟨h, _⟩
    exact Nat.not_lt_zero c h
  · intro i _ st hst c
    unfold cellClipApplyStep
    by_cases hci : c = i
    · subst hci
      have hold : st.grad c = grad c := by
        rw [hst c, if_neg]
        intro ⟨h, _⟩
        exact lt_irrefl c h
      split
      · rename_i hcond
        simp only [upd_same, hold]
        rw [if_pos ⟨Nat.lt_succ_self c, hcond⟩]
      · rename_i hcond
        rw [hold, if_neg]
        intro ⟨_, h2⟩
        exact hcond h2
    · have hsame : (c < i + 1 ∧ dd.1 c > climgp * dd.2 c) ↔
          (c < i ∧ dd.1 c > climgp * dd.2 c) := by
        constructor
        · intro ⟨h1, h2⟩
          rcases Nat.lt_succ_iff_lt_or_eq.mp h1 with h | h
          · exact ⟨h, h2⟩
          · exact absurd h hci
        · intro ⟨h1, h2⟩
          exact ⟨Nat.lt_succ_of_lt h1, h2⟩
      split
      · simp only [upd_ne _ _ _ _ hci, hst c]
        rw [if_congr hsame rfl rfl]
      · rw [hst c, if_congr hsame rfl rfl]

/-- The gradient produced by the face-based clipping branch, cell by cell. -/
theorem scalar_clipping_face_grad (m : Mesh) (q : MeshQuantities)
    (ht : HaloType) (climgp : ℚ) (var : ℕ → ℚ) (grad : ℕ → V3) (c : ℕ) :
    (scalar_gradient_clipping m q ht CS_GRADIENT_LIMIT_FACE climgp var
      grad).grad c =
    (if c < m.n_cells then faceClipFactors m q ht climgp var grad c • grad c
     else grad c) := by
  unfold scalar_gradient_clipping
  rw [if_neg (by norm_num [CS_GRADIENT_LIMIT_NONE, CS_GRADIENT_LIMIT_FACE]),
    if_neg (by norm_num [CS_GRADIENT_LIMIT_CELL, CS_GRADIENT_LIMIT_FACE]),
    if_pos rfl]
  set cf2 := faceClipFactors m q ht climgp var grad with hcfdef
  set P : ℕ → ClipResult → Prop := fun i st =>
    ∀ c, st.grad c = (if c < i then cf2 c • grad c else grad c) with hPdef
  have hloop := loop_inv_idx P m.n_cells (faceClipApplyStep cf2)
    (⟨grad, 0, 1, 0⟩ : ClipResult) ?_ ?_
  · exact hloop c
  · intro c
    rw [if_neg (Nat.not_lt_zero c)]
  · intro i _ st hst c
    unfold faceClipApplyStep
    have hbody : ∀ (st' : ClipResult),
        st'.grad = upd st.grad i (cf2 i • st.grad i) →
        st'.grad c = (if c < i + 1 then cf2 c • grad c else grad c) := by
      intro st' hg
      by_cases hci : c = i
      · subst hci
        rw [hg, upd_same, hst c, if_neg (lt_irrefl c),
          if_pos (Nat.lt_succ_self c)]
      · rw [hg, upd_ne _ _ _ _ hci, hst c]
        have hsame : (c < i + 1) ↔ (c < i) := by
          constructor
          · intro h1
            rcases Nat.lt_succ_iff_lt_or_eq.mp h1 with h | h
            · exact h
            · exact absurd h hci
          · exact Nat.lt_succ_of_lt
        rw [if_congr hsame rfl rfl]
    split
    · exact hbody _ rfl
    · exact hbody _ rfl

/-- Counterexample to C1 as stated.  On `cexMesh` with a constant field
(zero field variation) and clip coefficient 1: in cell-based mode, cell 0 has
positive projected gradient variation but zero field variation, so its
gradient is rescaled by the factor 0, which does not lie in (0, 1]; in
face-based (standard-neighborhood) mode, cell 2 is incident to no interior
face, keeps the `DBL_MAX` sentinel factor, and its post-clip magnitude
strictly exceeds its pre-clip magnitude. -/
theorem scalar_clipping_claim_false :
    ((scalar_gradient_clipping cexMesh cexQuant HaloType.standard
        CS_GRADIENT_LIMIT_CELL 1 cexVar cexGrad).grad 0 = (0 : ℚ) • cexGrad 0
      ∧ (∀ t : ℚ,
          (scalar_gradient_clipping cexMesh cexQuant HaloType.standard
            CS_GRADIENT_LIMIT_CELL 1 cexVar cexGrad).grad 0 = t • cexGrad 0 →
          ¬(0 < t ∧ t ≤ 1)))
    ∧ V3.normSq ((scalar_gradient_clipping cexMesh cexQuant HaloType.standard
        CS_GRADIENT_LIMIT_FACE 1 cexVar cexGrad).grad 2) >
      V3.normSq (cexGrad 2) := by
  refine ⟨⟨?_, ?_⟩, ?_⟩
  · norm_num [scalar_gradient_clipping, clipDenumsCell, cellDenumsStep,
      cellClipApplyStep, accumMax2, bumpMax, CS_GRADIENT_LIMIT_NONE,
      CS_GRADIENT_LIMIT_CELL, CS_GRADIENT_LIMIT_FACE, cexMesh, cexQuant,
      cexVar, cexGrad, loop, loopRange, upd, V3.dot, V3.smul_def, V3.sub_def,
      V3.add_def]
  · intro t hgrad
    have h0 : (scalar_gradient_clipping cexMesh cexQuant HaloType.standard
        CS_GRADIENT_LIMIT_CELL 1 cexVar cexGrad).grad 0 = ⟨0, 0, 0⟩ := by
      norm_num [scalar_gradient_clipping, clipDenumsCell, cellDenumsStep,
        cellClipApplyStep, accumMax2, bumpMax, CS_GRADIENT_LIMIT_NONE,
        CS_GRADIENT_LIMIT_CELL, CS_GRADIENT_LIMIT_FACE, cexMesh, cexQuant,
        cexVar, cexGrad, loop, loopRange, upd, V3.dot, V3.smul_def, V3.sub_def,
        V3.add_def]
    rw [h0] at hgrad
    have ht : t = 0 := by
      have := congrArg V3.x hgrad
      simp [cexGrad, V3.smul_def] at this
      linarith [this]
    intro ⟨hpos, _⟩
    rw [ht] at hpos
    exact lt_irrefl 0 hpos
  · norm_num [scalar_gradient_clipping, clipDenumsFace, faceDenumsStep,
      faceClipFactors, faceFactorStep, faceExtStep, faceClipApplyStep,
      accumMax2, bumpMax, dropMin, clipFactor, CS_GRADIENT_LIMIT_NONE,
      CS_GRADIENT_LIMIT_CELL, CS_GRADIENT_LIMIT_FACE, DBL_MAX, cexMesh,
      cexQuant, cexVar, cexGrad, loop, loopRange, upd, V3.dot, V3.normSq,
      V3.smul_def, V3.sub_def, V3.add_def]

/-- C1 (amended).  For every scalar field, every positive clip coefficient
and every clip mode, after `_scalar_gradient_clipping` runs each owned cell's
gradient has been rescaled by a factor that lies in [0, 1] — the factor 0
occurs when the cell's maximum field variation is zero while its projected
gradient variation is positive — and hence its Euclidean magnitude does not
increase; in the face-based mode this holds for cells incident to at least
one interior face (cells incident to none keep the `DBL_MAX` sentinel
factor), and for every owned cell when the extended-neighborhood complement
runs. -/
theorem scalar_clipping_monotone (m : Mesh) (q : MeshQuantities)
    (ht : HaloType) (clip_mode : ℤ) (climgp : ℚ) (var : ℕ → ℚ)
    (grad : ℕ → V3) (hclim : 0 < climgp) (c : ℕ) (hc : c < m.n_cells)
    (hcov : clip_mode = CS_GRADIENT_LIMIT_FACE → incidentFace m c ∨
      (m.has_cell_cells = true ∧ ht = HaloType.extended)) :
    ∃ t : ℚ, 0 ≤ t ∧ t ≤ 1 ∧
      (scalar_gradient_clipping m q ht clip_mode climgp var grad).grad c =
        t • grad c ∧
      V3.normSq ((scalar_gradient_clipping m q ht clip_mode climgp var
        grad).grad c) ≤ V3.normSq (grad c) := by
  have hone : ∀ g : ℕ → V3, g c = grad c → ∃ t : ℚ, 0 ≤ t ∧ t ≤ 1 ∧
      g c = t • grad c ∧ V3.normSq (g c) ≤ V3.normSq (grad c) := by
    intro g hg
    exact ⟨1, by norm_num, by norm_num,
      by rw [hg, V3.one_smul_eq], by rw [hg]⟩
  by_cases h0 : clip_mode ≤ CS_GRADIENT_LIMIT_NONE
  · refine hone _ ?_
    unfold scalar_gradient_clipping
    rw [if_pos h0]
  by_cases h1 : clip_mode = CS_GRADIENT_LIMIT_CELL
  · subst h1
    rw [scalar_clipping_cell_grad]
    split
    · rename_i hcond
      set dd := clipDenumsCell m q ht var grad
      have hdd := clipDenumsCell_nonneg m q ht var grad c
      have hde : 0 < dd.1 c :=
        lt_of_le_of_lt (mul_nonneg hclim.le (hdd).2) hcond.2
      refine ⟨climgp * dd.2 c / dd.1 c, ?_, ?_, rfl, ?_⟩
      · exact div_nonneg (mul_nonneg hclim.le (hdd).2) hde.le
      · exact le_of_lt ((div_lt_one hde).mpr hcond.2)
      · refine normSq_smul_le _ ?_ ?_
        · exact div_nonneg (mul_nonneg hclim.le (hdd).2) hde.le
        · exact le_of_lt ((div_lt_one hde).mpr hcond.2)
    · exact
        (hone _ rfl).imp fun t h => h
  by_cases h2 : clip_mode = CS_GRADIENT_LIMIT_FACE
  · subst h2
    rw [scalar_clipping_face_grad]
    rw [if_pos hc]
    have hcov2 : incidentFace m c ∨
        (m.has_cell_cells = true ∧ ht = HaloType.extended ∧ c < m.n_cells) := by
      rcases hcov rfl with h | ⟨ha, hb⟩
      · exact Or.inl h
      · exact Or.inr ⟨ha, hb, hc⟩
    have hnn := faceClipFactors_nonneg m q ht climgp var grad hclim.le c
    have hle := faceClipFactors_le_one m q ht climgp var grad hclim.le c hcov2
    exact ⟨faceClipFactors m q ht climgp var grad c, hnn, hle, rfl,
      normSq_smul_le _ hnn hle⟩
  · refine hone _ ?_
    unfold scalar_gradient_clipping
    rw [if_neg h0, if_neg h1, if_neg h2]

/-- Witness for C1 (amended) at a concrete input: `cexMesh`, cell-based mode. -/
theorem scalar_clipping_monotone_witness :
    (0 : ℚ) < 1 ∧ 0 < cexMesh.n_cells ∧
    (∃ t : ℚ, 0 ≤ t ∧ t ≤ 1 ∧
      (scalar_gradient_clipping cexMesh cexQuant HaloType.standard
        CS_GRADIENT_LIMIT_CELL 1 cexVar cexGrad).grad 0 = t • cexGrad 0 ∧
      V3.normSq ((scalar_gradient_clipping cexMesh cexQuant HaloType.standard
        CS_GRADIENT_LIMIT_CELL 1 cexVar cexGrad).grad 0) ≤
        V3.normSq (cexGrad 0)) :=
  ⟨by norm_num, by norm_num [cexMesh],
   scalar_clipping_monotone cexMesh cexQuant HaloType.standard
     CS_GRADIENT_LIMIT_CELL 1 cexVar cexGrad (by norm_num) 0
     (by norm_num [cexMesh])
     (by intro h; exact absurd h (by decide))⟩

/-- Counterexample to C10 as stated.  Clip mode `0` is non-positive, yet the
clipping stage is not a no-op for it: `0` is `CS_GRADIENT_LIMIT_CELL`, the
cell-based limiter, which on the concrete 3-cell mesh with a constant field
and a nonzero gradient rescales cell 0's gradient to zero and counts one
clipped cell.  Only negative modes (`clip_mode <= CS_GRADIENT_LIMIT_NONE =
-1`) return immediately. -/
theorem scalar_clipping_mode_zero_not_noop :
    (0 : ℤ) ≤ 0
    ∧ (scalar_gradient_clipping cexMesh cexQuant HaloType.standard 0 1
        cexVar cexGrad).grad 0 = ⟨0, 0, 0⟩
    ∧ cexGrad 0 = ⟨1, 0, 0⟩
    ∧ (scalar_gradient_clipping cexMesh cexQuant HaloType.standard 0 1
        cexVar cexGrad).n_clip = 1 := by
  refine ⟨le_refl 0, ?_, rfl, ?_⟩ <;>
    norm_num [scalar_gradient_clipping, clipDenumsCell, loop,
      cellDenumsStep, cellClipApplyStep, accumMax2, bumpMax,
      CS_GRADIENT_LIMIT_NONE, CS_GRADIENT_LIMIT_CELL,
      CS_GRADIENT_LIMIT_FACE, cexMesh, cexQuant, cexVar, cexGrad, upd,
      V3.dot, V3.sub_def, V3.smul_def, V3.zero_def, V3.mk.injEq]

/-- C10 (amended).  For every negative (disabled) clip mode the clipping
stage is a no-op: `_scalar_gradient_clipping` returns immediately, leaving
the gradient array identical and the clip statistics at their initial
values (no cell counted, `min_factor = 1`, `max_factor = 0`); no halo
exchange is reached.  A clip mode of `0` is not disabled: it selects the
cell-based limiter. -/
theorem scalar_clipping_disabled_noop (m : Mesh) (q : MeshQuantities)
    (ht : HaloType) (clip_mode : ℤ) (climgp : ℚ) (var : ℕ → ℚ)
    (grad : ℕ → V3) (h : clip_mode < 0) :
    scalar_gradient_clipping m q ht clip_mode climgp var grad =
      ⟨grad, 0, 1, 0⟩ := by
  unfold scalar_gradient_clipping
  rw [if_pos]
  show clip_mode ≤ CS_GRADIENT_LIMIT_NONE
  unfold CS_GRADIENT_LIMIT_NONE
  omega

/-- Witness for C10 at a concrete disabled mode. -/
theorem scalar_clipping_disabled_noop_witness :
    (-1 : ℤ) < 0 ∧
    scalar_gradient_clipping cexMesh cexQuant HaloType.standard (-1) 1
      cexVar cexGrad = ⟨cexGrad, 0, 1, 0⟩ :=
  ⟨by norm_num,
   scalar_clipping_disabled_noop cexMesh cexQuant HaloType.standard (-1) 1
     cexVar cexGrad (by norm_num)⟩

/-! Theorems for claim C4: the boundary-COCG skip heuristic. -/

theorem runCalls_last_fvm (st : GradState) (cs : List ScalarCall) :
    (runCalls st cs).last_fvm_count =
      cs.foldl (fun acc c => if c.entry_synced then c.fvm_count else acc)
        st.last_fvm_count := by
  induction cs generalizing st with
  | nil => rfl
  | cons c cs ih =>
    show (runCalls (scalarCallStep st c).2 cs).last_fvm_count = _
    rw [ih, List.foldl_cons]
    congr 1
    unfold scalarCallStep gradient_scalar_bookkeeping
    by_cases h : c.entry_synced = true <;> simp [h]

theorem runCalls_prev_name (st : GradState) (cs : List ScalarCall) :
    (runCalls st cs).var_name_prev =
      cs.foldl (fun _ c => c.var_name.take 95) st.var_name_prev := by
  induction cs generalizing st with
  | nil => rfl
  | cons c cs ih =>
    show (runCalls (scalarCallStep st c).2 cs).var_name_prev = _
    rw [ih, List.foldl_cons]
    rfl

/-- Counterexample to C4 as stated.  Two calls: the first enters through
`cs_gradient_scalar` (name `"x"`, compute count 1); the second enters
through `cs_gradient_scalar_synced_input` with the same name, `inc = 0`,
and the compute count unchanged since the immediately preceding call (both
are 1) — the claim's skip conditions all hold — yet the code recomputes,
because `last_fvm_count` (refreshed only by synced-input calls) still holds
its initial value 0, different from the current count 1. -/
theorem lsq_cocg_skip_claim_false :
    (scalarCallStep (runCalls initGradState [⟨false, ['x'], 1, 1⟩])
        ⟨true, ['x'], 0, 1⟩).1 = true
    ∧ (⟨true, ['x'], 0, 1⟩ : ScalarCall).entry_synced = true
    ∧ prevName95 [⟨false, ['x'], 1, 1⟩] =
        (⟨true, ['x'], 0, 1⟩ : ScalarCall).var_name.take 95
    ∧ (⟨true, ['x'], 0, 1⟩ : ScalarCall).inc = 0
    ∧ (⟨true, ['x'], 0, 1⟩ : ScalarCall).fvm_count =
        (⟨false, ['x'], 1, 1⟩ : ScalarCall).fvm_count := by
  refine ⟨?_, rfl, rfl, rfl, rfl⟩
  rfl

/-- C4 (amended).  A scalar least-squares gradient call skips the
boundary-covariance recomputation if and only if it enters through
`cs_gradient_scalar_synced_input`, the variable name equals (in its first 95
characters) the name recorded by the immediately preceding scalar gradient
call, `inc` equals 0, and the global mesh-quantities compute count equals
the count recorded by the most recent preceding call that itself entered
through `cs_gradient_scalar_synced_input` (its initial value 0 when there is
none) — not the count at the immediately preceding call.  In particular
every call through `cs_gradient_scalar` takes the full recomputation path. -/
theorem lsq_cocg_skip_heuristic (pre : List ScalarCall) (c : ScalarCall) :
    (scalarCallStep (runCalls initGradState pre) c).1 = false ↔
      (c.entry_synced = true ∧ prevName95 pre = c.var_name.take 95 ∧
        c.inc = 0 ∧ c.fvm_count = lastSyncedCount pre) := by
  have hn : (runCalls initGradState pre).var_name_prev = prevName95 pre :=
    runCalls_prev_name initGradState pre
  have hc : (runCalls initGradState pre).last_fvm_count =
      lastSyncedCount pre := runCalls_last_fvm initGradState pre
  unfold scalarCallStep gradient_scalar_bookkeeping
  rw [hn, hc]
  cases hcb : c.entry_synced
  · simp
  · simp only [if_pos]
    by_cases h1 : prevName95 pre = c.var_name.take 95 ∧ c.inc = 0
    · by_cases h2 : c.fvm_count = lastSyncedCount pre
      · simp [h1.1, h1.2, h2]
      · simp [h1.1, h1.2, h2]
    · rw [not_and_or] at h1
      rcases h1 with h1 | h1
      · simp [h1]
      · simp [h1]

/-! Theorems for claim C9: the boundary-only COCG recompute. -/

theorem loop_upd_filter {α : Type} (n : ℕ) (tgt : ℕ → ℕ) (g : ℕ → α → α)
    (x0 : ℕ → α) (c : ℕ) :
    loop n (fun f x => upd x (tgt f) (g f (x (tgt f)))) x0 c
      = loop n (fun f a => if tgt f = c then g f a else a) (x0 c) := by
  induction n with
  | zero => rfl
  | succ k ih =>
    show upd (loop k (fun f x => upd x (tgt f) (g f (x (tgt f)))) x0) (tgt k)
        (g k (loop k (fun f x => upd x (tgt f) (g f (x (tgt f)))) x0 (tgt k)))
        c
      = if tgt k = c then
          g k (loop k (fun f a => if tgt f = c then g f a else a) (x0 c))
        else loop k (fun f a => if tgt f = c then g f a else a) (x0 c)
    by_cases h : tgt k = c
    · rw [if_pos h, ← ih, ← h]
      exact upd_same _ _ _
    · rw [if_neg h, ← ih]
      exact upd_ne _ _ _ _ (fun hc => h hc.symm)

theorem loop_filter_noop {α : Type} (n : ℕ) (cond : ℕ → Prop)
    [DecidablePred cond] (g : ℕ → α → α) (a0 : α)
    (h : ∀ i, i < n → ¬cond i) :
    loop n (fun i a => if cond i then g i a else a) a0 = a0 := by
  induction n with
  | zero => rfl
  | succ k ih =>
    show (if cond k then g k _ else _) = a0
    rw [if_neg (h k (Nat.lt_succ_self k)),
      ih (fun i hi => h i (Nat.lt_succ_of_lt hi))]

theorem loop_filter_single {α : Type} (n : ℕ) (cond : ℕ → Prop)
    [DecidablePred cond] (g : ℕ → α → α) (a0 : α) (i0 : ℕ) (hi0 : i0 < n)
    (h : ∀ i, i < n → (cond i ↔ i = i0)) :
    loop n (fun i a => if cond i then g i a else a) a0 = g i0 a0 := by
  have hmain := loop_inv_idx
    (fun k a => (k ≤ i0 → a = a0) ∧ (i0 < k → a = g i0 a0)) n
    (fun i a => if cond i then g i a else a) a0
    ⟨fun _ => rfl, fun h0 => absurd h0 (Nat.not_lt_zero i0)⟩ ?_
  · exact hmain.2 hi0
  · intro i hi a ⟨hle, hgt⟩
    by_cases hcl : i = i0
    · subst hcl
      refine ⟨fun hii => absurd hii (by omega), fun _ => ?_⟩
      show (if cond i then g i a else a) = g i a0
      rw [if_pos ((h i hi).mpr rfl), hle (le_refl i)]
    · refine ⟨fun hii => ?_, fun hii => ?_⟩
      · show (if cond i then g i a else a) = a0
        rw [if_neg (fun hcd => hcl ((h i hi).mp hcd)), hle (by omega)]
      · show (if cond i then g i a else a) = g i0 a0
        rw [if_neg (fun hcd => hcl ((h i hi).mp hcd)), hgt (by omega)]

/-- C9.  On a mesh whose boundary-cell list is injective and covers every
cell adjacent to a boundary face, `_recompute_lsq_scalar_cocg` modifies the
least-squares covariance array only at boundary cells: every cell not listed
in `b_cells` keeps its previous value unchanged, and the value at the `i`-th
boundary cell is rebuilt by restoring the saved interior-only partial
covariance `cocgb[i]`, re-accumulating the contributions of the boundary
faces adjacent to that cell, and inverting in place. -/
theorem recompute_lsq_cocg_frame (m : Mesh) (q : MeshQuantities)
    (coefbp : ℕ → ℚ) (cocgb cocg : ℕ → C6)
    (hbf : ∀ f, f < m.n_b_faces →
      ∃ i, i < m.n_b_cells ∧ m.b_cells i = m.b_face_cells f)
    (hinj : ∀ i j, i < m.n_b_cells → j < m.n_b_cells →
      m.b_cells i = m.b_cells j → i = j) :
    (∀ c, (∀ i, i < m.n_b_cells → m.b_cells i ≠ c) →
      recompute_lsq_scalar_cocg m q coefbp cocgb cocg c = cocg c)
    ∧ (∀ i, i < m.n_b_cells →
      recompute_lsq_scalar_cocg m q coefbp cocgb cocg (m.b_cells i) =
        math_6_inv_cramer_sym_in_place
          (bndAccum m q coefbp (m.b_cells i) (cocgb i))) := by
  have hshape : ∀ c : ℕ, recompute_lsq_scalar_cocg m q coefbp cocgb cocg c =
      loop m.n_b_cells
        (fun i a => if m.b_cells i = c then
          (fun (_ : ℕ) (a : C6) => math_6_inv_cramer_sym_in_place a) i a
          else a)
        (loop m.n_b_faces
          (fun f a => if m.b_face_cells f = c then recompContrib q coefbp f a
            else a)
          (loop m.n_b_cells
            (fun i a => if m.b_cells i = c then (fun i _ => cocgb i) i a
              else a) (cocg c))) := by
    intro c
    unfold recompute_lsq_scalar_cocg
    rw [loop_upd_filter m.n_b_cells (fun i => m.b_cells i)
      (fun _ a => math_6_inv_cramer_sym_in_place a) _ c]
    rw [show (recompBndFaceStep m q coefbp) = (fun f x => upd x
        (m.b_face_cells f) (recompContrib q coefbp f (x (m.b_face_cells f))))
      from rfl]
    rw [loop_upd_filter m.n_b_faces (fun f => m.b_face_cells f)
      (recompContrib q coefbp) _ c]
    rw [loop_upd_filter m.n_b_cells (fun i => m.b_cells i)
      (fun i _ => cocgb i) cocg c]
  constructor
  · intro c hc
    rw [hshape c]
    rw [loop_filter_noop m.n_b_cells (fun i => m.b_cells i = c) _ _
      (fun i hi => hc i hi)]
    rw [loop_filter_noop m.n_b_faces (fun f => m.b_face_cells f = c) _ _ ?_]
    · exact loop_filter_noop m.n_b_cells (fun i => m.b_cells i = c) _ _
        (fun i hi => hc i hi)
    · intro f hf hfc
      rcases hbf f hf with ⟨i, hi, hie⟩
      exact hc i hi (hie.trans hfc)
  · intro i hi
    rw [hshape (m.b_cells i)]
    have hsingle : ∀ j, j < m.n_b_cells →
        ((m.b_cells j = m.b_cells i) ↔ j = i) := by
      intro j hj
      constructor
      · intro he
        exact hinj j i hj hi he
      · intro he
        rw [he]
    rw [loop_filter_single m.n_b_cells (fun j => m.b_cells j = m.b_cells i)
      (fun j _ => cocgb j) _ i hi hsingle]
    rw [loop_filter_single m.n_b_cells (fun j => m.b_cells j = m.b_cells i)
      (fun _ a => math_6_inv_cramer_sym_in_place a) _ i hi hsingle]
    rfl

/-- Witness for C9 on a concrete one-boundary-cell mesh: cell 0 is the only
boundary cell with one adjacent boundary face; cell 1 is untouched. -/
theorem recompute_lsq_cocg_frame_witness :
    (∀ f, f < cexRMesh.n_b_faces →
      ∃ i, i < cexRMesh.n_b_cells ∧ cexRMesh.b_cells i =
        cexRMesh.b_face_cells f)
    ∧ (∀ i j, i < cexRMesh.n_b_cells → j < cexRMesh.n_b_cells →
      cexRMesh.b_cells i = cexRMesh.b_cells j → i = j)
    ∧ ((∀ c, (∀ i, i < cexRMesh.n_b_cells → cexRMesh.b_cells i ≠ c) →
      recompute_lsq_scalar_cocg cexRMesh cexQuant (fun _ => 0)
        (fun _ => ⟨1, 1, 1, 0, 0, 0⟩) (fun _ => ⟨2, 2, 2, 0, 0, 0⟩) c =
        (fun _ => (⟨2, 2, 2, 0, 0, 0⟩ : C6)) c)
    ∧ (∀ i, i < cexRMesh.n_b_cells →
      recompute_lsq_scalar_cocg cexRMesh cexQuant (fun _ => 0)
        (fun _ => ⟨1, 1, 1, 0, 0, 0⟩) (fun _ => ⟨2, 2, 2, 0, 0, 0⟩)
        (cexRMesh.b_cells i) =
        math_6_inv_cramer_sym_in_place
          (bndAccum cexRMesh cexQuant (fun _ => 0) (cexRMesh.b_cells i)
            ((fun _ => (⟨1, 1, 1, 0, 0, 0⟩ : C6)) i)))) := by
  refine ⟨?_, ?_, ?_⟩
  · intro f hf
    exact ⟨0, by norm_num [cexRMesh], by norm_num [cexRMesh]⟩
  · intro i j hi hj _
    have : i = 0 := by
      have := hi
      norm_num [cexRMesh] at this
      omega
    have : j = 0 := by
      have := hj
      norm_num [cexRMesh] at this
      omega
    omega
  · exact recompute_lsq_cocg_frame cexRMesh cexQuant (fun _ => 0)
      (fun _ => ⟨1, 1, 1, 0, 0, 0⟩) (fun _ => ⟨2, 2, 2, 0, 0, 0⟩)
      (fun f hf => ⟨0, by norm_num [cexRMesh], by norm_num [cexRMesh]⟩)
      (fun i j hi hj _ => by
        have h1 : i = 0 := by
          have := hi
          norm_num [cexRMesh] at this
          omega
        have h2 : j = 0 := by
          have := hj
          norm_num [cexRMesh] at this
          omega
        omega)


/-- Shifting the start of the iteration by one sweep. -/
theorem gradIterN_shift (step : (ℕ → V3) → (ℕ → V3) × ℚ) (g : ℕ → V3)
    (k : ℕ) : gradIterN step (step g).1 k = gradIterN step g (k + 1) := by
  unfold gradIterN
  rw [Function.iterate_succ_apply]

/-- Shifting the start of the iteration by one sweep, residual version. -/
theorem resIter_shift (step : (ℕ → V3) → (ℕ → V3) × ℚ) (g : ℕ → V3)
    (k : ℕ) (hk : 1 ≤ k) :
    resIter step (step g).1 k = resIter step g (k + 1) := by
  unfold resIter
  congr 1
  rw [show k + 1 - 1 = (k - 1) + 1 by omega, Function.iterate_succ_apply]

/-- Characterization of the sweep loop: either some sweep `j ≤ fuel`
is the first to pass the convergence test and the loop stops there, or no
sweep passes and all `fuel` sweeps run. -/
theorem iterLoop_spec (step : (ℕ → V3) → (ℕ → V3) × ℚ) (conv : ℚ → Bool)
    (fuel : ℕ) (n : ℤ) (g : ℕ → V3) (res : ℚ) :
    (∃ j, 1 ≤ j ∧ j ≤ fuel ∧ conv (resIter step g j) = true ∧
      (∀ i, 1 ≤ i → i < j → conv (resIter step g i) = false) ∧
      iterLoop step conv fuel n g res =
        (gradIterN step g j, n + (j : ℤ) - 1, j, resIter step g j))
    ∨ ((∀ i, 1 ≤ i → i ≤ fuel → conv (resIter step g i) = false) ∧
      iterLoop step conv fuel n g res =
        (gradIterN step g fuel, n + (fuel : ℤ), fuel,
          if fuel = 0 then res else resIter step g fuel)) := by
  induction fuel generalizing n g res with
  | zero =>
    right
    refine ⟨fun i h1 h2 => absurd (le_trans h1 h2) (by omega), ?_⟩
    simp [iterLoop, gradIterN]
  | succ fuel ih =>
    have hres1 : resIter step g 1 = (step g).2 := rfl
    have hgrad1 : gradIterN step g 1 = (step g).1 := by
      unfold gradIterN
      rw [Function.iterate_one]
    cases hcv : conv (step g).2
    · have hunf : iterLoop step conv (fuel + 1) n g res =
          (let out := iterLoop step conv fuel (n + 1) (step g).1 (step g).2
           (out.1, out.2.1, out.2.2.1 + 1, out.2.2.2)) := by
        show (if conv (step g).2 then _ else _) = _
        rw [hcv]
        simp
      rcases ih (n + 1) (step g).1 (step g).2 with
        ⟨j, hj1, hjf, hjc, hjp, hje⟩ | ⟨hall, hje⟩
      · left
        refine ⟨j + 1, by omega, by omega, ?_, ?_, ?_⟩
        · rw [← resIter_shift step g j hj1]
          exact hjc
        · intro i hi1 hij
          rcases Nat.lt_or_ge i 2 with h2 | h2
          · have : i = 1 := by omega
            rw [this, hres1]
            exact hcv
          · have hi' : i = (i - 1) + 1 := by omega
            rw [hi', ← resIter_shift step g (i - 1) (by omega)]
            exact hjp (i - 1) (by omega) (by omega)
        · rw [hunf, hje]
          simp only
          rw [gradIterN_shift, ← resIter_shift step g j hj1]
          refine congrArg₂ Prod.mk rfl
            (congrArg₂ Prod.mk (by push_cast; ring) rfl)
      · right
        constructor
        · intro i hi1 hif
          rcases Nat.lt_or_ge i 2 with h2 | h2
          · have : i = 1 := by omega
            rw [this, hres1]
            exact hcv
          · have hi' : i = (i - 1) + 1 := by omega
            rw [hi', ← resIter_shift step g (i - 1) (by omega)]
            exact hall (i - 1) (by omega) (by omega)
        · rw [hunf, hje]
          simp only
          rw [gradIterN_shift]
          have hresend : (if fuel = 0 then (step g).2
              else resIter step (step g).1 fuel)
              = resIter step g (fuel + 1) := by
            by_cases hf : fuel = 0
            · rw [if_pos hf, hf, ← hres1]
            · rw [if_neg hf, resIter_shift step g fuel (by omega)]
          rw [hresend]
          refine congrArg₂ Prod.mk rfl (congrArg₂ Prod.mk
            (by push_cast; ring)
            (congrArg₂ Prod.mk rfl (by rw [if_neg (Nat.succ_ne_zero fuel)])))
    · left
      refine ⟨1, le_refl 1, by omega, by rw [hres1]; exact hcv,
        fun i h1 h2 => absurd (lt_of_le_of_lt h1 h2) (lt_irrefl 1), ?_⟩
      have hunf : iterLoop step conv (fuel + 1) n g res =
          ((step g).1, n, 1, (step g).2) := by
        show (if conv (step g).2 then _ else _) = _
        rw [hcv]
        simp
      rw [hunf, hgrad1, hres1]
      refine congrArg₂ Prod.mk rfl
        (congrArg₂ Prod.mk (by push_cast; ring) rfl)

/-- C2: whenever the iterative scalar driver is called with an initial
gradient whose norm is not numerically zero, it executes at most
`max(nswrgp-1, 0)` reconstruction sweeps; it stops at the first sweep whose
residual passes the tolerance test `l2_residual < epsrgp*rnorm`, returning
that sweep's gradient and recording that sweep count with no warning; and
when the budget is exhausted without convergence it still returns the last
sweep's gradient, records `nswrgp` sweeps, and merely emits the warning
(exactly when `verbosity > -1`). -/
theorem iterative_scalar_termination (m : Mesh) (q : MeshQuantities)
    (nswrgp verbosity : ℤ) (inc epsrgp : ℚ) (coefap coefbp pvar : ℕ → ℚ)
    (c_weight : Option (ℕ → ℚ)) (grad : ℕ → V3)
    (hnorm : epzero ^ 2 < l2_norm_sq m.n_cells grad) :
    ∀ R step conv,
      step = scalarSweepStep m q inc coefap coefbp pvar c_weight →
      conv = sweepConverged epsrgp (l2_norm_sq m.n_cells grad) →
      R = iterative_scalar_gradient m q nswrgp verbosity inc epsrgp coefap
        coefbp pvar c_weight grad →
      R.n_exec ≤ (nswrgp - 1).toNat
      ∧ (∀ j, 1 ≤ j → j ≤ (nswrgp - 1).toNat →
          conv (resIter step grad j) = true →
          (∀ i, 1 ≤ i → i < j → conv (resIter step grad i) = false) →
          R.grad = gradIterN step grad j ∧ R.n_sweeps = (j : ℤ)
            ∧ R.n_exec = j ∧ R.warned = false)
      ∧ ((∀ i, 1 ≤ i → i ≤ (nswrgp - 1).toNat →
            conv (resIter step grad i) = false) →
          2 ≤ nswrgp →
          R.grad = gradIterN step grad (nswrgp - 1).toNat
            ∧ R.n_sweeps = nswrgp ∧ R.n_exec = (nswrgp - 1).toNat
            ∧ R.warned = decide (verbosity > -1)) := by
  intro R step conv hstep hconv hR
  subst hstep hconv hR
  by_cases h1 : nswrgp < 1
  · have hf0 : (nswrgp - 1).toNat = 0 := by omega
    have hRe : iterative_scalar_gradient m q nswrgp verbosity inc epsrgp
        coefap coefbp pvar c_weight grad = ⟨grad, 0, 0, 0, false⟩ := by
      unfold iterative_scalar_gradient
      rw [if_pos h1]
    rw [hRe, hf0]
    refine ⟨le_refl 0, fun j hj1 hjf _ _ => absurd (le_trans hj1 hjf)
      (by omega), fun _ h2 => absurd h2 (by omega)⟩
  · have hne : ¬ (l2_norm_sq m.n_cells grad ≤ epzero ^ 2) :=
      not_le.mpr hnorm
    have hRe : iterative_scalar_gradient m q nswrgp verbosity inc epsrgp
        coefap coefbp pvar c_weight grad =
        ⟨(iterLoop (scalarSweepStep m q inc coefap coefbp pvar c_weight)
            (sweepConverged epsrgp (l2_norm_sq m.n_cells grad))
            (nswrgp - 1).toNat 1 grad 0).1,
         (iterLoop (scalarSweepStep m q inc coefap coefbp pvar c_weight)
            (sweepConverged epsrgp (l2_norm_sq m.n_cells grad))
            (nswrgp - 1).toNat 1 grad 0).2.1,
         (iterLoop (scalarSweepStep m q inc coefap coefbp pvar c_weight)
            (sweepConverged epsrgp (l2_norm_sq m.n_cells grad))
            (nswrgp - 1).toNat 1 grad 0).2.2.1,
         (iterLoop (scalarSweepStep m q inc coefap coefbp pvar c_weight)
            (sweepConverged epsrgp (l2_norm_sq m.n_cells grad))
            (nswrgp - 1).toNat 1 grad 0).2.2.2,
         (!(sweepConverged epsrgp (l2_norm_sq m.n_cells grad))
            ((iterLoop (scalarSweepStep m q inc coefap coefbp pvar c_weight)
              (sweepConverged epsrgp (l2_norm_sq m.n_cells grad))
              (nswrgp - 1).toNat 1 grad 0).2.2.2))
           && decide (verbosity > -1)⟩ := by
      simp only [iterative_scalar_gradient, scalarSweepStep,
        if_neg h1, if_neg hne]
    rcases iterLoop_spec
        (scalarSweepStep m q inc coefap coefbp pvar c_weight)
        (sweepConverged epsrgp (l2_norm_sq m.n_cells grad))
        (nswrgp - 1).toNat 1 grad 0 with
      ⟨j0, hj01, hj0f, hj0c, hj0p, hje⟩ | ⟨hall, hje⟩
    · refine ⟨?_, ?_, ?_⟩
      · rw [hRe, hje]
        exact hj0f
      · intro j hj1 hjf hjc hjp
        have hjj0 : j = j0 := by
          rcases lt_trichotomy j j0 with h | h | h
          · rw [hj0p j hj1 h] at hjc
            exact absurd hjc (by simp)
          · exact h
          · have hc := hjp j0 hj01 h
            rw [hj0c] at hc
            exact absurd hc (by simp)
        subst hjj0
        rw [hRe, hje]
        refine ⟨rfl, by push_cast; ring, rfl, ?_⟩
        show ((!(sweepConverged epsrgp (l2_norm_sq m.n_cells grad))
          (resIter (scalarSweepStep m q inc coefap coefbp pvar c_weight)
            grad j)) && decide (verbosity > -1)) = false
        rw [hj0c]
        simp
      · intro hall' _
        have hc := hall' j0 hj01 hj0f
        rw [hj0c] at hc
        exact absurd hc (by simp)
    · refine ⟨?_, ?_, ?_⟩
      · rw [hRe, hje]
      · intro j hj1 hjf hjc _
        have hc := hall j hj1 hjf
        rw [hc] at hjc
        exact absurd hjc (by simp)
      · intro _ h2
        have hfz : (nswrgp - 1).toNat ≠ 0 := by omega
        have hcast : (((nswrgp - 1).toNat : ℤ)) = nswrgp - 1 :=
          Int.toNat_of_nonneg (by omega)
        rw [hRe, hje]
        refine ⟨rfl, ?_, rfl, ?_⟩
        · show 1 + ((nswrgp - 1).toNat : ℤ) = nswrgp
          rw [hcast]
          ring
        · show ((!(sweepConverged epsrgp (l2_norm_sq m.n_cells grad))
            (if (nswrgp - 1).toNat = 0 then 0 else
              resIter (scalarSweepStep m q inc coefap coefbp pvar c_weight)
                grad (nswrgp - 1).toNat)) && decide (verbosity > -1))
            = decide (verbosity > -1)
          rw [if_neg hfz, hall (nswrgp - 1).toNat (by omega) (le_refl _)]
          simp

/-- Witness for C2: a one-cell mesh with unit volume, starting gradient
`(1,0,0)`, `nswrgp = 3`, `epsrgp = 1`.  The initial squared norm is `1`,
well above `epzero²`, and the driver executes at most two sweeps. -/
theorem iterative_scalar_termination_witness :
    epzero ^ 2 < l2_norm_sq wMesh.n_cells (fun _ => (⟨1, 0, 0⟩ : V3))
    ∧ (iterative_scalar_gradient wMesh wQuant 3 0 0 1 (fun _ => 0)
        (fun _ => 0) (fun _ => 0) none (fun _ => ⟨1, 0, 0⟩)).n_exec
      ≤ ((3 : ℤ) - 1).toNat := by
  have hnorm : epzero ^ 2
      < l2_norm_sq wMesh.n_cells (fun _ => (⟨1, 0, 0⟩ : V3)) := by
    norm_num [l2_norm_sq, sumN, loop, V3.normSq, V3.dot, wMesh, epzero]
  exact ⟨hnorm,
    (iterative_scalar_termination wMesh wQuant 3 0 0 1 (fun _ => 0)
      (fun _ => 0) (fun _ => 0) none (fun _ => ⟨1, 0, 0⟩) hnorm
      _ _ _ rfl rfl rfl).1⟩


/-- Scaling the zero vector gives zero (0 • here is the scalar zero). -/
theorem V3.smul_by_zero (a : V3) : (0 : ℚ) • a = 0 := by
  cases a
  simp [V3.smul_def, V3.zero_def]

/-- Adding the zero vector is the identity. -/
theorem V3.add_zero_eq (a : V3) : a + 0 = a := by
  cases a
  simp [V3.add_def, V3.zero_def]

/-- Subtracting the zero vector is the identity. -/
theorem V3.sub_zero_eq (a : V3) : a - 0 = a := by
  cases a
  simp [V3.sub_def, V3.zero_def]

/-- Dotting with the zero vector gives zero. -/
theorem V3.dot_zero_right (a : V3) : V3.dot a 0 = 0 := by
  cases a
  simp [V3.dot, V3.zero_def]

/-- The packed symmetric product with the zero vector is zero. -/
theorem C6.mulPacked_zero (a : C6) : C6.mulPacked a 0 = 0 := by
  simp [C6.mulPacked, V3.zero_def]

/-- A sum of zeros is zero. -/
theorem sumN_zero (n : ℕ) (g : ℕ → ℚ) (hg : ∀ i, i < n → g i = 0) :
    sumN n g = 0 := by
  unfold sumN
  refine loop_inv_idx (fun i (acc : ℚ) => acc = 0) n _ 0 rfl ?_
  intro i hi t ht
  rw [ht, hg i hi]
  norm_num

/-- The squared norm of an owned-cell-zero gradient array is zero. -/
theorem l2_norm_sq_zero (n : ℕ) (g : ℕ → V3)
    (hg : ∀ c, c < n → g c = 0) : l2_norm_sq n g = 0 := by
  unfold l2_norm_sq
  refine sumN_zero n _ ?_
  intro i hi
  rw [hg i hi]
  simp [V3.normSq, V3.dot, V3.zero_def]

/-- The iterative driver returns immediately, recording zero sweeps, when
the initial gradient is zero on the owned cells (its norm is numerically
zero). -/
theorem iterative_zero_early (m : Mesh) (q : MeshQuantities)
    (nswrgp verbosity : ℤ) (inc epsrgp : ℚ) (coefap coefbp pvar : ℕ → ℚ)
    (c_weight : Option (ℕ → ℚ)) (grad : ℕ → V3)
    (hg : ∀ c, c < m.n_cells → grad c = 0) :
    iterative_scalar_gradient m q nswrgp verbosity inc epsrgp coefap coefbp
      pvar c_weight grad = ⟨grad, 0, 0, 0, false⟩ := by
  have h0 : l2_norm_sq m.n_cells grad = 0 := l2_norm_sq_zero _ _ hg
  have hle : l2_norm_sq m.n_cells grad ≤ epzero ^ 2 := by
    rw [h0, epzero]
    norm_num
  unfold iterative_scalar_gradient
  by_cases h : nswrgp < 1
  · rw [if_pos h]
  · simp only [if_neg h, if_pos hle]

/-- One interior face adds nothing to the initialization of a zero field. -/
theorem initGradFaceStep_zero (m : Mesh) (q : MeshQuantities)
    (c_weight : Option (ℕ → ℚ)) (f : ℕ) (g : ℕ → V3)
    (hg : ∀ c, g c = 0) :
    ∀ c, initGradFaceStep m q (fun _ => 0) c_weight f g c = 0 := by
  intro c
  simp only [initGradFaceStep, upd, hg]
  norm_num [V3.smul_by_zero, V3.add_zero_eq, V3.sub_zero_eq]

/-- One boundary face adds nothing to the initialization of a zero field
under homogeneous Neumann coefficients. -/
theorem initGradBndStep_zero (m : Mesh) (q : MeshQuantities) (inc : ℚ)
    (f : ℕ) (g : ℕ → V3) (hg : ∀ c, g c = 0) :
    ∀ c, initGradBndStep m q inc (fun _ => 0) (fun _ => 1) (fun _ => 0) f g c
      = 0 := by
  intro c
  simp only [initGradBndStep, upd, hg]
  norm_num [V3.smul_by_zero, V3.add_zero_eq]

/-- Initializing the gradient of a uniformly zero field with homogeneous
Neumann coefficients gives zero in every cell. -/
theorem initialize_zero (m : Mesh) (q : MeshQuantities) (inc : ℚ)
    (c_weight : Option (ℕ → ℚ)) :
    ∀ c, initialize_scalar_gradient m q inc (fun _ => 0) (fun _ => 1)
      (fun _ => 0) c_weight c = 0 := by
  have h1 : ∀ c, loop m.n_i_faces
      (initGradFaceStep m q (fun _ => 0) c_weight) (fun _ => 0) c = 0 := by
    refine loop_inv (fun g : ℕ → V3 => ∀ c, g c = 0) _ _ _ (fun _ => rfl) ?_
    intro f _ g hg
    exact initGradFaceStep_zero m q c_weight f g hg
  have h2 : ∀ c, loop m.n_b_faces
      (initGradBndStep m q inc (fun _ => 0) (fun _ => 1) (fun _ => 0))
      (loop m.n_i_faces (initGradFaceStep m q (fun _ => 0) c_weight)
        (fun _ => 0)) c = 0 := by
    refine loop_inv (fun g : ℕ → V3 => ∀ c, g c = 0) _ _ _ h1 ?_
    intro f _ g hg
    exact initGradBndStep_zero m q inc f g hg
  intro c
  simp only [initialize_scalar_gradient, h2]
  split <;> simp [V3.smul_zero_eq]


/-- One interior face adds nothing to the least-squares right-hand side of a
zero field. -/
theorem lsqRhsFaceStep_zero (m : Mesh) (q : MeshQuantities)
    (c_weight : Option (ℕ → ℚ)) (f : ℕ) (rhs : ℕ → V3)
    (hg : ∀ c, rhs c = 0) :
    ∀ c, lsqRhsFaceStep m q (fun _ => 0) c_weight f rhs c = 0 := by
  intro c
  cases c_weight with
  | none =>
    simp only [lsqRhsFaceStep, upd, hg]
    norm_num [V3.smul_by_zero, V3.add_zero_eq]
  | some cw =>
    simp only [lsqRhsFaceStep, upd, hg]
    norm_num [V3.smul_by_zero, V3.add_zero_eq, V3.smul_zero_eq]

/-- The extended-neighborhood pass adds nothing to the least-squares
right-hand side of a zero field. -/
theorem lsqRhsExtStep_zero (m : Mesh) (q : MeshQuantities) (ii : ℕ)
    (rhs : ℕ → V3) (hg : ∀ c, rhs c = 0) :
    ∀ c, lsqRhsExtStep m q (fun _ => 0) ii rhs c = 0 := by
  unfold lsqRhsExtStep loopRange
  refine loop_inv (fun r : ℕ → V3 => ∀ c, r c = 0) _ _ _ hg ?_
  intro k _ r hr c
  simp only [upd, hr]
  norm_num [V3.smul_by_zero, V3.add_zero_eq]

/-- One boundary face adds nothing to the least-squares right-hand side of a
zero field under homogeneous Neumann coefficients. -/
theorem lsqRhsBndStep_zero (m : Mesh) (q : MeshQuantities) (inc : ℚ)
    (f : ℕ) (rhs : ℕ → V3) (hg : ∀ c, rhs c = 0) :
    ∀ c, lsqRhsBndStep m q inc (fun _ => 0) (fun _ => 1) (fun _ => 0) f rhs c
      = 0 := by
  intro c
  simp only [lsqRhsBndStep, upd, hg]
  norm_num [V3.smul_by_zero, V3.add_zero_eq]

/-- The least-squares gradient of a uniformly zero field with homogeneous
Neumann coefficients is zero at every owned cell. -/
theorem lsq_scalar_gradient_zero (m : Mesh) (q : MeshQuantities)
    (halo_type : HaloType) (recompute_cocg : Bool) (inc : ℚ)
    (c_weight : Option (ℕ → ℚ)) (grad0 : ℕ → V3) :
    ∀ c, c < m.n_cells →
      lsq_scalar_gradient m q halo_type recompute_cocg inc (fun _ => 0)
        (fun _ => 1) (fun _ => 0) c_weight grad0 c = 0 := by
  have h1 : ∀ c, loop m.n_i_faces
      (lsqRhsFaceStep m q (fun _ => 0) c_weight) (fun _ => 0) c = 0 := by
    refine loop_inv (fun r : ℕ → V3 => ∀ c, r c = 0) _ _ _ (fun _ => rfl) ?_
    intro f _ r hr
    exact lsqRhsFaceStep_zero m q c_weight f r hr
  have h2 : ∀ c,
      (if halo_type = HaloType.extended ∧ m.has_cell_cells = true then
        loop m.n_cells (lsqRhsExtStep m q (fun _ => 0))
          (loop m.n_i_faces (lsqRhsFaceStep m q (fun _ => 0) c_weight)
            (fun _ => 0))
      else loop m.n_i_faces (lsqRhsFaceStep m q (fun _ => 0) c_weight)
        (fun _ => 0)) c = 0 := by
    split
    · refine loop_inv (fun r : ℕ → V3 => ∀ c, r c = 0) _ _ _ h1 ?_
      intro ii _ r hr
      exact lsqRhsExtStep_zero m q ii r hr
    · exact h1
  have h3 : ∀ c, loop m.n_b_faces
      (lsqRhsBndStep m q inc (fun _ => 0) (fun _ => 1) (fun _ => 0))
      (if halo_type = HaloType.extended ∧ m.has_cell_cells = true then
        loop m.n_cells (lsqRhsExtStep m q (fun _ => 0))
          (loop m.n_i_faces (lsqRhsFaceStep m q (fun _ => 0) c_weight)
            (fun _ => 0))
      else loop m.n_i_faces (lsqRhsFaceStep m q (fun _ => 0) c_weight)
        (fun _ => 0)) c = 0 := by
    refine loop_inv (fun r : ℕ → V3 => ∀ c, r c = 0) _ _ _ h2 ?_
    intro f _ r hr
    exact lsqRhsBndStep_zero m q inc f r hr
  intro c hc
  simp only [lsq_scalar_gradient, h3, if_pos hc]
  exact C6.mulPacked_zero _

/-- Clipping preserves a gradient that is zero on the owned cells. -/
theorem scalar_clipping_zero (m : Mesh) (q : MeshQuantities)
    (halo_type : HaloType) (clip_mode : ℤ) (climgp : ℚ) (var : ℕ → ℚ)
    (g : ℕ → V3) (hg : ∀ c, c < m.n_cells → g c = 0) :
    ∀ c, c < m.n_cells →
      (scalar_gradient_clipping m q halo_type clip_mode climgp var g).grad c
        = 0 := by
  unfold scalar_gradient_clipping
  split
  · exact hg
  · split
    · refine loop_inv
        (fun st : ClipResult => ∀ c, c < m.n_cells → st.grad c = 0) _ _ _
        hg ?_
      intro i hi st hst c hc
      unfold cellClipApplyStep
      split
      · show upd st.grad i _ c = 0
        by_cases hci : c = i
        · subst hci
          rw [upd_same, hst c hc, V3.smul_zero_eq]
        · rw [upd_ne _ _ _ _ hci]
          exact hst c hc
      · exact hst c hc
    · split
      · refine loop_inv
          (fun st : ClipResult => ∀ c, c < m.n_cells → st.grad c = 0) _ _ _
          hg ?_
        intro i hi st hst c hc
        unfold faceClipApplyStep
        have hgc : upd st.grad i
            (faceClipFactors m q halo_type climgp var g i • st.grad i) c
            = 0 := by
          by_cases hci : c = i
          · subst hci
            rw [upd_same, hst c hc, V3.smul_zero_eq]
          · rw [upd_ne _ _ _ _ hci]
            exact hst c hc
        split
        · exact hgc
        · exact hgc
      · exact hg

/-- One interior face adds nothing to the reconstruction of a zero field
when the auxiliary gradient is zero at the face's (owned) cells. -/
theorem reconFaceStep_zero (m : Mesh) (q : MeshQuantities)
    (c_weight : Option (ℕ → ℚ)) (r_grad : ℕ → V3) (f : ℕ) (g : ℕ → V3)
    (hg : ∀ c, g c = 0)
    (h1 : r_grad (m.i_face_cells f).1 = 0)
    (h2 : r_grad (m.i_face_cells f).2 = 0) :
    ∀ c, reconFaceStep m q (fun _ => 0) c_weight r_grad f g c = 0 := by
  intro c
  simp only [reconFaceStep, upd, hg, h1, h2]
  norm_num [V3.smul_by_zero, V3.add_zero_eq, V3.sub_zero_eq,
    V3.dot_zero_right]

/-- One boundary face adds nothing to the reconstruction of a zero field
under homogeneous Neumann coefficients when the auxiliary gradient is zero
at the face's (owned) cell. -/
theorem reconBndStep_zero (m : Mesh) (q : MeshQuantities) (inc : ℚ)
    (r_grad : ℕ → V3) (f : ℕ) (g : ℕ → V3) (hg : ∀ c, g c = 0)
    (h1 : r_grad (m.b_face_cells f) = 0) :
    ∀ c, reconBndStep m q inc (fun _ => 0) (fun _ => 1) (fun _ => 0) r_grad
      f g c = 0 := by
  intro c
  simp only [reconBndStep, upd, hg, h1]
  norm_num [V3.smul_by_zero, V3.add_zero_eq, V3.dot_zero_right]

/-- Reconstructing the gradient of a uniformly zero field with homogeneous
Neumann coefficients and an owned-cell-zero auxiliary gradient gives zero at
every owned cell (faces must reference owned cells: the single-rank
configuration has no ghost cells). -/
theorem reconstruct_zero (m : Mesh) (q : MeshQuantities) (inc : ℚ)
    (c_weight : Option (ℕ → ℚ)) (r_grad : ℕ → V3)
    (hwf_i : ∀ f, f < m.n_i_faces → (m.i_face_cells f).1 < m.n_cells ∧
      (m.i_face_cells f).2 < m.n_cells)
    (hwf_b : ∀ f, f < m.n_b_faces → m.b_face_cells f < m.n_cells)
    (hr : ∀ c, c < m.n_cells → r_grad c = 0) :
    ∀ c, c < m.n_cells →
      reconstruct_scalar_gradient m q inc (fun _ => 0) (fun _ => 1)
        (fun _ => 0) c_weight r_grad c = 0 := by
  have h1 : ∀ c, loop m.n_i_faces
      (reconFaceStep m q (fun _ => 0) c_weight r_grad) (fun _ => 0) c
      = 0 := by
    refine loop_inv (fun g : ℕ → V3 => ∀ c, g c = 0) _ _ _ (fun _ => rfl) ?_
    intro f hf g hg
    exact reconFaceStep_zero m q c_weight r_grad f g hg
      (hr _ (hwf_i f hf).1) (hr _ (hwf_i f hf).2)
  have h2 : ∀ c, loop m.n_b_faces
      (reconBndStep m q inc (fun _ => 0) (fun _ => 1) (fun _ => 0) r_grad)
      (loop m.n_i_faces (reconFaceStep m q (fun _ => 0) c_weight r_grad)
        (fun _ => 0)) c = 0 := by
    refine loop_inv (fun g : ℕ → V3 => ∀ c, g c = 0) _ _ _ h1 ?_
    intro f hf g hg
    exact reconBndStep_zero m q inc r_grad f g hg (hr _ (hwf_b f hf))
  intro c hc
  simp only [reconstruct_scalar_gradient, h2, if_pos hc]
  rw [V3.smul_zero_eq]
  split
  · exact M33.mulVec_zero _
  · rfl


/-- C3: for every mesh (single-rank: faces reference owned cells), a
uniformly zero input field with homogeneous-Neumann boundary coefficients
(`a = 0`, `B = 1`, given explicitly or defaulted when absent) gives a
uniformly zero gradient at every owned cell in one call, under each of the
spec's three schemes (Green-Gauss iterative, least-squares, hybrid) and
every halo type, sweep cap, tolerance, and clip setting; and the iterative
driver's initial norm is numerically zero, so it returns immediately after
initialization, recording zero sweeps (and executing none). -/
theorem zero_field_zero_gradient (m : Mesh) (q : MeshQuantities)
    (gradient_type : GradientType) (halo_type : HaloType) (inc : ℚ)
    (recompute_cocg : Bool) (n_r_sweeps verbosity clip_mode : ℤ)
    (epsilon clip_coeff : ℚ) (bc_coeff_a bc_coeff_b : Option (ℕ → ℚ))
    (c_weight : Option (ℕ → ℚ)) (grad0 : ℕ → V3)
    (ha : bc_coeff_a = none ∨ bc_coeff_a = some (fun _ => 0))
    (hb : bc_coeff_b = none ∨ bc_coeff_b = some (fun _ => 1))
    (hwf_i : ∀ f, f < m.n_i_faces → (m.i_face_cells f).1 < m.n_cells ∧
      (m.i_face_cells f).2 < m.n_cells)
    (hwf_b : ∀ f, f < m.n_b_faces → m.b_face_cells f < m.n_cells)
    (hty : gradient_type ≠ GradientType.green_vtx) :
    (∀ c, c < m.n_cells →
      gradient_scalar_compute m q gradient_type halo_type inc recompute_cocg
        n_r_sweeps verbosity clip_mode epsilon clip_coeff bc_coeff_a
        bc_coeff_b (fun _ => 0) c_weight grad0 c = 0)
    ∧ (gradient_scalar_iter_info m q inc n_r_sweeps verbosity epsilon
        bc_coeff_a bc_coeff_b (fun _ => 0) c_weight).n_sweeps = 0
    ∧ (gradient_scalar_iter_info m q inc n_r_sweeps verbosity epsilon
        bc_coeff_a bc_coeff_b (fun _ => 0) c_weight).n_exec = 0 := by
  have hca : bc_coeff_a.getD (fun _ => 0) = (fun _ => (0 : ℚ)) := by
    rcases ha with h | h <;> rw [h] <;> rfl
  have hcb : bc_coeff_b.getD (fun _ => 1) = (fun _ => (1 : ℚ)) := by
    rcases hb with h | h <;> rw [h] <;> rfl
  have hinit : ∀ c, initialize_scalar_gradient m q inc
      (bc_coeff_a.getD (fun _ => 0)) (bc_coeff_b.getD (fun _ => 1))
      (fun _ => 0) c_weight c = 0 := by
    rw [hca, hcb]
    exact initialize_zero m q inc c_weight
  have hiter : iterative_scalar_gradient m q n_r_sweeps verbosity inc
      epsilon (bc_coeff_a.getD (fun _ => 0)) (bc_coeff_b.getD (fun _ => 1))
      (fun _ => 0) c_weight
      (initialize_scalar_gradient m q inc (bc_coeff_a.getD (fun _ => 0))
        (bc_coeff_b.getD (fun _ => 1)) (fun _ => 0) c_weight) =
      ⟨initialize_scalar_gradient m q inc (bc_coeff_a.getD (fun _ => 0))
        (bc_coeff_b.getD (fun _ => 1)) (fun _ => 0) c_weight,
       0, 0, 0, false⟩ :=
    iterative_zero_early m q n_r_sweeps verbosity inc epsilon _ _ _
      c_weight _ (fun c _ => hinit c)
  have hlsq : ∀ c, c < m.n_cells →
      lsq_scalar_gradient m q halo_type recompute_cocg inc
        (bc_coeff_a.getD (fun _ => 0)) (bc_coeff_b.getD (fun _ => 1))
        (fun _ => 0) c_weight grad0 c = 0 := by
    rw [hca, hcb]
    exact lsq_scalar_gradient_zero m q halo_type recompute_cocg inc
      c_weight grad0
  refine ⟨?_, ?_, ?_⟩
  · intro c hc
    cases gradient_type with
    | green_iter =>
      show (iterative_scalar_gradient m q n_r_sweeps verbosity inc epsilon
        (bc_coeff_a.getD (fun _ => 0)) (bc_coeff_b.getD (fun _ => 1))
        (fun _ => 0) c_weight
        (initialize_scalar_gradient m q inc
          (bc_coeff_a.getD (fun _ => 0)) (bc_coeff_b.getD (fun _ => 1))
          (fun _ => 0) c_weight)).grad c = 0
      rw [hiter]
      exact hinit c
    | lsq =>
      show (scalar_gradient_clipping m q halo_type clip_mode clip_coeff
        (fun _ => 0)
        (lsq_scalar_gradient m q halo_type recompute_cocg inc
          (bc_coeff_a.getD (fun _ => 0)) (bc_coeff_b.getD (fun _ => 1))
          (fun _ => 0) c_weight grad0)).grad c = 0
      exact scalar_clipping_zero m q halo_type clip_mode clip_coeff
        (fun _ => 0) _ hlsq c hc
    | green_lsq =>
      show reconstruct_scalar_gradient m q inc
        (bc_coeff_a.getD (fun _ => 0)) (bc_coeff_b.getD (fun _ => 1))
        (fun _ => 0) c_weight
        ((scalar_gradient_clipping m q halo_type clip_mode clip_coeff
          (fun _ => 0)
          (lsq_scalar_gradient m q halo_type recompute_cocg inc
            (bc_coeff_a.getD (fun _ => 0)) (bc_coeff_b.getD (fun _ => 1))
            (fun _ => 0) c_weight grad0)).grad) c = 0
      rw [hca, hcb]
      refine reconstruct_zero m q inc c_weight _ hwf_i hwf_b ?_ c hc
      intro c' hc'
      have := scalar_clipping_zero m q halo_type clip_mode clip_coeff
        (fun _ => 0) _ hlsq c' hc'
      rw [hca, hcb] at this
      exact this
    | green_vtx => exact absurd rfl hty
  · show (iterative_scalar_gradient m q n_r_sweeps verbosity inc epsilon
      (bc_coeff_a.getD (fun _ => 0)) (bc_coeff_b.getD (fun _ => 1))
      (fun _ => 0) c_weight
      (initialize_scalar_gradient m q inc (bc_coeff_a.getD (fun _ => 0))
        (bc_coeff_b.getD (fun _ => 1)) (fun _ => 0) c_weight)).n_sweeps = 0
    rw [hiter]
  · show (iterative_scalar_gradient m q n_r_sweeps verbosity inc epsilon
      (bc_coeff_a.getD (fun _ => 0)) (bc_coeff_b.getD (fun _ => 1))
      (fun _ => 0) c_weight
      (initialize_scalar_gradient m q inc (bc_coeff_a.getD (fun _ => 0))
        (bc_coeff_b.getD (fun _ => 1)) (fun _ => 0) c_weight)).n_exec = 0
    rw [hiter]

/-- Witness for C3: on the concrete 3-cell mesh, the hybrid scheme with
defaulted boundary coefficients maps the zero field to the zero gradient at
every owned cell. -/
theorem zero_field_zero_gradient_witness :
    (∀ f, f < cexMesh.n_i_faces →
      (cexMesh.i_face_cells f).1 < cexMesh.n_cells ∧
      (cexMesh.i_face_cells f).2 < cexMesh.n_cells)
    ∧ (∀ f, f < cexMesh.n_b_faces →
      cexMesh.b_face_cells f < cexMesh.n_cells)
    ∧ (∀ c, c < cexMesh.n_cells →
      gradient_scalar_compute cexMesh cexQuant GradientType.green_lsq
        HaloType.standard 1 true 5 0 1 1 (3 / 2) none none (fun _ => 0)
        none (fun _ => ⟨7, 7, 7⟩) c = 0) := by
  have hwf_i : ∀ f, f < cexMesh.n_i_faces →
      (cexMesh.i_face_cells f).1 < cexMesh.n_cells ∧
      (cexMesh.i_face_cells f).2 < cexMesh.n_cells := by
    intro f hf
    norm_num [cexMesh]
  have hwf_b : ∀ f, f < cexMesh.n_b_faces →
      cexMesh.b_face_cells f < cexMesh.n_cells := by
    intro f hf
    norm_num [cexMesh] at hf
  exact ⟨hwf_i, hwf_b,
    (zero_field_zero_gradient cexMesh cexQuant GradientType.green_lsq
      HaloType.standard 1 true 5 0 1 1 (3 / 2) none none none
      (fun _ => ⟨7, 7, 7⟩) (Or.inl rfl) (Or.inl rfl) hwf_i hwf_b
      (by decide)).1⟩


/-- C5: for every scalar, vector, or tensor gradient call, passing no
boundary coefficient arrays (`NULL`) computes exactly the same gradient as
passing explicit homogeneous-Neumann coefficients — additive term `0` and
linear term the identity of the field's rank — the dispatches defaulting
absent arrays to exactly those values before any kernel runs. -/
theorem bc_default_neumann_equiv (m : Mesh) (madj : MeshAdj)
    (q : MeshQuantities) (sqrtQ : ℚ → ℚ) (gradient_type : GradientType)
    (halo_type : HaloType) (inc : ℚ) (recompute_cocg : Bool)
    (n_r_sweeps verbosity clip_mode : ℤ) (epsilon clip_coeff : ℚ)
    (svar : ℕ → ℚ) (vvar tvar : ℕ → ℕ → ℚ) (c_weight : Option (ℕ → ℚ))
    (sgrad0 : ℕ → V3) (vgrad0 tgrad0 : ℕ → ℕ → V3) :
    gradient_scalar_compute m q gradient_type halo_type inc recompute_cocg
        n_r_sweeps verbosity clip_mode epsilon clip_coeff none none svar
        c_weight sgrad0
      = gradient_scalar_compute m q gradient_type halo_type inc
        recompute_cocg n_r_sweeps verbosity clip_mode epsilon clip_coeff
        (some (fun _ => 0)) (some (fun _ => 1)) svar c_weight sgrad0
    ∧ gradient_vector_compute m madj q sqrtQ gradient_type halo_type inc
        n_r_sweeps verbosity clip_mode epsilon clip_coeff none none vvar
        c_weight vgrad0
      = gradient_vector_compute m madj q sqrtQ gradient_type halo_type inc
        n_r_sweeps verbosity clip_mode epsilon clip_coeff
        (some (fun _ _ => 0)) (some (fun _ j k => if j = k then 1 else 0))
        vvar c_weight vgrad0
    ∧ gradient_tensor_compute m madj q sqrtQ gradient_type halo_type inc
        n_r_sweeps verbosity clip_mode epsilon clip_coeff none none tvar
        tgrad0
      = gradient_tensor_compute m madj q sqrtQ gradient_type halo_type inc
        n_r_sweeps verbosity clip_mode epsilon clip_coeff
        (some (fun _ _ => 0)) (some (fun _ j k => if j = k then 1 else 0))
        tvar tgrad0 :=
  ⟨rfl, rfl, rfl⟩

/-- Counterexample to C6 as stated.  Requesting a tensor gradient with the
vertex-based scheme through the public entry point (which remaps only
`GREEN_LSQ` to `GREEN_ITER`) reaches the dispatch's `default` label, whose
only statement is a debug `assert(0)` — not the fatal-error path, which is
never called in `cs_gradient.cxx` — and returns with the caller's output
buffer completely untouched (here left at the junk value `(5,5,5)` in
every entry), while an implemented scheme (`GREEN_ITER`) does overwrite the
buffer (here with the zero gradient of the zero field). -/
theorem tensor_dispatch_default_not_fatal :
    (cs_gradient_tensor_compute wMesh ⟨fun _ => 0, fun _ => 0⟩ wQuant
        (fun x => x) GradientType.green_vtx HaloType.standard 1 0 0 1 1
        (3 / 2) none none (fun _ _ => 0) (fun _ _ => ⟨5, 5, 5⟩)).1
      = (fun _ _ => ⟨5, 5, 5⟩)
    ∧ (cs_gradient_tensor_compute wMesh ⟨fun _ => 0, fun _ => 0⟩ wQuant
        (fun x => x) GradientType.green_vtx HaloType.standard 1 0 0 1 1
        (3 / 2) none none (fun _ _ => 0) (fun _ _ => ⟨5, 5, 5⟩)).2
      = true
    ∧ (cs_gradient_tensor_compute wMesh ⟨fun _ => 0, fun _ => 0⟩ wQuant
        (fun x => x) GradientType.green_lsq HaloType.standard 1 0 0 1 1
        (3 / 2) none none (fun _ _ => 0) (fun _ _ => ⟨5, 5, 5⟩)).2
      = false
    ∧ (cs_gradient_tensor_compute wMesh ⟨fun _ => 0, fun _ => 0⟩ wQuant
        (fun x => x) GradientType.green_iter HaloType.standard 1 0 0 1 1
        (3 / 2) none none (fun _ _ => 0) (fun _ _ => ⟨5, 5, 5⟩)).1 0 0
      = 0 := by
  refine ⟨rfl, rfl, rfl, ?_⟩
  show initialize_tensor_gradient wMesh wQuant 1 (fun _ _ => 0)
    (fun _ j k => if j = k then 1 else 0) (fun _ _ => 0) 0 0 = 0
  norm_num [initialize_tensor_gradient, loop, wMesh, wQuant,
    MeshQuantities.dvol, V3.smul_def, V3.zero_def]

/-- C6 (amended).  In the tensor dispatch, the implemented schemes
(Green-Gauss iterative and least-squares) populate the output and never
reach the `default` label; any other type reaches it, and — its only
statement being `assert(0)`, compiled out under `NDEBUG` with no call to
the fatal-error path — the dispatch then returns with the output buffer
exactly as the caller passed it.  Through the public entry point, which
remaps `GREEN_LSQ` to `GREEN_ITER`, the vertex-based type is the only one
reaching the `default` label. -/
theorem tensor_dispatch_default_behavior (m : Mesh) (madj : MeshAdj)
    (q : MeshQuantities) (sqrtQ : ℚ → ℚ) (gradient_type : GradientType)
    (halo_type : HaloType) (inc : ℚ) (n_r_sweeps verbosity clip_mode : ℤ)
    (epsilon clip_coeff : ℚ) (bc_coeff_a : Option (ℕ → ℕ → ℚ))
    (bc_coeff_b : Option (ℕ → ℕ → ℕ → ℚ)) (var : ℕ → ℕ → ℚ)
    (grad0 : ℕ → ℕ → V3) :
    ((gradient_tensor_compute m madj q sqrtQ gradient_type halo_type inc
        n_r_sweeps verbosity clip_mode epsilon clip_coeff bc_coeff_a
        bc_coeff_b var grad0).2 = true ↔
      gradient_type = GradientType.green_lsq ∨
      gradient_type = GradientType.green_vtx)
    ∧ ((gradient_tensor_compute m madj q sqrtQ gradient_type halo_type inc
        n_r_sweeps verbosity clip_mode epsilon clip_coeff bc_coeff_a
        bc_coeff_b var grad0).2 = true →
      (gradient_tensor_compute m madj q sqrtQ gradient_type halo_type inc
        n_r_sweeps verbosity clip_mode epsilon clip_coeff bc_coeff_a
        bc_coeff_b var grad0).1 = grad0)
    ∧ ((cs_gradient_tensor_compute m madj q sqrtQ gradient_type halo_type
        inc n_r_sweeps verbosity clip_mode epsilon clip_coeff bc_coeff_a
        bc_coeff_b var grad0).2 = true ↔
      gradient_type = GradientType.green_vtx)
    ∧ (gradient_type = GradientType.green_vtx →
      (cs_gradient_tensor_compute m madj q sqrtQ gradient_type halo_type
        inc n_r_sweeps verbosity clip_mode epsilon clip_coeff bc_coeff_a
        bc_coeff_b var grad0).1 = grad0) := by
  cases gradient_type <;>
    exact ⟨by simp [gradient_tensor_compute],
      by intro h; first
        | rfl
        | exact absurd h (by simp [gradient_tensor_compute]),
      by simp [cs_gradient_tensor_compute, gradient_tensor_compute],
      by intro h; first
        | rfl
        | exact absurd h (by simp)⟩

/-- Witness for C6 (amended), applying the characterization at the
vertex-based type on concrete data: the public tensor entry point returns
the junk buffer unchanged. -/
theorem tensor_dispatch_default_behavior_witness :
    (cs_gradient_tensor_compute wMesh ⟨fun _ => 0, fun _ => 0⟩ wQuant
        (fun x => x) GradientType.green_vtx HaloType.standard 0 5 1 0 1 2
        none none (fun _ _ => 1) (fun _ _ => ⟨7, 0, 0⟩)).1
      = (fun _ _ => ⟨7, 0, 0⟩) :=
  (tensor_dispatch_default_behavior wMesh ⟨fun _ => 0, fun _ => 0⟩ wQuant
    (fun x => x) GradientType.green_vtx HaloType.standard 0 5 1 0 1 2
    none none (fun _ _ => 1) (fun _ _ => ⟨7, 0, 0⟩)).2.2.2 rfl

theorem sumN_congr (n : ℕ) (f g : ℕ → ℚ) (h : ∀ i, i < n → f i = g i) :
    sumN n f = sumN n g := by
  unfold sumN
  induction n with
  | zero => rfl
  | succ k ih =>
    show loop k _ 0 + f k = loop k _ 0 + g k
    rw [ih fun i hi => h i (Nat.lt_succ_of_lt hi), h k (Nat.lt_succ_self k)]

theorem sumN_succ (n : ℕ) (f : ℕ → ℚ) : sumN (n + 1) f = sumN n f + f n := rfl

theorem tri_succ (i : ℕ) : (i + 1) * (i + 2) / 2 = i * (i + 1) / 2 + (i + 1) := by
  have h : (i + 1) * (i + 2) = i * (i + 1) + (i + 1) * 2 := by ring
  rw [h, Nat.add_mul_div_right _ _ (by norm_num : 0 < 2)]

theorem tri_mono {i i' : ℕ} (h : i ≤ i') : i * (i + 1) / 2 ≤ i' * (i' + 1) / 2 := by
  induction i' with
  | zero => simp_all
  | succ k ih =>
    rcases Nat.lt_or_ge i (k + 1) with h2 | h2
    · calc i * (i + 1) / 2 ≤ k * (k + 1) / 2 := ih (by omega)
        _ ≤ (k + 1) * (k + 2) / 2 := by rw [tri_succ]; omega
    · have h3 : i = k + 1 := by omega
      subst h3
      exact le_refl _

theorem idx_inj {i j i' j' : ℕ} (hj : j ≤ i) (hj' : j' ≤ i')
    (h : i * (i + 1) / 2 + j = i' * (i' + 1) / 2 + j') : i = i' ∧ j = j' := by
  rcases Nat.lt_trichotomy i i' with hlt | heq | hgt
  · exfalso
    have h1 : i * (i + 1) / 2 + j < (i + 1) * (i + 2) / 2 := by
      rw [tri_succ]; omega
    have h2 : (i + 1) * (i + 2) / 2 ≤ i' * (i' + 1) / 2 := tri_mono hlt
    omega
  · subst heq
    exact ⟨rfl, by omega⟩
  · exfalso
    have h1 : i' * (i' + 1) / 2 + j' < (i' + 1) * (i' + 2) / 2 := by
      rw [tri_succ]; omega
    have h2 : (i' + 1) * (i' + 2) / 2 ≤ i * (i + 1) / 2 := tri_mono hgt
    omega

theorem crout_jj_loop (ii k : ℕ) (auxv : ℕ → ℚ) (a : ℕ → ℚ) :
    (∀ jj, k + 1 ≤ jj → jj ≤ ii →
      loopRange (k + 1) (ii + 1)
        (fun jj ar => upd ar (ii * (ii + 1) / 2 + jj)
          (ar (ii * (ii + 1) / 2 + jj) -
            ar (ii * (ii + 1) / 2 + k) * auxv jj)) a
        (ii * (ii + 1) / 2 + jj)
      = a (ii * (ii + 1) / 2 + jj) - a (ii * (ii + 1) / 2 + k) * auxv jj)
    ∧ (∀ t, (∀ jj, k + 1 ≤ jj → jj ≤ ii → t ≠ ii * (ii + 1) / 2 + jj) →
      loopRange (k + 1) (ii + 1)
        (fun jj ar => upd ar (ii * (ii + 1) / 2 + jj)
          (ar (ii * (ii + 1) / 2 + jj) -
            ar (ii * (ii + 1) / 2 + k) * auxv jj)) a t = a t) := by
  unfold loopRange
  have key := loop_inv_idx
    (fun s ar => (∀ jj, k + 1 ≤ jj → jj < k + 1 + s →
        ar (ii * (ii + 1) / 2 + jj) =
          a (ii * (ii + 1) / 2 + jj) -
            a (ii * (ii + 1) / 2 + k) * auxv jj)
      ∧ (∀ t, (∀ jj, k + 1 ≤ jj → jj < k + 1 + s →
          t ≠ ii * (ii + 1) / 2 + jj) → ar t = a t))
    (ii + 1 - (k + 1))
    (fun s ar => upd ar (ii * (ii + 1) / 2 + (k + 1 + s))
      (ar (ii * (ii + 1) / 2 + (k + 1 + s)) -
        ar (ii * (ii + 1) / 2 + k) * auxv (k + 1 + s)))
    a
    (⟨fun jj _ h2 => absurd h2 (by omega), fun _ _ => rfl⟩)
    ?step
  case step =>
    intro s hs ar ⟨h1, h2⟩
    have hsii : k + 1 + s ≤ ii := by omega
    constructor
    · intro jj hj1 hj2
      show upd ar (ii * (ii + 1) / 2 + (k + 1 + s))
        (ar (ii * (ii + 1) / 2 + (k + 1 + s)) -
          ar (ii * (ii + 1) / 2 + k) * auxv (k + 1 + s))
        (ii * (ii + 1) / 2 + jj)
        = a (ii * (ii + 1) / 2 + jj) - a (ii * (ii + 1) / 2 + k) * auxv jj
      by_cases hje : jj = k + 1 + s
      · rw [hje, upd_same]
        rw [h2 (ii * (ii + 1) / 2 + (k + 1 + s))
          (fun jj' hj'1 hj'2 hne =>
            (by omega : k + 1 + s ≠ jj')
              (idx_inj (by omega) (by omega) hne).2),
          h2 (ii * (ii + 1) / 2 + k)
          (fun jj' hj'1 hj'2 hne =>
            (by omega : (k : ℕ) ≠ jj') (idx_inj (by omega) (by omega) hne).2)]
      · have hjlt : jj < k + 1 + s := by omega
        rw [upd_ne _ _ _ _
          (fun hne => hje (idx_inj (by omega) (by omega) hne).2)]
        exact h1 jj hj1 hjlt
    · intro t ht
      show upd ar (ii * (ii + 1) / 2 + (k + 1 + s))
        (ar (ii * (ii + 1) / 2 + (k + 1 + s)) -
          ar (ii * (ii + 1) / 2 + k) * auxv (k + 1 + s)) t = a t
      rw [upd_ne _ _ _ _ (ht (k + 1 + s) (by omega) (by omega))]
      exact h2 t (fun jj hj1 hj2 => ht jj hj1 (by omega))
  refine ⟨fun jj hj1 hj2 => ?_, fun t ht => ?_⟩
  · exact key.1 jj hj1 (by omega)
  · exact key.2 t (fun jj hj1 hj2 => ht jj hj1 (by omega))

theorem fact_crout_pp_spec (p : ℕ) (A : ℕ → ℕ → ℚ) (ad : ℕ → ℚ)
    (hpack : ∀ i j, j ≤ i → i < p → ad (i * (i + 1) / 2 + j) = A i j) :
    ∀ i j, j ≤ i → i < p →
      fact_crout_pp p ad (i * (i + 1) / 2 + j) =
        if j < i then croutL A i j else croutD A i := by
  have key := loop_inv_idx
    (fun k st => croutInv A p k st.1)
    (p - 1)
    (fun kk st =>
      loopRange (kk + 1) p
        (fun ii st2 =>
          let aux' := upd st2.2 ii (st2.1 (ii * (ii + 1) / 2 + kk))
          let ad1 := upd st2.1 (ii * (ii + 1) / 2 + kk)
            (st2.1 (ii * (ii + 1) / 2 + kk) /
              st2.1 (kk * (kk + 1) / 2 + kk))
          let ad2 := loopRange (kk + 1) (ii + 1)
            (fun jj a => upd a (ii * (ii + 1) / 2 + jj)
              (a (ii * (ii + 1) / 2 + jj) -
                a (ii * (ii + 1) / 2 + kk) * aux' jj)) ad1
          (ad2, aux'))
        st)
    (ad, fun _ => (0 : ℚ))
    ?base ?step
  case base =>
    intro i j hj hi
    show ad (i * (i + 1) / 2 + j) = _
    rw [if_neg (by omega)]
    exact hpack i j hj hi
  case step =>
    intro k hk st hst
    show croutInv A p (k + 1)
      (loop (p - (k + 1))
        (fun s =>
          (fun ii st2 =>
            let aux' := upd st2.2 ii (st2.1 (ii * (ii + 1) / 2 + k))
            let ad1 := upd st2.1 (ii * (ii + 1) / 2 + k)
              (st2.1 (ii * (ii + 1) / 2 + k) /
                st2.1 (k * (k + 1) / 2 + k))
            let ad2 := loopRange (k + 1) (ii + 1)
              (fun jj a => upd a (ii * (ii + 1) / 2 + jj)
                (a (ii * (ii + 1) / 2 + jj) -
                  a (ii * (ii + 1) / 2 + k) * aux' jj)) ad1
            (ad2, aux')) (k + 1 + s))
        st).1
    have inner := loop_inv_idx
      (fun s st2 =>
        (∀ j, k + 1 ≤ j → j < k + 1 + s → st2.2 j = schur A k j k)
        ∧ (∀ i j, j ≤ i → i < p →
            st2.1 (i * (i + 1) / 2 + j) =
              if k + 1 ≤ i ∧ i < k + 1 + s then
                (if j < k then croutL A i j
                 else if j = k then croutL A i k
                 else schur A (k + 1) i j)
              else st.1 (i * (i + 1) / 2 + j)))
      (p - (k + 1))
      (fun s =>
        (fun ii st2 =>
          let aux' := upd st2.2 ii (st2.1 (ii * (ii + 1) / 2 + k))
          let ad1 := upd st2.1 (ii * (ii + 1) / 2 + k)
            (st2.1 (ii * (ii + 1) / 2 + k) /
              st2.1 (k * (k + 1) / 2 + k))
          let ad2 := loopRange (k + 1) (ii + 1)
            (fun jj a => upd a (ii * (ii + 1) / 2 + jj)
              (a (ii * (ii + 1) / 2 + jj) -
                a (ii * (ii + 1) / 2 + k) * aux' jj)) ad1
          (ad2, aux')) (k + 1 + s))
      st
      (⟨fun j h1 h2 => absurd h2 (by omega),
        fun i j hj hi => by rw [if_neg (by omega)]⟩)
      ?istep
    case istep =>
      intro s hs st2 hQ
      obtain ⟨hQ1, hQ2⟩ := hQ
      have hiip : k + 1 + s < p := by omega
      -- values read by this row's updates
      have hv1 : st2.1 ((k + 1 + s) * ((k + 1 + s) + 1) / 2 + k) =
          schur A k (k + 1 + s) k := by
        rw [hQ2 (k + 1 + s) k (by omega) hiip, if_neg (by omega),
          hst (k + 1 + s) k (by omega) hiip, if_neg (by omega)]
      have hvkk : st2.1 (k * (k + 1) / 2 + k) = schur A k k k := by
        rw [hQ2 k k (le_refl k) (by omega), if_neg (by omega),
          hst k k (le_refl k) (by omega), if_neg (by omega)]
      show (∀ j, k + 1 ≤ j → j < k + 1 + (s + 1) →
          (upd st2.2 (k + 1 + s)
            (st2.1 ((k + 1 + s) * ((k + 1 + s) + 1) / 2 + k))) j =
            schur A k j k)
        ∧ (∀ i j, j ≤ i → i < p →
            (loopRange (k + 1) ((k + 1 + s) + 1)
              (fun jj a => upd a ((k + 1 + s) * ((k + 1 + s) + 1) / 2 + jj)
                (a ((k + 1 + s) * ((k + 1 + s) + 1) / 2 + jj) -
                  a ((k + 1 + s) * ((k + 1 + s) + 1) / 2 + k) *
                    (upd st2.2 (k + 1 + s)
                      (st2.1 ((k + 1 + s) * ((k + 1 + s) + 1) / 2 + k))) jj))
              (upd st2.1 ((k + 1 + s) * ((k + 1 + s) + 1) / 2 + k)
                (st2.1 ((k + 1 + s) * ((k + 1 + s) + 1) / 2 + k) /
                  st2.1 (k * (k + 1) / 2 + k))))
              (i * (i + 1) / 2 + j) =
              if k + 1 ≤ i ∧ i < k + 1 + (s + 1) then
                (if j < k then croutL A i j
                 else if j = k then croutL A i k
                 else schur A (k + 1) i j)
              else st.1 (i * (i + 1) / 2 + j))
      have jloop := crout_jj_loop (k + 1 + s) k
        (upd st2.2 (k + 1 + s)
          (st2.1 ((k + 1 + s) * ((k + 1 + s) + 1) / 2 + k)))
        (upd st2.1 ((k + 1 + s) * ((k + 1 + s) + 1) / 2 + k)
          (st2.1 ((k + 1 + s) * ((k + 1 + s) + 1) / 2 + k) /
            st2.1 (k * (k + 1) / 2 + k)))
      have haux : ∀ j, k + 1 ≤ j → j ≤ k + 1 + s →
          (upd st2.2 (k + 1 + s)
            (st2.1 ((k + 1 + s) * ((k + 1 + s) + 1) / 2 + k))) j =
            schur A k j k := by
        intro j h1 h2
        by_cases hje : j = k + 1 + s
        · rw [hje, upd_same, hv1]
        · rw [upd_ne _ _ _ _ hje]
          exact hQ1 j h1 (by omega)
      have had1_div : (upd st2.1 ((k + 1 + s) * ((k + 1 + s) + 1) / 2 + k)
          (st2.1 ((k + 1 + s) * ((k + 1 + s) + 1) / 2 + k) /
            st2.1 (k * (k + 1) / 2 + k)))
          ((k + 1 + s) * ((k + 1 + s) + 1) / 2 + k) =
          croutL A (k + 1 + s) k := by
        rw [upd_same, hv1, hvkk, croutL, if_pos (by omega)]
      have had1_other : ∀ i j, j ≤ i → i < p →
          ¬(i = k + 1 + s ∧ j = k) →
          (upd st2.1 ((k + 1 + s) * ((k + 1 + s) + 1) / 2 + k)
            (st2.1 ((k + 1 + s) * ((k + 1 + s) + 1) / 2 + k) /
              st2.1 (k * (k + 1) / 2 + k))) (i * (i + 1) / 2 + j) =
            st2.1 (i * (i + 1) / 2 + j) := by
        intro i j hj hi hne
        refine upd_ne _ _ _ _ (fun he => hne ?_)
        have := idx_inj hj (by omega) he
        exact ⟨this.1, this.2⟩
      constructor
      · exact fun j h1 h2 => haux j h1 (by omega)
      · intro i j hj hi
        by_cases hrow : i = k + 1 + s
        · subst hrow
          rcases Nat.lt_trichotomy j k with hjk | hjk | hjk
          · -- untouched column left of k
            rw [jloop.2 _ (fun jj h1 h2 he =>
                (by omega : j ≠ jj) (idx_inj hj (by omega) he).2),
              had1_other (k + 1 + s) j hj hi (by omega),
              hQ2 (k + 1 + s) j hj hi, if_neg (by omega),
              hst (k + 1 + s) j hj hi, if_pos hjk, if_pos (by omega),
              if_pos (by omega), if_pos hjk]
          · -- the divided column k
            subst hjk
            rw [jloop.2 _ (fun jj h1 h2 he =>
                (by omega : j ≠ jj) (idx_inj hj (by omega) he).2),
              had1_div, if_pos (by omega), if_neg (by omega), if_pos rfl]
          · -- Schur-updated columns
            rw [jloop.1 j (by omega) hj,
              had1_other (k + 1 + s) j hj hi (by omega), had1_div,
              hQ2 (k + 1 + s) j hj hi, if_neg (by omega),
              hst (k + 1 + s) j hj hi, if_neg (by omega),
              haux j (by omega) (by omega),
              if_pos (by omega), if_neg (by omega), if_neg (by omega)]
            show schur A k (k + 1 + s) j -
              croutL A (k + 1 + s) k * schur A k j k =
              schur A (k + 1) (k + 1 + s) j
            rw [croutL, if_pos (by omega)]
            show schur A k (k + 1 + s) j -
              schur A k (k + 1 + s) k / schur A k k k * schur A k j k = _
            rw [div_mul_eq_mul_div]
            rfl
        · -- other rows unchanged
          rw [jloop.2 _ (fun jj h1 h2 he =>
              hrow (idx_inj hj (by omega) he).1),
            had1_other i j hj hi (by omega), hQ2 i j hj hi]
          by_cases hc : k + 1 ≤ i ∧ i < k + 1 + s
          · have hcc : k + 1 ≤ i ∧ i < k + 1 + (s + 1) := by omega
            rw [if_pos hc, if_pos hcc]
          · have hcc : ¬(k + 1 ≤ i ∧ i < k + 1 + (s + 1)) := by
              rcases Nat.lt_or_ge i (k + 1) with h | h
              · omega
              · omega
            rw [if_neg hc, if_neg hcc]
    -- end of inner loop: conclude croutInv at k+1
    intro i j hj hi
    have h2 := inner.2 i j hj hi
    rw [h2]
    by_cases hri : k + 1 ≤ i
    · have hcc : k + 1 ≤ i ∧ i < k + 1 + (p - (k + 1)) := by omega
      rw [if_pos hcc]
      rcases Nat.lt_trichotomy j k with hjk | hjk | hjk
      · rw [if_pos hjk, if_pos (show j < k + 1 by omega),
          if_pos (show j < i by omega)]
      · rw [if_neg (show ¬j < k by omega), if_pos hjk,
          if_pos (show j < k + 1 by omega), if_pos (show j < i by omega),
          hjk]
      · rw [if_neg (show ¬j < k by omega), if_neg (show ¬j = k by omega),
          if_neg (show ¬j < k + 1 by omega)]
    · have hcc : ¬(k + 1 ≤ i ∧ i < k + 1 + (p - (k + 1))) := by omega
      rw [if_neg hcc, hst i j hj hi]
      by_cases hjk : j < k
      · rw [if_pos hjk, if_pos (show j < k + 1 by omega)]
      · have hje : j = k ∧ i = k := by omega
        rw [if_neg hjk, if_pos (show j < k + 1 by omega), hje.1, hje.2,
          if_neg (show ¬(k : ℕ) < k by omega)]
        show schur A k k k = croutD A k
        rfl
  -- conclude the final form from the outer invariant
  intro i j hj hi
  unfold fact_crout_pp
  rw [key i j hj hi]
  by_cases h1 : j < p - 1
  · rw [if_pos h1]
  · have hje : j = p - 1 ∧ i = p - 1 := by omega
    rw [if_neg h1, if_neg (by omega), hje.1, hje.2]
    show schur A (p - 1) (p - 1) (p - 1) = croutD A (p - 1)
    rfl

theorem loop_sum_congr (a : ℕ) (g g' : ℕ → ℚ) :
    ∀ n, (∀ j, j < n → g (a + j) = g' (a + j)) →
      loop n (fun k acc => acc + g (a + k)) (0 : ℚ) =
        loop n (fun k acc => acc + g' (a + k)) 0 := by
  intro n
  induction n with
  | zero => intro _; rfl
  | succ m ih =>
    intro h
    show loop m _ 0 + g (a + m) = loop m _ 0 + g' (a + m)
    rw [ih (fun j hj => h j (by omega)), h m (by omega)]

theorem loopRange_sum_congr (a b : ℕ) (g g' : ℕ → ℚ)
    (h : ∀ j, a ≤ j → j < b → g j = g' j) :
    loopRange a b (fun j acc => acc + g j) (0 : ℚ) =
      loopRange a b (fun j acc => acc + g' j) 0 := by
  unfold loopRange
  exact loop_sum_congr a g g' (b - a)
    (fun j hj => h (a + j) (by omega) (by omega))

theorem fwd_loop_spec (p : ℕ) (mat b : ℕ → ℚ) :
    ∀ i, i < p →
      (loop p (fun ii a => upd a ii
        (b ii - sumN ii (fun jj => a jj * mat (ii * (ii + 1) / 2 + jj))))
        (fun _ => (0 : ℚ))) i =
      b i - sumN i (fun jj =>
        (loop p (fun ii a => upd a ii
          (b ii - sumN ii (fun jj => a jj * mat (ii * (ii + 1) / 2 + jj))))
          (fun _ => (0 : ℚ))) jj * mat (i * (i + 1) / 2 + jj)) := by
  refine loop_inv_idx
    (fun r (a : ℕ → ℚ) => ∀ i, i < r → a i =
      b i - sumN i (fun jj => a jj * mat (i * (i + 1) / 2 + jj)))
    p _ _ (fun i hi => absurd hi (by omega)) ?_
  intro r hr a ha i hir
  show upd a r (b r - sumN r (fun jj => a jj * mat (r * (r + 1) / 2 + jj))) i
    = b i - sumN i (fun jj =>
      upd a r (b r - sumN r (fun jj => a jj * mat (r * (r + 1) / 2 + jj))) jj
        * mat (i * (i + 1) / 2 + jj))
  by_cases hieq : i = r
  · subst hieq
    rw [upd_same]
    congr 1
    refine sumN_congr _ _ _ (fun jj hjj => ?_)
    rw [upd_ne _ _ _ _ (by omega)]
  · rw [upd_ne _ _ _ _ hieq]
    rw [ha i (by omega)]
    congr 1
    refine sumN_congr _ _ _ (fun jj hjj => ?_)
    rw [upd_ne _ _ _ _ (by omega)]

theorem diag_loop_spec (p : ℕ) (mat a0 : ℕ → ℚ) :
    ∀ i, i < p →
      (loop p (fun ii a => upd a ii (a ii / mat (ii * (ii + 1) / 2 + ii)))
        a0) i = a0 i / mat (i * (i + 1) / 2 + i) := by
  have key := loop_inv_idx
    (fun r (a : ℕ → ℚ) =>
      (∀ i, i < r → a i = a0 i / mat (i * (i + 1) / 2 + i))
      ∧ (∀ i, r ≤ i → a i = a0 i))
    p (fun ii a => upd a ii (a ii / mat (ii * (ii + 1) / 2 + ii))) a0
    (⟨fun i hi => absurd hi (by omega), fun _ _ => rfl⟩) ?step
  · exact key.1
  case step =>
    intro r hr a hP
    obtain ⟨h1, h2⟩ := hP
    constructor
    · intro i hir
      show upd a r (a r / mat (r * (r + 1) / 2 + r)) i =
        a0 i / mat (i * (i + 1) / 2 + i)
      by_cases hieq : i = r
      · subst hieq
        rw [upd_same, h2 i (le_refl i)]
      · rw [upd_ne _ _ _ _ hieq]
        exact h1 i (by omega)
    · intro i hi
      show upd a r (a r / mat (r * (r + 1) / 2 + r)) i = a0 i
      rw [upd_ne _ _ _ _ (by omega)]
      exact h2 i (by omega)

theorem bwd_loop_spec (p : ℕ) (mat a2 : ℕ → ℚ) :
    ∀ i, i < p →
      (loop p (fun t x => upd x (p - 1 - t)
        (a2 (p - 1 - t) - loopRange (p - 1 - t + 1) p
          (fun jj acc => acc + x jj * mat (jj * (jj + 1) / 2 + (p - 1 - t)))
          0)) (fun _ => (0 : ℚ))) i =
      a2 i - loopRange (i + 1) p
        (fun jj acc => acc +
          (loop p (fun t x => upd x (p - 1 - t)
            (a2 (p - 1 - t) - loopRange (p - 1 - t + 1) p
              (fun jj acc => acc +
                x jj * mat (jj * (jj + 1) / 2 + (p - 1 - t))) 0))
            (fun _ => (0 : ℚ))) jj * mat (jj * (jj + 1) / 2 + i)) 0 := by
  have key := loop_inv_idx
    (fun t (x : ℕ → ℚ) => ∀ i, i < p → p - t ≤ i → x i =
      a2 i - loopRange (i + 1) p
        (fun jj acc => acc + x jj * mat (jj * (jj + 1) / 2 + i)) 0)
    p
    (fun t x => upd x (p - 1 - t)
      (a2 (p - 1 - t) - loopRange (p - 1 - t + 1) p
        (fun jj acc => acc + x jj * mat (jj * (jj + 1) / 2 + (p - 1 - t)))
        0))
    (fun _ => (0 : ℚ))
    (fun i hi h2 => absurd hi (by omega)) ?step
  · intro i hip
    exact key i hip (by omega)
  case step =>
    intro t ht x hx i hip hit
    show upd x (p - 1 - t)
        (a2 (p - 1 - t) - loopRange (p - 1 - t + 1) p
          (fun jj acc => acc + x jj * mat (jj * (jj + 1) / 2 + (p - 1 - t)))
          0) i
      = a2 i - loopRange (i + 1) p
        (fun jj acc => acc + upd x (p - 1 - t)
          (a2 (p - 1 - t) - loopRange (p - 1 - t + 1) p
            (fun jj acc => acc +
              x jj * mat (jj * (jj + 1) / 2 + (p - 1 - t))) 0) jj
          * mat (jj * (jj + 1) / 2 + i)) 0
    by_cases hieq : i = p - 1 - t
    · rw [hieq, upd_same]
      congr 1
      refine loopRange_sum_congr _ _ _ _ (fun jj hjj1 hjj2 => ?_)
      rw [upd_ne _ _ _ _ (by omega)]
    · rw [upd_ne _ _ _ _ hieq]
      rw [hx i hip (by omega)]
      congr 1
      refine loopRange_sum_congr _ _ _ _ (fun jj hjj1 hjj2 => ?_)
      rw [upd_ne _ _ _ _ (by omega)]

theorem sumN_eq_range (n : ℕ) (g : ℕ → ℚ) :
    sumN n g = ∑ i ∈ Finset.range n, g i := by
  induction n with
  | zero => rfl
  | succ m ih => rw [sumN_succ, ih, Finset.sum_range_succ]

theorem quadForm_eq_range (S : ℕ → ℕ → ℚ) (p : ℕ) (x : ℕ → ℚ) :
    quadForm S p x =
      ∑ i ∈ Finset.range p, ∑ j ∈ Finset.range p, x i * (S i j * x j) := by
  unfold quadForm
  rw [sumN_eq_range]
  refine Finset.sum_congr rfl (fun i _ => ?_)
  rw [sumN_eq_range, Finset.mul_sum]

theorem quadForm_schur_succ (A : ℕ → ℕ → ℚ) (k p : ℕ) (y : ℕ → ℚ) :
    quadForm (schur A (k + 1)) p y =
      quadForm (schur A k) p y -
        (∑ i ∈ Finset.range p, y i * schur A k i k) *
          (∑ j ∈ Finset.range p, schur A k j k * y j) /
          schur A k k k := by
  rw [quadForm_eq_range, quadForm_eq_range]
  have h1 : ∀ i ∈ Finset.range p, ∀ j ∈ Finset.range p,
      y i * (schur A (k + 1) i j * y j) =
        y i * (schur A k i j * y j) -
          (y i * schur A k i k) * (schur A k j k * y j) /
            schur A k k k := by
    intro i _ j _
    show y i * ((schur A k i j -
      schur A k i k * schur A k j k / schur A k k k) * y j) = _
    ring
  rw [Finset.sum_congr rfl (fun i hi =>
    Finset.sum_congr rfl (fun j hj => h1 i hi j hj))]
  rw [Finset.sum_congr rfl (fun i (_ : i ∈ Finset.range p) =>
    Finset.sum_sub_distrib)]
  rw [Finset.sum_sub_distrib]
  congr 1
  rw [Finset.sum_mul, Finset.sum_div]
  refine Finset.sum_congr rfl (fun i _ => ?_)
  rw [Finset.mul_sum, Finset.sum_div]

theorem quadForm_shift (S : ℕ → ℕ → ℚ) (p k : ℕ) (hk : k < p) (y : ℕ → ℚ)
    (t : ℚ) :
    quadForm S p (fun i => y i + (if i = k then t else 0)) =
      quadForm S p y
        + (∑ i ∈ Finset.range p, y i * S i k) * t
        + t * (∑ j ∈ Finset.range p, S k j * y j)
        + t * (S k k * t) := by
  rw [quadForm_eq_range, quadForm_eq_range]
  have h1 : ∀ i ∈ Finset.range p, ∀ j ∈ Finset.range p,
      (y i + (if i = k then t else 0)) *
        (S i j * (y j + (if j = k then t else 0))) =
      y i * (S i j * y j)
        + y i * (S i j * (if j = k then t else 0))
        + (if i = k then t else 0) * (S i j * y j)
        + (if i = k then t else 0) * (S i j * (if j = k then t else 0)) := by
    intro i _ j _
    ring
  rw [Finset.sum_congr rfl (fun i hi =>
    Finset.sum_congr rfl (fun j hj => h1 i hi j hj))]
  rw [Finset.sum_congr rfl (fun i (_ : i ∈ Finset.range p) =>
    by rw [Finset.sum_add_distrib, Finset.sum_add_distrib,
      Finset.sum_add_distrib])]
  rw [Finset.sum_add_distrib, Finset.sum_add_distrib,
    Finset.sum_add_distrib]
  have hc2 : ∀ i ∈ Finset.range p,
      ∑ j ∈ Finset.range p, y i * (S i j * (if j = k then t else 0)) =
        y i * S i k * t := by
    intro i _
    rw [Finset.sum_eq_single k]
    · rw [if_pos rfl]
      ring
    · intro j _ hjk
      rw [if_neg hjk]
      ring
    · intro hknot
      exact absurd (Finset.mem_range.mpr hk) hknot
  have hc3 : ∀ i ∈ Finset.range p,
      ∑ j ∈ Finset.range p,
        (if i = k then t else 0) * (S i j * y j) =
        (if i = k then t else 0) * ∑ j ∈ Finset.range p, S i j * y j := by
    intro i _
    rw [Finset.mul_sum]
  have hc4 : ∀ i ∈ Finset.range p,
      ∑ j ∈ Finset.range p,
        (if i = k then t else 0) * (S i j * (if j = k then t else 0)) =
        (if i = k then t else 0) * (S i k * t) := by
    intro i _
    rw [Finset.sum_eq_single k]
    · rw [if_pos rfl]
    · intro j _ hjk
      rw [if_neg hjk]
      ring
    · intro hknot
      exact absurd (Finset.mem_range.mpr hk) hknot
  rw [Finset.sum_congr rfl hc2, Finset.sum_congr rfl hc3,
    Finset.sum_congr rfl hc4]
  have hd3 : ∑ i ∈ Finset.range p,
      (if i = k then t else 0) * ∑ j ∈ Finset.range p, S i j * y j =
      t * ∑ j ∈ Finset.range p, S k j * y j := by
    rw [Finset.sum_eq_single k]
    · rw [if_pos rfl]
    · intro i _ hik
      rw [if_neg hik]
      ring
    · intro hknot
      exact absurd (Finset.mem_range.mpr hk) hknot
  have hd4 : ∑ i ∈ Finset.range p,
      (if i = k then t else 0) * (S i k * t) = t * (S k k * t) := by
    rw [Finset.sum_eq_single k]
    · rw [if_pos rfl]
    · intro i _ hik
      rw [if_neg hik]
      ring
    · intro hknot
      exact absurd (Finset.mem_range.mpr hk) hknot
  rw [hd3, hd4]
  have hlast : ∑ i ∈ Finset.range p, y i * S i k * t =
      (∑ i ∈ Finset.range p, y i * S i k) * t := by
    rw [Finset.sum_mul]
  rw [hlast]

theorem quadForm_delta (S : ℕ → ℕ → ℚ) (p k : ℕ) (hk : k < p) :
    quadForm S p (fun i => if i = k then 1 else 0) = S k k := by
  rw [quadForm_eq_range]
  rw [Finset.sum_eq_single k]
  · rw [if_pos rfl, Finset.sum_eq_single k]
    · rw [if_pos rfl]
      ring
    · intro j _ hjk
      rw [if_neg hjk]
      ring
    · intro hknot
      exact absurd (Finset.mem_range.mpr hk) hknot
  · intro i _ hik
    rw [if_neg hik]
    refine Finset.sum_eq_zero (fun j _ => ?_)
    ring
  · intro hknot
    exact absurd (Finset.mem_range.mpr hk) hknot

theorem posdef_schur (p : ℕ) (A : ℕ → ℕ → ℚ)
    (hsym : ∀ i j, i < p → j < p → A i j = A j i)
    (hpd : PosDefOn A 0 p) :
    ∀ k, k ≤ p → PosDefOn (schur A k) k p ∧
      (∀ i j, i < p → j < p → schur A k i j = schur A k j i) := by
  intro k
  induction k with
  | zero => exact fun _ => ⟨hpd, hsym⟩
  | succ k ih =>
    intro hk1
    obtain ⟨hposk, hsymk⟩ := ih (by omega)
    have hk : k < p := by omega
    have hD : 0 < schur A k k k := by
      have h := hposk (fun i => if i = k then 1 else 0)
        (fun i hi => if_neg (by omega))
        ⟨k, hk, by
          show (if k = k then (1 : ℚ) else 0) ≠ 0
          rw [if_pos rfl]
          norm_num⟩
      rw [quadForm_delta (schur A k) p k hk] at h
      exact h
    have hDne : schur A k k k ≠ 0 := ne_of_gt hD
    constructor
    · intro y hy0 hyw
      obtain ⟨i0, hi0, hyi0⟩ := hyw
      have hi0k : k + 1 ≤ i0 := by
        by_contra h
        exact hyi0 (hy0 i0 (by omega))
      have hrow_eq : (∑ i ∈ Finset.range p, y i * schur A k i k) =
          (∑ j ∈ Finset.range p, schur A k j k * y j) := by
        refine Finset.sum_congr rfl (fun i _ => ?_)
        ring
      set s := ∑ j ∈ Finset.range p, schur A k j k * y j with hs
      have hq1 := quadForm_schur_succ A k p y
      have hq2 := quadForm_shift (schur A k) p k hk y (-(s / schur A k k k))
      have hw := hposk (fun i => y i + (if i = k then
          -(s / schur A k k k) else 0))
        (fun i hi => by
          show y i + (if i = k then -(s / schur A k k k) else 0) = 0
          rw [hy0 i (by omega), if_neg (by omega)]
          norm_num)
        ⟨i0, hi0, by
          show y i0 + (if i0 = k then -(s / schur A k k k) else 0) ≠ 0
          rw [if_neg (by omega), add_zero]
          exact hyi0⟩
      rw [hq2] at hw
      rw [hq1, hrow_eq, ← hs]
      have hcol_eq : (∑ j ∈ Finset.range p, schur A k k j * y j) = s := by
        rw [hs]
        refine Finset.sum_congr rfl (fun j hj => ?_)
        rw [hsymk k j hk (Finset.mem_range.mp hj)]
      rw [hrow_eq, hcol_eq] at hw
      have hrewrite : quadForm (schur A k) p y - s * s / schur A k k k =
          quadForm (schur A k) p y + s * -(s / schur A k k k)
            + -(s / schur A k k k) * s
            + -(s / schur A k k k) *
              (schur A k k k * -(s / schur A k k k)) := by
        field_simp
        ring
      rw [hrewrite]
      exact hw
    · intro i j hi hj
      show schur A k i j - schur A k i k * schur A k j k / schur A k k k
        = schur A k j i - schur A k j k * schur A k i k / schur A k k k
      rw [hsymk i j hi hj]
      ring

theorem pivot_pos (p : ℕ) (A : ℕ → ℕ → ℚ)
    (hsym : ∀ i j, i < p → j < p → A i j = A j i)
    (hpd : PosDefOn A 0 p) :
    ∀ m, m < p → 0 < schur A m m m := by
  intro m hm
  obtain ⟨hpos, _⟩ := posdef_schur p A hsym hpd m (le_of_lt hm)
  have h := hpos (fun i => if i = m then 1 else 0)
    (fun i hi => if_neg (by omega))
    ⟨m, hm, by
      show (if m = m then (1 : ℚ) else 0) ≠ 0
      rw [if_pos rfl]
      norm_num⟩
  rw [quadForm_delta (schur A m) p m hm] at h
  exact h

theorem schur_telescope (p : ℕ) (A : ℕ → ℕ → ℚ)
    (hD : ∀ m, m < p → schur A m m m ≠ 0)
    (i j : ℕ) (hj : j ≤ i) (hi : i < p) :
    ∀ k, k ≤ j → A i j =
      (∑ m ∈ Finset.range k, croutL A i m * croutD A m * croutL A j m)
        + schur A k i j := by
  intro k
  induction k with
  | zero =>
    intro _
    rw [Finset.sum_range_zero, zero_add]
    rfl
  | succ k ih =>
    intro hk1
    rw [ih (by omega), Finset.sum_range_succ]
    have hki : k < i := by omega
    have hkj : k < j := by omega
    have hLik : croutL A i k = schur A k i k / schur A k k k := by
      unfold croutL
      rw [if_pos hki]
    have hLjk : croutL A j k = schur A k j k / schur A k k k := by
      unfold croutL
      rw [if_pos hkj]
    have hS : schur A (k + 1) i j =
        schur A k i j - schur A k i k * schur A k j k / schur A k k k := rfl
    rw [hS, hLik, hLjk]
    unfold croutD
    have hDk : schur A k k k ≠ 0 := hD k (by omega)
    field_simp
    ring

theorem croutL_upper_zero (A : ℕ → ℕ → ℚ) (j m : ℕ) (h : j < m) :
    croutL A j m = 0 := by
  unfold croutL
  rw [if_neg (by omega), if_neg (by omega)]

theorem croutL_diag_one (A : ℕ → ℕ → ℚ) (j : ℕ) : croutL A j j = 1 := by
  unfold croutL
  rw [if_neg (lt_irrefl j), if_pos rfl]

theorem crout_factorization_le (p : ℕ) (A : ℕ → ℕ → ℚ)
    (hD : ∀ m, m < p → schur A m m m ≠ 0)
    (i j : ℕ) (hj : j ≤ i) (hi : i < p) :
    A i j = ∑ m ∈ Finset.range p,
      croutL A i m * croutD A m * croutL A j m := by
  have htel := schur_telescope p A hD i j hj hi j (le_refl j)
  have hsub : (∑ m ∈ Finset.range (j + 1),
        croutL A i m * croutD A m * croutL A j m)
      = ∑ m ∈ Finset.range p, croutL A i m * croutD A m * croutL A j m := by
    refine Finset.sum_subset (Finset.range_subset.mpr (by omega)) ?_
    intro m hmp hmj
    rw [croutL_upper_zero A j m (by
      have h1 := Finset.mem_range.mp hmp
      have h2 : ¬ m < j + 1 := fun h => hmj (Finset.mem_range.mpr h)
      omega)]
    ring
  rw [← hsub, Finset.sum_range_succ, htel]
  congr 1
  by_cases hij : j = i
  · subst hij
    rw [croutL_diag_one]
    unfold croutD
    ring
  · have hji : j < i := by omega
    have hLij : croutL A i j = schur A j i j / schur A j j j := by
      unfold croutL
      rw [if_pos hji]
    rw [hLij, croutL_diag_one]
    unfold croutD
    have hDj : schur A j j j ≠ 0 := hD j (by omega)
    field_simp

theorem crout_factorization (p : ℕ) (A : ℕ → ℕ → ℚ)
    (hsym : ∀ i j, i < p → j < p → A i j = A j i)
    (hD : ∀ m, m < p → schur A m m m ≠ 0)
    (i j : ℕ) (hi : i < p) (hj : j < p) :
    A i j = ∑ m ∈ Finset.range p,
      croutL A i m * croutD A m * croutL A j m := by
  rcases le_or_lt j i with h | h
  · exact crout_factorization_le p A hD i j h hi
  · rw [hsym i j hi hj, crout_factorization_le p A hD j i (le_of_lt h) hj]
    refine Finset.sum_congr rfl (fun m _ => by ring)

theorem loopRange_sum_eq (a b : ℕ) (g : ℕ → ℚ) :
    loopRange a b (fun j acc => acc + g j) (0 : ℚ) =
      ∑ k ∈ Finset.range (b - a), g (a + k) := by
  show sumN (b - a) (fun k => g (a + k)) = _
  rw [sumN_eq_range]

theorem sum_range_split (p : ℕ) (f : ℕ → ℚ) (m : ℕ) (hm : m < p) :
    (∑ j ∈ Finset.range p, f j) =
      (∑ j ∈ Finset.range m, f j) + f m +
        ∑ k ∈ Finset.range (p - (m + 1)), f (m + 1 + k) := by
  have hp : p = (m + 1) + (p - (m + 1)) := by omega
  nth_rewrite 1 [hp]
  rw [Finset.sum_range_add, Finset.sum_range_succ]

/-- C8: for every symmetric positive-definite matrix `A` stored in the
packed lower-triangular layout `ad`, the Crout factorization
`_fact_crout_pp` followed by the forward/backward substitution
`_fw_and_bw_ldtl_pp` produces a vector `x` with `A·x = b` exactly, for
every right-hand side `b` and every row `i < p`. -/
theorem crout_ldlt_solve_correct (p : ℕ) (A : ℕ → ℕ → ℚ) (ad b : ℕ → ℚ)
    (hpack : ∀ i j, j ≤ i → i < p → ad (i * (i + 1) / 2 + j) = A i j)
    (hspd : IsSPD p A) :
    ∀ i, i < p →
      sumN p (fun j => A i j *
        fw_and_bw_ldtl_pp (fact_crout_pp p ad) p b j) = b i := by
  obtain ⟨hsym, hposd⟩ := hspd
  have hpd : PosDefOn A 0 p := fun x _ hx => hposd x hx
  have hD : ∀ m, m < p → schur A m m m ≠ 0 :=
    fun m hm => ne_of_gt (pivot_pos p A hsym hpd m hm)
  intro i hip
  set mat := fact_crout_pp p ad with hmatdef
  have hmat : ∀ i j, j ≤ i → i < p →
      mat (i * (i + 1) / 2 + j) =
        if j < i then croutL A i j else croutD A i :=
    fact_crout_pp_spec p A ad hpack
  set aux1 := loop p (fun ii a => upd a ii
      (b ii - sumN ii (fun jj => a jj * mat (ii * (ii + 1) / 2 + jj))))
    (fun _ => (0 : ℚ)) with ha1def
  set aux2 := loop p (fun ii a => upd a ii
      (a ii / mat (ii * (ii + 1) / 2 + ii))) aux1 with ha2def
  set x := loop p (fun t xx => upd xx (p - 1 - t)
      (aux2 (p - 1 - t) - loopRange (p - 1 - t + 1) p
        (fun jj acc => acc + xx jj * mat (jj * (jj + 1) / 2 + (p - 1 - t)))
        0)) (fun _ => (0 : ℚ)) with hxdef
  have hfb : ∀ j, fw_and_bw_ldtl_pp mat p b j = x j := fun j => rfl
  have hE1 : ∀ m, m < p → aux1 m =
      b m - sumN m (fun jj => aux1 jj * mat (m * (m + 1) / 2 + jj)) := by
    intro m hm
    rw [ha1def]
    exact fwd_loop_spec p mat b m hm
  have hE2 : ∀ m, m < p → aux2 m = aux1 m / mat (m * (m + 1) / 2 + m) := by
    intro m hm
    rw [ha2def]
    exact diag_loop_spec p mat aux1 m hm
  have hE3 : ∀ m, m < p → x m = aux2 m - loopRange (m + 1) p
      (fun jj acc => acc + x jj * mat (jj * (jj + 1) / 2 + m)) 0 := by
    intro m hm
    have h := bwd_loop_spec p mat aux2 m hm
    rw [← hxdef] at h
    exact h
  have hA1 : ∀ m, m < p → aux1 m =
      b m - ∑ jj ∈ Finset.range m, croutL A m jj * aux1 jj := by
    intro m hm
    rw [hE1 m hm, sumN_eq_range]
    congr 1
    refine Finset.sum_congr rfl (fun jj hjj => ?_)
    have hjm := Finset.mem_range.mp hjj
    rw [hmat m jj (by omega) hm, if_pos hjm]
    ring
  have hA2 : ∀ m, m < p → croutD A m * aux2 m = aux1 m := by
    intro m hm
    rw [hE2 m hm, hmat m m (le_refl m) hm, if_neg (lt_irrefl m)]
    have hDm : croutD A m ≠ 0 := by
      unfold croutD
      exact hD m hm
    field_simp
  have hA3 : ∀ m, m < p → x m = aux2 m -
      ∑ k ∈ Finset.range (p - (m + 1)),
        croutL A (m + 1 + k) m * x (m + 1 + k) := by
    intro m hm
    rw [hE3 m hm, loopRange_sum_eq]
    congr 1
    refine Finset.sum_congr rfl (fun k hk => ?_)
    rw [hmat (m + 1 + k) m (by omega) (by
      have := Finset.mem_range.mp hk
      omega), if_pos (by omega)]
    ring
  have hkey1 : ∀ m, m < p →
      (∑ j ∈ Finset.range p, croutL A j m * x j) = aux2 m := by
    intro m hm
    rw [sum_range_split p (fun j => croutL A j m * x j) m hm]
    have hz : (∑ j ∈ Finset.range m, croutL A j m * x j) = 0 :=
      Finset.sum_eq_zero (fun j hj => by
        rw [croutL_upper_zero A j m (Finset.mem_range.mp hj)]
        ring)
    rw [hz, croutL_diag_one, zero_add, one_mul, hA3 m hm]
    ring
  have hkey3 : (∑ m ∈ Finset.range p, croutL A i m * aux1 m) = b i := by
    rw [sum_range_split p (fun m => croutL A i m * aux1 m) i hip]
    have hz : (∑ k ∈ Finset.range (p - (i + 1)),
        croutL A i (i + 1 + k) * aux1 (i + 1 + k)) = 0 :=
      Finset.sum_eq_zero (fun k hk => by
        rw [croutL_upper_zero A i (i + 1 + k) (by omega)]
        ring)
    rw [hz, croutL_diag_one, one_mul, add_zero, hA1 i hip]
    ring
  have hswap : (∑ j ∈ Finset.range p, A i j * x j) =
      ∑ m ∈ Finset.range p, croutL A i m * croutD A m *
        (∑ j ∈ Finset.range p, croutL A j m * x j) := by
    have h1 : ∀ j ∈ Finset.range p, A i j * x j =
        ∑ m ∈ Finset.range p,
          croutL A i m * croutD A m * croutL A j m * x j := by
      intro j hj
      rw [crout_factorization p A hsym hD i j hip (Finset.mem_range.mp hj),
        Finset.sum_mul]
    rw [Finset.sum_congr rfl h1, Finset.sum_comm]
    refine Finset.sum_congr rfl (fun m _ => ?_)
    rw [Finset.mul_sum]
    refine Finset.sum_congr rfl (fun j _ => ?_)
    ring
  rw [sumN_eq_range]
  have hgoal : (∑ j ∈ Finset.range p, A i j *
      fw_and_bw_ldtl_pp mat p b j) = ∑ j ∈ Finset.range p, A i j * x j :=
    Finset.sum_congr rfl (fun j _ => by rw [hfb j])
  rw [hgoal, hswap]
  have hfinal : ∀ m ∈ Finset.range p,
      croutL A i m * croutD A m *
        (∑ j ∈ Finset.range p, croutL A j m * x j) =
      croutL A i m * aux1 m := by
    intro m hm
    rw [hkey1 m (Finset.mem_range.mp hm), mul_assoc,
      hA2 m (Finset.mem_range.mp hm)]
  rw [Finset.sum_congr rfl hfinal, hkey3]

/-- Witness: the Crout round trip solves the concrete SPD system
`[[2,1],[1,2]]·x = (1,1)` at row 0. -/
theorem crout_ldlt_solve_correct_witness :
    sumN 2 (fun j => matW 0 j *
      fw_and_bw_ldtl_pp (fact_crout_pp 2 adW) 2 rhsW j) = rhsW 0 :=
  crout_ldlt_solve_correct 2 matW adW rhsW
    (by
      intro i j hj hi
      interval_cases i <;> interval_cases j <;> norm_num [adW, matW])
    ⟨by
      intro i j hi hj
      interval_cases i <;> interval_cases j <;> norm_num [matW],
     by
      intro x hx
      obtain ⟨i, hi, hxi⟩ := hx
      have hq : quadForm matW 2 x =
          2 * x 0 * x 0 + 2 * x 0 * x 1 + 2 * x 1 * x 1 := by
        show (0 + x 0 * (0 + matW 0 0 * x 0 + matW 0 1 * x 1))
            + x 1 * (0 + matW 1 0 * x 0 + matW 1 1 * x 1) = _
        norm_num [matW]
        ring
      rw [hq]
      interval_cases i
      · nlinarith [mul_self_nonneg (x 0 + x 1), mul_self_nonneg (x 1),
          mul_self_pos.mpr hxi]
      · nlinarith [mul_self_nonneg (x 0 + x 1), mul_self_nonneg (x 0),
          mul_self_pos.mpr hxi]⟩
    0 (by norm_num)

end CS
